import Mathlib

/-!
# rednav: wire codec, command engine and session handler

A shallow embedding of the Go sources of `rednav` (an in-memory key-value
server speaking a RESP-like protocol) together with theorems about it.

* Go `string` and `[]byte` values are byte sequences: `GoString = List UInt8`.
* A Go slice that is re-sliced beyond its length is a `ByteSlice`: the
  visible elements and the rest of the backing array up to its capacity.
* Functions that can fail return `Result` (Go `error` value or run-time
  panic) or `Option` (`none` is a run-time panic).
* Mutable state (`Server`, `Vault`, `MemoryStorage`, connections) is passed
  explicitly; what the environment decides (the clock, the outcome of
  `net.Dial`, Unicode case tables) is a parameter.
-/

namespace Rednav

/-! ## Byte strings and the pieces of the Go standard library that are used -/

/-- A Go `string` or `[]byte`: a finite sequence of bytes. -/
abbrev GoString := List UInt8

/-- The bytes of an ASCII string literal of the source. -/
def ascii (s : String) : GoString := s.toList.map (fun c => UInt8.ofNat c.toNat)

/-- The two-byte separator `"\r\n"`. -/
def CRLF : GoString := [13, 10]

/-- Worker of `fmtNat`: pushes the decimal digits of `n` in front of `acc`. -/
def digitsAux : Nat → Nat → GoString → GoString
  | 0, _, acc => acc
  | fuel + 1, n, acc =>
    if n / 10 = 0 then UInt8.ofNat (48 + n % 10) :: acc
    else digitsAux fuel (n / 10) (UInt8.ofNat (48 + n % 10) :: acc)

/-- The text `fmt` prints for a non-negative `int` under `%d` (and `fmt.Sprint`):
its decimal digits, most significant first. -/
def fmtNat (n : Nat) : GoString := digitsAux (n + 1) n []

/-- The text `fmt` prints for an `int` under `%d`. -/
def fmtInt : Int → GoString
  | Int.ofNat n => fmtNat n
  | Int.negSucc n => 45 :: fmtNat (n + 1)

/-- Whether a byte is one of `'0'..'9'`. -/
def isDigit (b : UInt8) : Bool := decide (48 ≤ b.toNat ∧ b.toNat ≤ 57)

/-- The accumulation loop of `strconv`: `n = n*10 + int(ch - '0')`. -/
def digitsValue (s : GoString) : Nat := s.foldl (fun n ch => n * 10 + (ch.toNat - 48)) 0

/-- Splits an optional leading sign off: `(negative, rest)`. -/
def splitSign : GoString → Bool × GoString
  | [] => (false, [])
  | b :: r => if b = 45 then (true, r) else if b = 43 then (false, r) else (false, b :: r)

/-- The function `strconv.Atoi` of the Go standard library, for a 64-bit `int`:
an optional sign, then one or more decimal digits, the value within the range
of `int64`; `none` stands for a non-nil error. -/
def Atoi (s : GoString) : Option Int :=
  let sd := splitSign s
  if sd.2 = [] ∨ sd.2.all isDigit = false then none
  else
    let v : Int := if sd.1 then - (digitsValue sd.2 : Int) else (digitsValue sd.2 : Int)
    if -9223372036854775808 ≤ v ∧ v ≤ 9223372036854775807 then some v else none

/-- The call `bytes.Split(s, []byte("\r\n"))`: cut at every occurrence of CRLF,
found from left to right and not overlapping; the result has one more piece than
there are cuts. -/
def splitCRLF : GoString → List GoString
  | [] => [[]]
  | [b] => [[b]]
  | b :: c :: rest =>
    if b = 13 ∧ c = 10 then [] :: splitCRLF rest
    else match splitCRLF (c :: rest) with
      | [] => [[b]]
      | p :: ps => (b :: p) :: ps

/-- The call `strings.Join(elems, sep)`. -/
def Join : List GoString → GoString → GoString
  | [], _ => []
  | [a], _ => a
  | a :: b :: rest, sep => a ++ sep ++ Join (b :: rest) sep

/-- Whether the byte sequence contains the separator CRLF. -/
def hasCRLF : GoString → Bool
  | [] => false
  | [_] => false
  | b :: c :: rest => (decide (b = 13 ∧ c = 10)) || hasCRLF (c :: rest)

/-- Conversion of an `int64` product to its wrapped 64-bit value. -/
def wrapInt64 (x : Int) : Int := (x + 9223372036854775808) % 18446744073709551616 - 9223372036854775808

/-! ## utils/resp_parser.go -/

/-- Constant `kMaxMsg`. -/
def kMaxMsg : Nat := 4096

/-- Constant `kMaxArgs`. -/
def kMaxArgs : Nat := 128

/-- A Go byte slice with its backing array: `elems` is `data[0:len(data)]`, `spare`
is what lies between `len(data)` and `cap(data)`. -/
structure ByteSlice where
  /-- The visible elements `data[0:len(data)]`. -/
  elems : GoString
  /-- The backing array from `len(data)` up to `cap(data)`. -/
  spare : GoString

/-- Outcome of a Go function returning `(value, error)` that may also panic. -/
inductive Result (α : Type) where
  | ok (val : α)
  | error (msg : GoString)
  | panic
  deriving DecidableEq

/-- The loop `for i := 1; i < len(parts)-1; i += 2 { out = append(out, parts[i+1]) }`
run on `parts[1:]`: as long as two more segments are left, skip one and keep the next. -/
def pairTokens : List GoString → List GoString
  | _ :: tok :: rest => tok :: pairTokens rest
  | _ => []

/-- Function `ParseReq(data []byte, length uint32) ([]string, error)`. -/
def ParseReq (data : ByteSlice) (length : Nat) : Result (List GoString) :=
  if length < 4 then Result.error (ascii "invalid length")
  else match data.elems with
    | [] => Result.panic
    | b0 :: _ =>
      if b0 ≠ 42 then Result.error (ascii "invalid protocol")
      else if data.elems.length + data.spare.length < length then Result.panic
      else
        let parts := splitCRLF (((data.elems ++ data.spare).take length).drop 1)
        if parts.length < 3 then Result.error (ascii "invalid message format")
        else match Atoi (parts.headD []) with
          | none => Result.error (ascii "invalid number of arguments")
          | some numArgs =>
            if numArgs < 1 ∨ numArgs > (kMaxArgs : Int) then
              Result.error (ascii "invalid number of arguments")
            else Result.ok (pairTokens (parts.drop 1))

/-- Decoding of a whole frame: `ParseReq(data, len(data))`, whatever the capacity. -/
def decode (data : GoString) : Result (List GoString) := ParseReq ⟨data, []⟩ data.length

/-! ## commands/command.go -/

/-- The struct `commands.Command`, fields in the order of the source:
`Typ`, `Str`, `Bulk`, `List` (here `Items`), `Err`, `Arr`. A struct literal that
leaves a field out gives it the zero value, the empty string or the nil slice. -/
inductive Command where
  | mk (Typ Str Bulk : GoString) (Items : List GoString) (Err : GoString) (Arr : List Command)

/-- Field `Typ`. -/
def Command.Typ : Command → GoString
  | Command.mk t _ _ _ _ _ => t

/-- Field `Str`. -/
def Command.Str : Command → GoString
  | Command.mk _ s _ _ _ _ => s

/-- Field `Bulk`. -/
def Command.Bulk : Command → GoString
  | Command.mk _ _ b _ _ _ => b

/-- Field `List`. -/
def Command.Items : Command → List GoString
  | Command.mk _ _ _ l _ _ => l

/-- Field `Err`. -/
def Command.Err : Command → GoString
  | Command.mk _ _ _ _ e _ => e

/-- Field `Arr`. -/
def Command.Arr : Command → List Command
  | Command.mk _ _ _ _ _ a => a

/-- The literal `commands.Command{Typ: "bulk", Bulk: arg}` that the dispatchers build
for every argument token. -/
def bulkArg (arg : GoString) : Command := Command.mk (ascii "bulk") [] arg [] [] []

/-! ## server/server.go: encoders -/

/-- The text of `fmt.Sprintf("$%d\r\n%s\r\n", len(s), s)`. -/
def bulkFrame (s : GoString) : GoString := ascii "$" ++ fmtNat s.length ++ CRLF ++ s ++ CRLF

/-- Function `EncodeCommand(cmd string, args []commands.Command) []byte`. -/
def EncodeCommand (cmd : GoString) (args : List Command) : GoString :=
  (ascii "*" ++ fmtNat (args.length + 1) ++ CRLF) ++ bulkFrame cmd
    ++ (args.map (fun c => bulkFrame c.Bulk)).flatten

mutual
/-- Function `formatResponse(cmd commands.Command) []byte`. -/
def formatResponse : Command → GoString
  | Command.mk typ str bulk items err arr =>
    if typ = ascii "string" then str ++ CRLF
    else if typ = ascii "list" then
      ascii "*" ++ fmtNat items.length ++ CRLF ++ Join items CRLF ++ CRLF
    else if typ = ascii "nil" then ascii "$-1\r\n"
    else if typ = ascii "err" then ascii "-ERR " ++ err ++ CRLF
    else if typ = ascii "arr" ∨ typ = ascii "multi" then
      ascii "*" ++ fmtNat arr.length ++ CRLF ++ formatResponseAll arr
    else if typ = ascii "bulk" then ascii "$" ++ fmtNat bulk.length ++ CRLF ++ bulk ++ CRLF
    else ascii "-ERR Unknown response type\r\n"
/-- The loop of the `"arr", "multi"` case: the encodings of the elements, appended in order. -/
def formatResponseAll : List Command → GoString
  | [] => []
  | c :: cs => formatResponse c ++ formatResponseAll cs
end

/-! ## app/db.go -/

/-- A value held in an `interface{}`: the dynamic types that `GetType` tells apart,
and any other one. -/
inductive GoValue where
  | string (s : GoString)
  | int (n : Int)
  | float64 (bits : Nat)
  | other
  deriving DecidableEq

/-- The struct `Item`. A `time.Time` is the number of nanoseconds since the zero
`time.Time`, so the zero value of `Lifetime` is `0`. -/
structure Item where
  /-- Field `Value`. -/
  Value : GoValue
  /-- Field `Lifetime`. -/
  Lifetime : Int
  deriving DecidableEq

/-- The struct `MemoryStorage`: the map `storage` from key to `Item`. -/
structure MemoryStorage where
  /-- Field `storage`. -/
  storage : GoString → Option Item

/-- Function `NewMemoryStorage`. -/
def NewMemoryStorage : MemoryStorage := ⟨fun _ => none⟩

/-- Method `MemoryStorage.Save(key, value, lifetime *time.Time)`. -/
def MemoryStorage.Save (ms : MemoryStorage) (key : GoString) (value : GoValue)
    (lifetime : Option Int) : MemoryStorage :=
  let item : Item := match lifetime with
    | some t => ⟨value, t⟩
    | none => ⟨value, 0⟩
  ⟨fun k => if k = key then some item else ms.storage k⟩

/-- Method `MemoryStorage.Get(key) interface{}`; `none` is the nil interface. -/
def MemoryStorage.Get (ms : MemoryStorage) (key : GoString) : Option GoValue :=
  match ms.storage key with
  | none => none
  | some item => some item.Value

/-- Method `MemoryStorage.Expired(lifetime)`, the clock made explicit. -/
def MemoryStorage.Expired (now : Int) (lifetime : Int) : Bool := decide (lifetime < now)

/-- Method `MemoryStorage.GetType(key)`, the clock made explicit. -/
def MemoryStorage.GetType (ms : MemoryStorage) (now : Int) (key : GoString) : GoString :=
  match ms.storage key with
  | none => ascii "none"
  | some item =>
    if item.Lifetime ≠ 0 ∧ MemoryStorage.Expired now item.Lifetime then ascii "none"
    else match item.Value with
      | GoValue.string _ => ascii "string"
      | GoValue.int _ => ascii "integer"
      | GoValue.float64 _ => ascii "float"
      | GoValue.other => ascii "unknown"

/-! ## app/config.go and app/vault.go -/

/-- The struct `Config`. -/
structure Config where
  /-- Field `Port`. -/
  Port : Int
  /-- Field `Host`. -/
  Host : GoString
  /-- Field `Master_host`. -/
  Master_host : GoString
  /-- Field `Master_port`. -/
  Master_port : Int

/-- An open `net.Conn` as this process sees it: the peer address, whether a `Write`
on it fails, and the byte strings written so far, oldest first. -/
structure Conn where
  /-- Address of the peer. -/
  addr : GoString
  /-- Whether `Write` returns an error. -/
  broken : Bool
  /-- Arguments of the successful `Write` calls, in order. -/
  sent : List GoString
  deriving DecidableEq

/-- Method `Write` of a connection: a failed write delivers nothing. -/
def Conn.Write (c : Conn) (data : GoString) : Conn :=
  if c.broken then c else { c with sent := c.sent ++ [data] }

/-- Constant `MASTER`. -/
def MASTER : GoString := ascii "master"

/-- Constant `REPLICA`. -/
def REPLICA : GoString := ascii "replica"

/-- Constant `ACK`. -/
def ACK : GoString := ascii "ACK"

/-- Constant `RELPCONF`. -/
def RELPCONF : GoString := ascii "REPLCONF"

/-- The struct `Vault` (its mutexes left out). -/
structure Vault where
  /-- Field `config`. -/
  config : Config
  /-- Field `role`. -/
  role : GoString
  /-- Field `MainReplicaID`. -/
  MainReplicaID : GoString
  /-- Field `MainReplicaOffset`. -/
  MainReplicaOffset : Int
  /-- Field `memory`. -/
  memory : MemoryStorage
  /-- Field `ReplicaPresent`. -/
  ReplicaPresent : Bool
  /-- Field `alreadyConnectedMaster`. -/
  alreadyConnectedMaster : Bool
  /-- Field `MasterConn`; `none` is the nil interface. -/
  MasterConn : Option Conn

/-- Method `Vault.IsMaster`. -/
def Vault.IsMaster (v : Vault) : Bool := decide (v.role = MASTER)

/-- Method `Vault.SetMemory(key, value string, expiration *time.Time)`. -/
def Vault.SetMemory (v : Vault) (key value : GoString) (expiration : Option Int) : Vault :=
  { v with memory := v.memory.Save key (GoValue.string value) expiration }

/-- Method `Vault.GetMemory(key) interface{}`. -/
def Vault.GetMemory (v : Vault) (key : GoString) : Option GoValue := v.memory.Get key

/-- Method `Vault.GetInfo`. -/
def Vault.GetInfo (v : Vault) : GoString :=
  if v.IsMaster then ascii "role:" ++ v.role ++ ascii "\n"
  else ascii "role:" ++ v.role ++ ascii "\nmain_replid:" ++ v.MainReplicaID
    ++ ascii "\nmain_repl_offset:" ++ fmtInt v.MainReplicaOffset ++ ascii "\n"

/-- The bytes that `base64.StdEncoding.DecodeString` returns for the literal in
`Vault.RDBParsed`. -/
def rdbBytes : GoString :=
  [82, 69, 68, 73, 83, 48, 48, 49, 49, 250, 9, 114, 101, 100, 105, 115, 45, 118, 101, 114,
   5, 55, 46, 50, 46, 48, 250, 10, 114, 101, 100, 105, 115, 45, 98, 105, 116, 115, 192, 64,
   250, 5, 99, 116, 105, 109, 101, 194, 109, 8, 188, 101, 250, 8, 117, 115, 101, 100, 45,
   109, 101, 109, 194, 176, 196, 16, 0, 250, 8, 97, 111, 102, 45, 98, 97, 115, 101, 192, 0,
   255, 240, 110, 59, 254, 192, 255, 90, 162]

/-- Method `Vault.RDBParsed`. -/
def Vault.RDBParsed (_v : Vault) : GoString :=
  ascii "$" ++ fmtNat rdbBytes.length ++ CRLF ++ rdbBytes ++ CRLF

/-! ## The environment -/

/-- What the surroundings of the process decide. -/
structure World where
  /-- The result of `strings.Map(unicode.ToUpper, s)`, which `strings.ToUpper`
  returns for a string that has a byte outside ASCII. -/
  unicodeUpper : GoString → GoString
  /-- The outcome of the `attempt`-th call `net.Dial("tcp", address)`: the opened
  connection, or `none` for an error. -/
  dial : GoString → Nat → Option Conn

/-- The function `strings.ToUpper` of the Go standard library: a string of ASCII bytes
has its letters `a..z` replaced by `A..Z`; any other string goes through the
Unicode tables. -/
def ToUpper (w : World) (s : GoString) : GoString :=
  if s.all (fun c => decide (c.toNat < 128)) then
    s.map (fun c => if 97 ≤ c.toNat ∧ c.toNat ≤ 122 then UInt8.ofNat (c.toNat - 32) else c)
  else w.unicodeUpper s

/-! ## server/server.go: state -/

/-- The struct `Server`. The field `masterConn` is the same connection as
`vault.MasterConn` and is kept there; the listener, the accepted connection, the
quit channel and the map `ReplicasStatus`, which no modelled function reads, are left out. -/
structure Server where
  /-- Field `vault`. -/
  vault : Vault
  /-- Field `talkingWithMain`. -/
  talkingWithMain : Bool
  /-- Field `talkingWithReplica`. -/
  talkingWithReplica : Bool
  /-- Field `address`. -/
  address : GoString
  /-- Field `Replicas`. -/
  Replicas : List Conn
  /-- Field `role`. -/
  role : GoString

/-- The first successful attempt of the loop
`for attempt := 0; attempt < 5; attempt++ { conn, err = net.Dial(...); if err == nil { break } ... }`. -/
def dialAttempts (w : World) (address : GoString) : Option Conn :=
  (List.range 5).findSome? (fun attempt => w.dial address attempt)

/-- Method `Server.ReplicasConnection(address)`. -/
def Server.ReplicasConnection (s : Server) (w : World) (address : GoString) : Server :=
  let s1 : Server :=
    { s with talkingWithReplica := true, vault := { s.vault with ReplicaPresent := true } }
  match dialAttempts w address with
  | none => s1
  | some conn => { s1 with Replicas := s1.Replicas ++ [conn] }

/-- Function `isWriteCommand`. -/
def isWriteCommand (cmd : GoString) : Bool :=
  [ascii "SET", ascii "DEL"].any (fun wc => decide (wc = cmd))

/-- Method `Server.sendToReplicas(cmd, args)`. -/
def Server.sendToReplicas (s : Server) (cmd : GoString) (args : List Command) : Server :=
  { s with Replicas := s.Replicas.map (fun replica => replica.Write (EncodeCommand cmd args)) }

/-- Method `Server.sendToMaster(cmd, args)`; `none` is the panic of a call on the nil
`MasterConn`. -/
def Server.sendToMaster (s : Server) (cmd : GoString) (args : List Command) : Option Server :=
  match s.vault.MasterConn with
  | none => none
  | some conn =>
    some { s with vault := { s.vault with MasterConn := some (conn.Write (EncodeCommand cmd args)) } }

/-! ## commands/*.go: the handlers -/

/-- Handler `Ping`. -/
def Ping (args : List Command) : Command :=
  match args with
  | [] => Command.mk (ascii "string") (ascii "+PONG") [] [] [] []
  | a0 :: _ => Command.mk (ascii "string") a0.Bulk [] [] [] []

/-- Handler `Echo`. -/
def Echo (args : List Command) : Command :=
  match args with
  | [] => Command.mk (ascii "string") [] [] [] [] []
  | a0 :: _ => Command.mk (ascii "string") a0.Bulk [] [] [] []

/-- The expiration `time.Now().Add(time.Duration(ms) * time.Millisecond)`: times are in
nanoseconds, the product is taken in `int64`. -/
def expirationAt (now ms : Int) : Int := now + wrapInt64 (ms * 1000000)

/-- Handler `Set`, with `time.Now()` as the argument `now`: the result and the vault
after the call. -/
def Set (now : Int) (v : Vault) (args : List Command) : Command × Vault :=
  match args with
  | a0 :: a1 :: a2 :: a3 :: _ =>
    if a2.Bulk = ascii "px" then
      match Atoi a3.Bulk with
      | none => (Command.mk (ascii "error") [] [] [] (ascii "ERR invalid expiration time") [], v)
      | some ms =>
        (Command.mk (ascii "string") (ascii "+OK") [] [] [] [],
          v.SetMemory a0.Bulk a1.Bulk (some (expirationAt now ms)))
    else (Command.mk (ascii "string") (ascii "+OK") [] [] [] [], v.SetMemory a0.Bulk a1.Bulk none)
  | a0 :: a1 :: _ =>
    (Command.mk (ascii "string") (ascii "+OK") [] [] [] [], v.SetMemory a0.Bulk a1.Bulk none)
  | _ =>
    (Command.mk (ascii "error") [] [] []
      (ascii "ERR wrong number of arguments for 'set' command") [], v)

/-- Handler `Get`; `none` is the panic of the type assertion `value.(string)`. -/
def Get (v : Vault) (args : List Command) : Option Command :=
  match args with
  | [] =>
    some (Command.mk (ascii "error") [] [] []
      (ascii "ERR wrong number of arguments for 'get' command") [])
  | a0 :: _ =>
    match v.GetMemory a0.Bulk with
    | none => some (Command.mk (ascii "nil") [] [] [] [] [])
    | some (GoValue.string value) => some (Command.mk (ascii "string") value [] [] [] [])
    | some _ => none

/-- Handler `Info`. -/
def Info (v : Vault) : Command := Command.mk (ascii "string") v.GetInfo [] [] [] []

/-- Handler `PSync`. -/
def PSync (vault : Vault) : Command :=
  Command.mk (ascii "multi") (ascii "OK") [] [] []
    [Command.mk (ascii "string")
        (ascii "+FULLRESYNC " ++ vault.MainReplicaID ++ ascii " "
          ++ fmtInt vault.MainReplicaOffset ++ CRLF) [] [] [] [],
     Command.mk (ascii "bulk") [] vault.RDBParsed [] [] []]

/-- Handler `ReplConf`. The callback `actions` is the server itself when `actions` is
`true` and the nil interface otherwise, on which the call of `ReplicasConnection`
panics (`none`). -/
def ReplConf (w : World) (s : Server) (args : List Command) (actions : Bool) :
    Option (Command × Server) :=
  match args with
  | a0 :: a1 :: _ =>
    if ToUpper w a0.Bulk = ascii "LISTENING-PORT" then
      if actions then
        let s1 := s.ReplicasConnection w a1.Bulk
        if s1.vault.IsMaster then some (Command.mk (ascii "string") (ascii "+OK") [] [] [] [], s1)
        else
          some (Command.mk (ascii "list") [] []
            [RELPCONF, ACK, fmtInt s1.vault.MainReplicaOffset] [] [], s1)
      else none
    else if ToUpper w a0.Bulk = ascii "CAPA" then
      some (Command.mk (ascii "string") (ascii "+OK") [] [] [] [], s)
    else some (Command.mk (ascii "err") [] [] [] (ascii "Unknown REPLCONF option") [], s)
  | _ => some (Command.mk (ascii "err") [] [] [] (ascii "Not enough arguments for REPLCONF") [], s)

/-- The type of the entries of `Handlers`: the environment, the clock, the state
(the vault and the server behind `actions`), the arguments and whether `actions` is
non-nil; the result and the state after the call, or `none` for a panic. -/
abbrev Handler := World → Int → Server → List Command → Bool → Option (Command × Server)

/-- The map `Handlers`, looked up by the exact name. -/
def Handlers (name : GoString) : Option Handler :=
  if name = ascii "PING" then some (fun _ _ s args _ => some (Ping args, s))
  else if name = ascii "ECHO" then some (fun _ _ s args _ => some (Echo args, s))
  else if name = ascii "SET" then
    some (fun _ now s args _ => some ((Set now s.vault args).1, { s with vault := (Set now s.vault args).2 }))
  else if name = ascii "GET" then
    some (fun _ _ s args _ => (Get s.vault args).map (fun r => (r, s)))
  else if name = ascii "INFO" then some (fun _ _ s _ _ => some (Info s.vault, s))
  else if name = ascii "REPLCONF" then some (fun w _ s args actions => ReplConf w s args actions)
  else if name = ascii "PSYNC" then some (fun _ _ s _ _ => some (PSync s.vault, s))
  else none

/-! ## server/server.go: the session handler and the replica ingestion -/

/-- The part of `handleCommand` that looks the handler up and formats its result:
`result := []byte("-ERR Unknown command\r\n")` and
`if handler, exists := commands.Handlers[cmdName]; exists { ... formatResponse(response) }`.
The reply and the state after the handler; `none` is a panic. -/
def dispatch (w : World) (now : Int) (s : Server) (cmdName : GoString) (args : List Command) :
    Option (GoString × Server) :=
  match Handlers cmdName with
  | some handler => (handler w now s args true).map (fun r => (formatResponse r.1, r.2))
  | none => some (ascii "-ERR Unknown command\r\n", s)

/-- The part of `handleCommand` after the dispatch: the two statements
`if s.vault.IsMaster() && isWriteCommand(cmdName) { s.sendToReplicas(cmdName, args) }` and
`if !s.vault.IsMaster() && isWriteCommand(cmdName) { s.sendToMaster(cmdName, args) }`. -/
def propagate (s : Server) (cmdName : GoString) (args : List Command) : Option Server :=
  let s2 : Server :=
    if s.vault.IsMaster ∧ isWriteCommand cmdName then s.sendToReplicas cmdName args else s
  if ¬ s2.vault.IsMaster ∧ isWriteCommand cmdName then s2.sendToMaster cmdName args
  else some s2

/-- Method `Server.handleCommand(message)`: the reply and the state after the call;
`none` is a panic. -/
def handleCommand (w : World) (now : Int) (s : Server) (message : List GoString) :
    Option (GoString × Server) :=
  match message with
  | [] => some (ascii "-ERR Empty command\r\n", s)
  | name :: rest =>
    match dispatch w now s (ToUpper w name) (rest.map bulkArg) with
    | none => none
    | some r => (propagate r.2 (ToUpper w name) (rest.map bulkArg)).map (fun s3 => (r.1, s3))

/-- What one turn of the loop of `handleConnection` does to the connection. -/
inductive SessionOutcome where
  | replied (out : GoString) (s : Server)
  | closed (out : GoString) (s : Server)
  | crashed

/-- The slice `buf[:n]` after `conn.Read(buf)` has stored the `n` bytes `input` in the
fresh `buf := make([]byte, kMaxMsg)`. -/
def readBuffer (input : GoString) : ByteSlice :=
  ⟨input, List.replicate (kMaxMsg - input.length) 0⟩

/-- The call `utils.ParseReq(buf[:n], uint32(kMaxMsg))` of `handleConnection`. -/
def sessionDecode (input : GoString) : Result (List GoString) :=
  ParseReq (readBuffer input) (kMaxMsg % 4294967296)

/-- The call `utils.ParseReq(data, uint32(len(data)))` of `handleMasterConnection`. -/
def masterDecode (data : ByteSlice) : Result (List GoString) :=
  ParseReq data (data.elems.length % 4294967296)

/-- One turn of the loop of `Server.handleConnection` after a successful read of
`input`: decode, dispatch, and what is written back. -/
def handleConnectionStep (w : World) (now : Int) (s : Server) (input : GoString) :
    SessionOutcome :=
  match sessionDecode input with
  | Result.error msg => SessionOutcome.closed msg s
  | Result.panic => SessionOutcome.crashed
  | Result.ok request =>
    match handleCommand w now s request with
    | none => SessionOutcome.crashed
    | some (response, s1) => SessionOutcome.replied response s1

/-- Method `Server.handleMasterCommands(command)`. -/
def handleMasterCommands (w : World) (now : Int) (s : Server) (command : List GoString) :
    Option Server :=
  match command with
  | [] => none
  | cmdName :: rest =>
    match Handlers cmdName with
    | some handler => (handler w now s (rest.map bulkArg) false).map (fun r => r.2)
    | none => some s

/-- Method `Server.handleMasterConnection(data)`. -/
def handleMasterConnection (w : World) (now : Int) (s : Server) (data : ByteSlice) :
    Option Server :=
  match masterDecode data with
  | Result.ok commands => handleMasterCommands w now s commands
  | Result.error _ => some s
  | Result.panic => none

/-- A run of `handleCommand` over requests, each with the time at which it is
handled; `none` when one of them panics. -/
def runCommands (w : World) (s : Server) : List (Int × List GoString) → Option Server
  | [] => some s
  | (now, message) :: rest =>
    match handleCommand w now s message with
    | none => none
    | some r => runCommands w r.2 rest

/-- A world in which no dial succeeds and the Unicode mapping changes nothing. -/
def quietWorld : World := ⟨fun s => s, fun _ _ => none⟩

/-- A freshly started master with an empty store: `NewVault` and `NewServer` for a
configuration without upstream, the random replication ID given. -/
def newMaster (replid : GoString) : Server :=
  { vault :=
      { config := ⟨3312, ascii "localhost", [], 0⟩, role := MASTER, MainReplicaID := replid,
        MainReplicaOffset := 0, memory := NewMemoryStorage, ReplicaPresent := false,
        alreadyConnectedMaster := false, MasterConn := none },
    talkingWithMain := false, talkingWithReplica := false,
    address := ascii "localhost:3312", Replicas := [], role := ascii "main" }

/-! ## Notions used in the statements -/

/-- Every value in the store is a string. -/
def MemoryStorage.AllStrings (ms : MemoryStorage) : Prop :=
  ∀ k item, ms.storage k = some item → ∃ v, item.Value = GoValue.string v

/-- A state in which `handleCommand` cannot panic: the store holds strings only, and a
node that is not a master has its connection to the master (`NewVault` opens it). -/
def Server.WellFormed (s : Server) : Prop :=
  s.vault.memory.AllStrings ∧ (s.vault.IsMaster = true ∨ s.vault.MasterConn.isSome = true)

/-- The value that the argument tokens of a SET store under key `k`: the tokens name
`k` and a value, and are not rejected for a `px` that `strconv.Atoi` refuses. -/
def setValue (k : GoString) : List GoString → Option GoString
  | key :: value :: px :: ms :: _ =>
    if key = k ∧ ¬ (px = ascii "px" ∧ Atoi ms = none) then some value else none
  | key :: value :: _ => if key = k then some value else none
  | _ => none

/-- The value that a request stores under key `k` when it is a successfully handled
SET on `k`. -/
def acceptedSet (w : World) (k : GoString) : List GoString → Option GoString
  | [] => none
  | name :: rest => if ToUpper w name = ascii "SET" then setValue k rest else none

/-- The value given by the most recent successfully handled SET on `k` in a run of
requests, if there is one. -/
def lastSet (w : World) (k : GoString) : List (Int × List GoString) → Option GoString
  | [] => none
  | (_, message) :: rest =>
    match lastSet w k rest with
    | some v => some v
    | none => acceptedSet w k message

/-- A decimal integer: an optional sign `+` or `-`, then one or more digits `0..9`. -/
def isDecimalInteger (x : GoString) : Bool :=
  match x with
  | [] => false
  | b :: r =>
    if b = 45 ∨ b = 43 then decide (r ≠ []) && r.all isDigit else (b :: r).all isDigit

/-- A request frame that declares one argument and carries 129 tokens `a`. -/
def frame129 : GoString := ascii "*1\r\n" ++ (List.replicate 129 (ascii "$1\r\na\r\n")).flatten


/-! ## Further states, loops and notions used in the statements -/

/-- A started replica with an empty store: `NewVault` and `NewServer` for a configuration
with an upstream master, the connection to the master open (what the handshake wrote on
it is not recorded). -/
def newReplica : Server :=
  { vault :=
      { config := ⟨3313, ascii "localhost", ascii "localhost", 3312⟩, role := REPLICA,
        MainReplicaID := [], MainReplicaOffset := 0, memory := NewMemoryStorage,
        ReplicaPresent := false, alreadyConnectedMaster := false,
        MasterConn := some ⟨ascii "localhost:3312", false, []⟩ },
    talkingWithMain := false, talkingWithReplica := false,
    address := ascii "localhost:3313", Replicas := [], role := ascii "replica" }

/-- A master with one registered replica, on which nothing has been written yet. -/
def masterWithReplica : Server :=
  { newMaster [] with Replicas := [⟨ascii "localhost:3313", false, []⟩] }

/-- A world in which every dial succeeds at once, with a connection on which writes
succeed, and the Unicode mapping changes nothing. -/
def openWorld : World := ⟨fun s => s, fun address _ => some ⟨address, false, []⟩⟩

/-- Whether two bytes are equal or are the same ASCII letter in its two cases. -/
def sameLetter (a b : UInt8) : Bool :=
  decide (a = b)
    || (decide (65 ≤ a.toNat ∧ a.toNat ≤ 90) && decide (b.toNat = a.toNat + 32))
    || (decide (97 ≤ a.toNat ∧ a.toNat ≤ 122) && decide (a.toNat = b.toNat + 32))

/-- Whether the first string is a letter-casing of the second: the same length, and at
every position the same byte or the same ASCII letter in the other case. -/
def caseVariant : GoString → GoString → Bool
  | [], [] => true
  | a :: as, b :: bs => sameLetter a b && caseVariant as bs
  | _, _ => false

/-- A request frame in canonical form, for the tokens `toks` (name first): `*<argc>\r\n`
and then, for every token, `$<byte length>\r\n<token>\r\n`. -/
def canonicalFrame (toks : List GoString) : GoString :=
  ascii "*" ++ fmtNat toks.length ++ CRLF
    ++ (toks.map (fun t => ascii "$" ++ fmtNat t.length ++ CRLF ++ t ++ CRLF)).flatten

/-- One call of `Write` made by the loop of `sendToReplicas`: the position of the
replica in the registry is the position of the record in the trace. -/
structure WriteAttempt where
  /-- Address of the replica written to. -/
  addr : GoString
  /-- The argument of `Write`. -/
  data : GoString
  /-- Whether `Write` returned an error (which the loop only prints). -/
  failed : Bool
  deriving DecidableEq

/-- The loop `for _, replica := range s.Replicas { ...; _, err := (*replica).Write(encoded); ... }`
of `sendToReplicas`, iteration by iteration: the registry afterwards and the calls of
`Write` in the order in which they are made. -/
def sendToReplicasLoop (encoded : GoString) : List Conn → List Conn × List WriteAttempt
  | [] => ([], [])
  | replica :: rest =>
    (replica.Write encoded :: (sendToReplicasLoop encoded rest).1,
      ⟨replica.addr, encoded, replica.broken⟩ :: (sendToReplicasLoop encoded rest).2)

/-- Method `Server.acceptMasterLoop(conn)` over the successful reads from the master
connection, each with the time at which it is handled: `buffer` is the one buffer that
the loop allocates before its first turn, a read stores its bytes `input` at the front
of it and `handleMasterConnection` receives `buffer[:n]`. The loop returns when the list
is used up (the next `conn.Read` fails); `none` is a panic. -/
def acceptMasterLoop (w : World) : Server → GoString → List (Int × GoString) → Option Server
  | s, _, [] => some s
  | s, buffer, (now, input) :: rest =>
    match handleMasterConnection w now s ⟨input, buffer.drop input.length⟩ with
    | none => none
    | some s1 => acceptMasterLoop w s1 (input ++ buffer.drop input.length) rest

/-- The argument tokens of SET `k` `v`, optionally with `px ms`. -/
def setTokens (k v : GoString) : Option GoString → List GoString
  | none => [k, v]
  | some ms => [k, v, ascii "px", ms]

/-! ## The handshake, checked indexing and reachable states -/

/-- The address `fmt.Sprintf("%s:%d", v.config.Host, v.config.Port)` that `DoHandshake`
announces. -/
def handshakeAddress (c : Config) : GoString := c.Host ++ ascii ":" ++ fmtInt c.Port

/-- The first frame that `DoHandshake` writes. -/
def handshakePing : GoString := ascii "*1\r\n$4\r\nping\r\n"

/-- The second frame that `DoHandshake` writes:
`fmt.Sprintf("*4\r\n$8\r\nREPLCONF\r\n$7\r\nLISTENING-PORT\r\n$%d\r\n%s\r\n", len(address), address)`. -/
def handshakeListeningPort (c : Config) : GoString :=
  ascii "*4\r\n$8\r\nREPLCONF\r\n$7\r\nLISTENING-PORT\r\n$"
    ++ fmtNat (handshakeAddress c).length ++ CRLF ++ handshakeAddress c ++ CRLF

/-- The third frame that `DoHandshake` writes. -/
def handshakeCapa : GoString := ascii "*3\r\n$8\r\nREPLCONF\r\n$4\r\ncapa\r\n$6\r\npsync2\r\n"

/-- The fourth frame that `DoHandshake` writes. -/
def handshakePsync : GoString := ascii "*3\r\n$5\r\nPSYNC\r\n$1\r\n?\r\n$2\r\n-1\r\n"

/-- Method `Vault.DoHandshake(conn)`: the connection after the four writes (what is
read back between them is only printed). -/
def Vault.DoHandshake (v : Vault) (conn : Conn) : Conn :=
  (((conn.Write handshakePing).Write (handshakeListeningPort v.config)).Write
    handshakeCapa).Write handshakePsync

/-- The loop `for i := 1; i < len(parts)-1; i += 2 { out = append(out, parts[i+1]) }` of
`ParseReq` with its index and a checked access `parts[i+1]`: `none` is the panic of an
index out of range. The first argument bounds the number of turns. -/
def tokenLoop (parts : List GoString) : Nat → Nat → List GoString → Option (List GoString)
  | 0, _, out => some out
  | fuel + 1, i, out =>
    if i < parts.length - 1 then
      match parts[i + 1]? with
      | none => none
      | some p => tokenLoop parts fuel (i + 2) (out ++ [p])
    else some out

/-- The states reachable from an empty store by dispatching commands through the table
`Handlers`: any name in the table, any arguments, time and environment, with or without
the callback `actions`, whenever the handler returns. -/
inductive Reachable : Server → Prop where
  | start (s : Server) : (∀ k, s.vault.memory.storage k = none) → Reachable s
  | step (s s1 : Server) (w : World) (now : Int) (name : GoString) (handler : Handler)
      (args : List Command) (actions : Bool) (r : Command) :
      Reachable s → Handlers name = some handler →
      handler w now s args actions = some (r, s1) → Reachable s1

/-! # Theorems

## Splitting and joining on CRLF -/

theorem splitCRLF_ne_nil (l : GoString) : splitCRLF l ≠ [] := by
  induction l using splitCRLF.induct with
  | case1 => simp [splitCRLF]
  | case2 b => simp [splitCRLF]
  | case3 b c rest h ih => simp [splitCRLF, h]
  | case4 b c rest h hs => simp [splitCRLF, h, hs]
  | case5 b c rest h p ps hs => simp [splitCRLF, h, hs]

theorem splitCRLF_sep (rest : GoString) :
    splitCRLF (13 :: 10 :: rest) = [] :: splitCRLF rest := by
  simp [splitCRLF]

theorem splitCRLF_step (b c : UInt8) (rest p : GoString) (ps : List GoString)
    (h : ¬ (b = 13 ∧ c = 10)) (hs : splitCRLF (c :: rest) = p :: ps) :
    splitCRLF (b :: c :: rest) = (b :: p) :: ps := by
  simp [splitCRLF, h, hs]

theorem splitCRLF_first (c : UInt8) (rest p : GoString) (ps : List GoString)
    (hs : splitCRLF (c :: rest) = p :: ps) : p = [] ∨ ∃ q, p = c :: q := by
  cases rest with
  | nil =>
    simp [splitCRLF] at hs
    exact Or.inr ⟨[], hs.1.symm⟩
  | cons d r =>
    by_cases h : c = 13 ∧ d = 10
    · simp [splitCRLF, h] at hs
      exact Or.inl hs.1
    · obtain ⟨q, qs, hq⟩ := List.exists_cons_of_ne_nil (splitCRLF_ne_nil (d :: r))
      rw [splitCRLF_step c d r q qs h hq] at hs
      simp at hs
      exact Or.inr ⟨q, hs.1.symm⟩

theorem hasCRLF_cons_cons (b c : UInt8) (rest : GoString) :
    hasCRLF (b :: c :: rest) = false ↔ ¬ (b = 13 ∧ c = 10) ∧ hasCRLF (c :: rest) = false := by
  simp [hasCRLF]

theorem hasCRLF_tail (b : UInt8) (l : GoString) (h : hasCRLF (b :: l) = false) :
    hasCRLF l = false := by
  cases l with
  | nil => simp [hasCRLF]
  | cons c r => exact ((hasCRLF_cons_cons b c r).1 h).2

theorem splitCRLF_append_sep (a rest : GoString) (ha : hasCRLF a = false) :
    splitCRLF (a ++ 13 :: 10 :: rest) = a :: splitCRLF rest := by
  induction a using hasCRLF.induct with
  | case1 => simp [splitCRLF]
  | case2 b =>
    have h : ¬ (b = 13 ∧ (13 : UInt8) = 10) := fun h => absurd h.2 (by decide)
    simpa using splitCRLF_step b 13 (10 :: rest) [] (splitCRLF rest) h (splitCRLF_sep rest)
  | case3 b c r ih =>
    obtain ⟨h1, h2⟩ := (hasCRLF_cons_cons b c r).1 ha
    have := splitCRLF_step b c (r ++ 13 :: 10 :: rest) (c :: r) (splitCRLF rest) h1
      (by simpa using ih h2)
    simpa using this

theorem splitCRLF_of_noCRLF (a : GoString) (ha : hasCRLF a = false) : splitCRLF a = [a] := by
  induction a using hasCRLF.induct with
  | case1 => simp [splitCRLF]
  | case2 b => simp [splitCRLF]
  | case3 b c r ih =>
    obtain ⟨h1, h2⟩ := (hasCRLF_cons_cons b c r).1 ha
    exact splitCRLF_step b c r (c :: r) [] h1 (ih h2)

theorem noCRLF_of_mem_splitCRLF (l : GoString) :
    ∀ s ∈ splitCRLF l, hasCRLF s = false := by
  induction l using splitCRLF.induct with
  | case1 => simp [splitCRLF, hasCRLF]
  | case2 b => simp [splitCRLF, hasCRLF]
  | case3 b c rest h ih =>
    intro s hs
    simp [splitCRLF, h] at hs
    rcases hs with hs | hs
    · simp [hs, hasCRLF]
    · exact ih s hs
  | case4 b c rest h hs => exact absurd hs (splitCRLF_ne_nil _)
  | case5 b c rest h p ps hs ih =>
    intro s hmem
    rw [splitCRLF_step b c rest p ps h hs] at hmem
    rcases List.mem_cons.1 hmem with heq | hmem
    · have hp : hasCRLF p = false := ih p (by simp [hs])
      rcases splitCRLF_first c rest p ps hs with hnil | ⟨q, hq⟩
      · simp [heq, hnil, hasCRLF]
      · subst hq
        rw [heq]
        exact (hasCRLF_cons_cons b c q).2 ⟨h, hp⟩
    · exact ih s (by simp [hs, hmem])

theorem Join_cons_cons (b : UInt8) (p : GoString) (ps : List GoString) (sep : GoString) :
    Join ((b :: p) :: ps) sep = b :: Join (p :: ps) sep := by
  cases ps <;> simp [Join]

theorem Join_splitCRLF (l : GoString) : Join (splitCRLF l) CRLF = l := by
  induction l using splitCRLF.induct with
  | case1 => simp [splitCRLF, Join]
  | case2 b => simp [splitCRLF, Join]
  | case3 b c rest h ih =>
    obtain ⟨q, qs, hq⟩ := List.exists_cons_of_ne_nil (splitCRLF_ne_nil rest)
    rw [hq] at ih
    simp only [splitCRLF, h, and_self, if_true, hq, Join, ih]
    simp [CRLF]
  | case4 b c rest h hs => exact absurd hs (splitCRLF_ne_nil _)
  | case5 b c rest h p ps hs ih =>
    rw [splitCRLF_step b c rest p ps h hs, Join_cons_cons, ← hs, ih]

theorem splitCRLF_Join (segs : List GoString) (hne : segs ≠ [])
    (hfree : ∀ s ∈ segs, hasCRLF s = false) : splitCRLF (Join segs CRLF) = segs := by
  induction segs with
  | nil => exact absurd rfl hne
  | cons a rest ih =>
    cases rest with
    | nil => simpa [Join] using splitCRLF_of_noCRLF a (hfree a (by simp))
    | cons b r =>
      have h1 := splitCRLF_append_sep a (Join (b :: r) CRLF) (hfree a (by simp))
      have h2 := ih (by simp) (fun s hs => hfree s (List.mem_cons_of_mem _ hs))
      have h3 : Join (a :: b :: r) CRLF = a ++ 13 :: 10 :: Join (b :: r) CRLF := by
        simp [Join, CRLF]
      rw [h3, h1, h2]

theorem Join_length_ge (segs : List GoString) (sep : GoString) :
    (segs.length - 1) * sep.length ≤ (Join segs sep).length := by
  induction segs with
  | nil => simp [Join]
  | cons a rest ih =>
    cases rest with
    | nil => simp [Join]
    | cons b r =>
      simp only [Join, List.length_append, List.length_cons] at ih ⊢
      have : (r.length + 1 + 1 - 1) * sep.length = (r.length + 1 - 1) * sep.length + sep.length := by
        simp [Nat.add_mul]
      omega


/-! ## Decimal numerals -/

theorem toNat_digit (d : Nat) (h : d < 10) : (UInt8.ofNat (48 + d)).toNat = 48 + d := by
  simp [UInt8.toNat, UInt8.ofNat, Fin.ofNat]
  omega

theorem isDigit_digit (d : Nat) (h : d < 10) : isDigit (UInt8.ofNat (48 + d)) = true := by
  simp [isDigit, toNat_digit d h]
  omega

theorem digitsValue_append_one (ds : GoString) (b : UInt8) :
    digitsValue (ds ++ [b]) = digitsValue ds * 10 + (b.toNat - 48) := by
  simp [digitsValue, List.foldl_append]

theorem digitsAux_spec (fuel : Nat) : ∀ (n : Nat) (acc : GoString), n < fuel →
    ∃ ds, digitsAux fuel n acc = ds ++ acc ∧ ds ≠ [] ∧ ds.all isDigit = true
      ∧ digitsValue ds = n := by
  induction fuel with
  | zero => intro n acc h; omega
  | succ fuel ih =>
    intro n acc h
    have hd : n % 10 < 10 := Nat.mod_lt _ (by decide)
    by_cases h0 : n / 10 = 0
    · refine ⟨[UInt8.ofNat (48 + n % 10)], by simp [digitsAux, h0], by simp, ?_, ?_⟩
      · simp [isDigit_digit _ hd]
      · simp [digitsValue, toNat_digit _ hd]
        omega
    · have hlt : n / 10 < fuel := by omega
      obtain ⟨ds, h1, h2, h3, h4⟩ := ih (n / 10) (UInt8.ofNat (48 + n % 10) :: acc) hlt
      refine ⟨ds ++ [UInt8.ofNat (48 + n % 10)], by simp [digitsAux, h0, h1], by simp, ?_, ?_⟩
      · simp [List.all_append, h3, isDigit_digit _ hd]
      · rw [digitsValue_append_one, h4, toNat_digit _ hd]
        omega

theorem fmtNat_spec (n : Nat) :
    fmtNat n ≠ [] ∧ (fmtNat n).all isDigit = true ∧ digitsValue (fmtNat n) = n := by
  obtain ⟨ds, h1, h2, h3, h4⟩ := digitsAux_spec (n + 1) n [] (Nat.lt_succ_self n)
  simp only [List.append_nil] at h1
  simp only [fmtNat, h1]
  exact ⟨h2, h3, h4⟩

theorem noCRLF_of_digits (l : GoString) (h : l.all isDigit = true) : hasCRLF l = false := by
  induction l using hasCRLF.induct with
  | case1 => simp [hasCRLF]
  | case2 b => simp [hasCRLF]
  | case3 b c r ih =>
    simp only [List.all_cons, Bool.and_eq_true] at h
    refine (hasCRLF_cons_cons b c r).2 ⟨?_, ih (by simp [h.2.1, h.2.2])⟩
    rintro ⟨hb, -⟩
    rw [hb] at h
    exact absurd h.1 (by decide)

theorem noCRLF_fmtNat (n : Nat) : hasCRLF (fmtNat n) = false :=
  noCRLF_of_digits _ (fmtNat_spec n).2.1

theorem noCRLF_cons_of_ne (b : UInt8) (l : GoString) (hb : b ≠ 13) (hl : hasCRLF l = false) :
    hasCRLF (b :: l) = false := by
  cases l with
  | nil => simp [hasCRLF]
  | cons c r => exact (hasCRLF_cons_cons b c r).2 ⟨fun h => hb h.1, hl⟩

theorem splitSign_of_digit (b : UInt8) (r : GoString) (h : isDigit b = true) :
    splitSign (b :: r) = (false, b :: r) := by
  have h45 : b ≠ 45 := by rintro rfl; exact absurd h (by decide)
  have h43 : b ≠ 43 := by rintro rfl; exact absurd h (by decide)
  simp [splitSign, h45, h43]

theorem Atoi_fmtNat (n : Nat) (h : n ≤ 9223372036854775807) : Atoi (fmtNat n) = some (n : Int) := by
  obtain ⟨h1, h2, h3⟩ := fmtNat_spec n
  obtain ⟨b, r, hbr⟩ := List.exists_cons_of_ne_nil h1
  have hb : isDigit b = true := by
    rw [hbr] at h2
    simp only [List.all_cons, Bool.and_eq_true] at h2
    exact h2.1
  have hs : splitSign (fmtNat n) = (false, fmtNat n) := by
    rw [hbr]; exact splitSign_of_digit b r hb
  simp only [Atoi, hs, h1, h2, h3]
  simp
  omega

/-! ## The token loop -/

theorem pairTokens_set_even (l : List GoString) : ∀ (j : Nat) (r : GoString), j % 2 = 0 →
    pairTokens (l.set j r) = pairTokens l := by
  induction l using pairTokens.induct with
  | case1 hd tok rest ih =>
    intro j r hj
    match j with
    | 0 => simp [pairTokens]
    | 1 => omega
    | j + 2 =>
      simp only [List.set_cons_succ, pairTokens]
      rw [ih j r (by omega)]
  | case2 t ht =>
    intro j r hj
    match t, ht with
    | [], _ => simp [pairTokens]
    | [a], _ =>
      match j with
      | 0 => simp [pairTokens]
      | j + 1 => simp [pairTokens]
    | a :: b :: c, ht => exact absurd rfl (fun h => ht a b c h)

theorem pairTokens_getElem? (l : List GoString) : ∀ (j : Nat),
    (pairTokens l)[j]? = if 2 * j + 1 < l.length then l[2 * j + 1]? else none := by
  induction l using pairTokens.induct with
  | case1 hd tok rest ih =>
    intro j
    match j with
    | 0 => simp [pairTokens]
    | j + 1 =>
      have h2 : 2 * (j + 1) + 1 = (2 * j + 1) + 1 + 1 := by ring
      rw [h2]
      simp only [pairTokens, List.getElem?_cons_succ, ih j, List.length_cons]
      simp
  | case2 t ht =>
    intro j
    match t, ht with
    | [], _ => simp [pairTokens]
    | [a], _ => simp [pairTokens]
    | a :: b :: c, ht => exact absurd rfl (fun h => ht a b c h)

theorem pairTokens_length (l : List GoString) : (pairTokens l).length = l.length / 2 := by
  induction l using pairTokens.induct with
  | case1 hd tok rest ih =>
    simp only [pairTokens, List.length_cons, ih]
    omega
  | case2 t ht =>
    match t, ht with
    | [], _ => simp [pairTokens]
    | [a], _ => simp [pairTokens]
    | a :: b :: c, ht => exact absurd rfl (fun h => ht a b c h)


theorem mem_of_mem_pairTokens (l : List GoString) : ∀ t ∈ pairTokens l, t ∈ l := by
  induction l using pairTokens.induct with
  | case1 hd tok rest ih =>
    intro t ht
    simp only [pairTokens, List.mem_cons] at ht ⊢
    rcases ht with ht | ht
    · exact Or.inr (Or.inl ht)
    · exact Or.inr (Or.inr (ih t ht))
  | case2 t ht =>
    intro x hx
    match t, ht, hx with
    | [], _, hx => simp [pairTokens] at hx
    | [a], _, hx => simp [pairTokens] at hx
    | a :: b :: c, ht, _ => exact absurd rfl (fun h => ht a b c h)

/-! ## `ParseReq` on a whole frame -/

theorem ascii_star : ascii "*" = [42] := by decide

theorem ascii_dollar : ascii "$" = [36] := by decide

theorem ParseReq_short (data : ByteSlice) (length : Nat) (h : length < 4) :
    ParseReq data length = Result.error (ascii "invalid length") := by
  simp [ParseReq, h]

theorem ParseReq_whole (rest spare : GoString) (h4 : 4 ≤ rest.length + 1) :
    ParseReq ⟨42 :: rest, spare⟩ (rest.length + 1) =
      if (splitCRLF rest).length < 3 then Result.error (ascii "invalid message format")
      else match Atoi ((splitCRLF rest).headD []) with
        | none => Result.error (ascii "invalid number of arguments")
        | some numArgs =>
          if numArgs < 1 ∨ numArgs > (kMaxArgs : Int) then
            Result.error (ascii "invalid number of arguments")
          else Result.ok (pairTokens ((splitCRLF rest).drop 1)) := by
  have h1 : ¬ (rest.length + 1 < 4) := by omega
  have h2 : ((42 :: rest ++ spare).take (rest.length + 1)).drop 1 = rest := by
    simp [List.take_succ_cons]
  simp only [ParseReq, h1, if_false, ne_eq, not_true_eq_false, List.length_cons, h2]
  simp

theorem ParseReq_ok_shape (data spare : GoString) (toks : List GoString)
    (h : ParseReq ⟨data, spare⟩ data.length = Result.ok toks) :
    ∃ rest, data = 42 :: rest ∧ 4 ≤ rest.length + 1 ∧ 3 ≤ (splitCRLF rest).length
      ∧ (∃ n : Int, Atoi ((splitCRLF rest).headD []) = some n ∧ 1 ≤ n ∧ n ≤ 128)
      ∧ toks = pairTokens ((splitCRLF rest).drop 1) := by
  by_cases h4 : data.length < 4
  · rw [ParseReq_short _ _ h4] at h
    exact absurd h (by simp)
  · cases data with
    | nil => simp at h4
    | cons b0 rest =>
      by_cases hb : b0 = 42
      · subst hb
        have hlen : 4 ≤ rest.length + 1 := by simpa using h4
        rw [List.length_cons, ParseReq_whole rest spare hlen] at h
        by_cases h3 : (splitCRLF rest).length < 3
        · simp [h3] at h
        · simp only [h3, if_false] at h
          cases ha : Atoi ((splitCRLF rest).headD []) with
          | none =>
            rw [ha] at h
            exact absurd h (by simp)
          | some n =>
            rw [ha] at h
            dsimp only at h
            by_cases hr : n < 1 ∨ n > (kMaxArgs : Int)
            · rw [if_pos hr] at h
              exact absurd h (by simp)
            · rw [if_neg hr, Result.ok.injEq] at h
              simp only [kMaxArgs, not_or, not_lt] at hr
              exact ⟨rest, rfl, hlen, by omega, ⟨n, ha, hr.1, by simpa using hr.2⟩, h.symm⟩
      · simp only [ParseReq, ne_eq, hb, not_false_eq_true, if_true] at h
        split_ifs at h


theorem ParseReq_whole_ne_panic (data spare : GoString) :
    ParseReq ⟨data, spare⟩ data.length ≠ Result.panic := by
  by_cases h4 : data.length < 4
  · rw [ParseReq_short _ _ h4]; simp
  · cases data with
    | nil => simp at h4
    | cons b0 rest =>
      by_cases hb : b0 = 42
      · subst hb
        rw [List.length_cons, ParseReq_whole rest spare (by simpa using h4)]
        split_ifs
        · simp
        · split
          · simp
          · split_ifs <;> simp
      · simp only [ParseReq, ne_eq, hb, not_false_eq_true, if_true]
        split_ifs
        simp

/-- C7: for every byte sequence `data`, `ParseReq(data, len(data))` returns tokens if and
only if `data` has at least 4 bytes, begins with `*`, the bytes after the `*` split on
CRLF into at least 3 segments, and `strconv.Atoi` reads the first segment as an integer
`n` with `1 ≤ n ≤ 128`; in every other case it returns an error (and never panics). -/
theorem ParseReq_succeeds_iff (data spare : GoString) :
    ((∃ toks, ParseReq ⟨data, spare⟩ data.length = Result.ok toks) ↔
      (4 ≤ data.length ∧ data.head? = some 42 ∧ 3 ≤ (splitCRLF data.tail).length ∧
        ∃ n : Int, Atoi ((splitCRLF data.tail).headD []) = some n ∧ 1 ≤ n ∧ n ≤ 128))
    ∧ ((¬ ∃ toks, ParseReq ⟨data, spare⟩ data.length = Result.ok toks) →
        ∃ msg, ParseReq ⟨data, spare⟩ data.length = Result.error msg) := by
  constructor
  · constructor
    · rintro ⟨toks, h⟩
      obtain ⟨rest, rfl, h4, h3, hn, -⟩ := ParseReq_ok_shape data spare toks h
      exact ⟨by simpa using h4, rfl, h3, hn⟩
    · rintro ⟨h4, hhead, h3, n, hn, h1, h128⟩
      cases data with
      | nil => simp at hhead
      | cons b0 rest =>
        simp only [List.head?_cons, Option.some.injEq] at hhead
        subst hhead
        simp only [List.tail_cons] at h3 hn
        refine ⟨pairTokens ((splitCRLF rest).drop 1), ?_⟩
        rw [List.length_cons, ParseReq_whole rest spare (by simpa using h4), if_neg (by omega), hn]
        have hr : ¬ (n < 1 ∨ n > (kMaxArgs : Int)) := by
          simp only [kMaxArgs, not_or, not_lt]
          exact ⟨h1, by simpa using h128⟩
        simp only [hr, if_false]
  · intro hno
    cases hres : ParseReq ⟨data, spare⟩ data.length with
    | ok toks => exact absurd ⟨toks, hres⟩ hno
    | error msg => exact ⟨msg, rfl⟩
    | panic => exact absurd hres (ParseReq_whole_ne_panic data spare)


/-! ## Decoding an encoded command -/

theorem bulkFrame_eq (s : GoString) :
    bulkFrame s = (36 :: fmtNat s.length) ++ 13 :: 10 :: (s ++ 13 :: 10 :: []) := by
  simp [bulkFrame, ascii_dollar, CRLF]

theorem noCRLF_lenField (n : Nat) : hasCRLF (36 :: fmtNat n) = false :=
  noCRLF_cons_of_ne 36 _ (by decide) (noCRLF_fmtNat n)

theorem splitCRLF_frames (toks : List GoString) (h : ∀ t ∈ toks, hasCRLF t = false) :
    splitCRLF ((toks.map bulkFrame).flatten)
      = (toks.map (fun t => [36 :: fmtNat t.length, t])).flatten ++ [[]] := by
  induction toks with
  | nil => simp [splitCRLF]
  | cons t ts ih =>
    have ht : hasCRLF t = false := h t (by simp)
    have hts := ih (fun s hs => h s (List.mem_cons_of_mem _ hs))
    simp only [List.map_cons, List.flatten_cons, bulkFrame_eq, List.append_assoc,
      List.cons_append, List.nil_append]
    have h1 := splitCRLF_append_sep (36 :: fmtNat t.length)
      (t ++ 13 :: 10 :: (ts.map bulkFrame).flatten) (noCRLF_lenField t.length)
    have h2 := splitCRLF_append_sep t ((ts.map bulkFrame).flatten) ht
    simp only [List.cons_append] at h1
    rw [h1, h2, hts]

theorem pairTokens_frames (toks : List GoString) (x : GoString) :
    pairTokens ((toks.map (fun t => [36 :: fmtNat t.length, t])).flatten ++ [x]) = toks := by
  induction toks with
  | nil => simp [pairTokens]
  | cons t ts ih => simpa [pairTokens] using ih

theorem map_Bulk_bulkArg (ts : List GoString) : (ts.map bulkArg).map Command.Bulk = ts := by
  induction ts with
  | nil => rfl
  | cons t ts ih =>
    simp only [List.map_cons, ih]
    rfl

theorem EncodeCommand_eq (cmd : GoString) (args : List Command) :
    EncodeCommand cmd args = 42 :: (fmtNat (args.length + 1) ++ 13 :: 10 ::
      ((cmd :: args.map Command.Bulk).map bulkFrame).flatten) := by
  simp [EncodeCommand, ascii_star, CRLF, List.map_map, Function.comp_def]

theorem ParseReq_EncodeCommand (cmd : GoString) (args : List Command) (spare : GoString)
    (hn : args.length + 1 ≤ 128) (hc : hasCRLF cmd = false)
    (ha : ∀ a ∈ args, hasCRLF a.Bulk = false) :
    ParseReq ⟨EncodeCommand cmd args, spare⟩ (EncodeCommand cmd args).length
      = Result.ok (cmd :: args.map Command.Bulk) := by
  have hfree : ∀ t ∈ cmd :: args.map Command.Bulk, hasCRLF t = false := by
    intro t ht
    rcases List.mem_cons.1 ht with rfl | ht
    · exact hc
    · obtain ⟨a, ha1, rfl⟩ := List.mem_map.1 ht
      exact ha a ha1
  have hsplit := splitCRLF_append_sep (fmtNat (args.length + 1))
    (((cmd :: args.map Command.Bulk).map bulkFrame).flatten) (noCRLF_fmtNat _)
  rw [splitCRLF_frames _ hfree] at hsplit
  have hne := (fmtNat_spec (args.length + 1)).1
  have hlen : 4 ≤ (fmtNat (args.length + 1) ++ 13 :: 10 ::
      ((cmd :: args.map Command.Bulk).map bulkFrame).flatten).length + 1 := by
    have : 0 < (fmtNat (args.length + 1)).length := List.length_pos.2 hne
    simp only [List.length_append, List.length_cons]
    omega
  rw [EncodeCommand_eq, List.length_cons, ParseReq_whole _ spare hlen, hsplit]
  have hatoi := Atoi_fmtNat (args.length + 1) (by omega)
  simp only [List.headD_cons, hatoi, List.drop_succ_cons, List.drop_zero, pairTokens_frames]
  have h3 : ¬ ((fmtNat (args.length + 1) ::
      (((cmd :: args.map Command.Bulk).map
        (fun t : GoString => [36 :: fmtNat t.length, t])).flatten ++ [[]])).length < 3) := by
    simp
  have hr : ¬ (((args.length + 1 : Nat) : Int) < 1 ∨ ((args.length + 1 : Nat) : Int) > (kMaxArgs : Int)) := by
    simp only [kMaxArgs]
    omega
  rw [if_neg h3]
  simp only [hr, if_false]

/-- C9: when `ParseReq(data, len(data))` accepts a frame, with `segs` the segments that
splitting the bytes after the leading `*` on CRLF gives (joining them back with CRLF
gives those bytes again), the output is exactly the segments at the positions
2, 4, 6, ... below the number of segments, in that order and unmodified; and the frame
in which the segment at any odd position is replaced by any CRLF-free bytes is accepted
with the same output. -/
theorem ParseReq_output_segments (data spare : GoString) (toks : List GoString)
    (h : ParseReq ⟨data, spare⟩ data.length = Result.ok toks) :
    Join (splitCRLF data.tail) CRLF = data.tail
    ∧ toks = (List.range (((splitCRLF data.tail).length - 1) / 2)).map
        (fun j => (splitCRLF data.tail).getD (2 * (j + 1)) [])
    ∧ ∀ (i : Nat) (r spare2 : GoString), i % 2 = 1 → i < (splitCRLF data.tail).length →
        hasCRLF r = false →
        ParseReq ⟨42 :: Join ((splitCRLF data.tail).set i r) CRLF, spare2⟩
          (42 :: Join ((splitCRLF data.tail).set i r) CRLF).length = Result.ok toks := by
  obtain ⟨rest, rfl, h4, h3, ⟨n, hn, h1, h128⟩, htoks⟩ := ParseReq_ok_shape data spare toks h
  simp only [List.tail_cons]
  refine ⟨Join_splitCRLF rest, ?_, ?_⟩
  · apply List.ext_getElem?
    intro j
    rw [htoks, pairTokens_getElem?]
    simp only [List.length_drop, List.getElem?_drop, List.getElem?_map, List.getElem?_range,
      List.getD_eq_getElem?_getD]
    by_cases hj : j < ((splitCRLF rest).length - 1) / 2
    · have hlt : 2 * j + 1 < (splitCRLF rest).length - 1 := by omega
      have hidx : 2 * (j + 1) < (splitCRLF rest).length := by omega
      have e : 1 + (2 * j + 1) = 2 * (j + 1) := by ring
      simp [hlt, hj, e, List.getElem?_eq_getElem hidx]
    · have hlt : ¬ (2 * j + 1 < (splitCRLF rest).length - 1) := by omega
      have hnone : (List.range (((splitCRLF rest).length - 1) / 2))[j]? = none :=
        List.getElem?_eq_none (by simpa using hj)
      simp [hlt, hnone]
  · intro i r spare2 hi hlt hr
    have hfree : ∀ s ∈ (splitCRLF rest).set i r, hasCRLF s = false := by
      intro s hs
      rcases List.mem_or_eq_of_mem_set hs with hs | rfl
      · exact noCRLF_of_mem_splitCRLF rest s hs
      · exact hr
    have hne : (splitCRLF rest).set i r ≠ [] := by
      intro hnil
      have := congrArg List.length hnil
      rw [List.length_set, List.length_nil] at this
      omega
    have hsplit := splitCRLF_Join _ hne hfree
    have hlen : 4 ≤ (Join ((splitCRLF rest).set i r) CRLF).length + 1 := by
      have := Join_length_ge ((splitCRLF rest).set i r) CRLF
      simp only [List.length_set, CRLF, List.length_cons, List.length_nil] at this
      have : 2 * 2 ≤ ((splitCRLF rest).length - 1) * 2 := by
        have : 2 ≤ (splitCRLF rest).length - 1 := by omega
        omega
      simp only [CRLF]
      omega
    rw [List.length_cons, ParseReq_whole _ spare2 hlen, hsplit]
    have hhead : ((splitCRLF rest).set i r).headD [] = (splitCRLF rest).headD [] := by
      cases hs : splitCRLF rest with
      | nil => simp
      | cons a as =>
        match i, hi with
        | i + 1, _ => simp
    have hdrop : pairTokens (((splitCRLF rest).set i r).drop 1)
        = pairTokens ((splitCRLF rest).drop 1) := by
      cases hs : splitCRLF rest with
      | nil => simp
      | cons a as =>
        match i, hi with
        | i + 1, hi =>
          simp only [List.set_cons_succ, List.drop_succ_cons, List.drop_zero]
          exact pairTokens_set_even as i r (by omega)
    rw [hhead, hdrop, hn, List.length_set, if_neg (by omega)]
    have hr2 : ¬ (n < 1 ∨ n > (kMaxArgs : Int)) := by
      simp only [kMaxArgs, not_or, not_lt]
      exact ⟨h1, by simpa using h128⟩
    simp only [hr2, if_false, htoks]


/-- Witness of C9 on the frame `*1\r\n$4\r\nPING\r\n`: it is accepted with output `PING`,
and with the length prefix `$4` (position 1) replaced by `$999` it still is. -/
theorem ParseReq_output_segments_witness :
    ParseReq ⟨ascii "*1\r\n$4\r\nPING\r\n", []⟩ (ascii "*1\r\n$4\r\nPING\r\n").length
        = Result.ok [ascii "PING"]
    ∧ ParseReq ⟨42 :: Join ((splitCRLF (ascii "*1\r\n$4\r\nPING\r\n").tail).set 1 (ascii "$999"))
          CRLF, []⟩
        (42 :: Join ((splitCRLF (ascii "*1\r\n$4\r\nPING\r\n").tail).set 1 (ascii "$999"))
          CRLF).length = Result.ok [ascii "PING"] :=
  ⟨by decide,
   (ParseReq_output_segments (ascii "*1\r\n$4\r\nPING\r\n") [] [ascii "PING"] (by decide)).2.2
      1 (ascii "$999") [] (by decide) (by decide) (by decide)⟩

set_option maxRecDepth 100000 in
/-- Counterexample to C1 as stated: the frame `frame129` (declared count 1, 129 tokens,
907 bytes) is accepted with 129 tokens, and the frame that `EncodeCommand` builds from
them, which declares 129 arguments, is rejected. -/
theorem roundtrip_fails_beyond_kMaxArgs :
    ParseReq ⟨frame129, []⟩ frame129.length = Result.ok (List.replicate 129 (ascii "a"))
    ∧ ParseReq ⟨EncodeCommand (ascii "a") ((List.replicate 128 (ascii "a")).map bulkArg), []⟩
        (EncodeCommand (ascii "a") ((List.replicate 128 (ascii "a")).map bulkArg)).length
        = Result.error (ascii "invalid number of arguments") := by
  decide

/-- C1 (amended): for every frame that `ParseReq(data, len(data))` accepts with at most
128 tokens, the tokens are `t0 :: ts`, and the frame `EncodeCommand(t0, ts)` is accepted
again, with any capacity, and yields the same tokens in the same order. -/
theorem decode_encode_roundtrip (data spare : GoString) (toks : List GoString)
    (h : ParseReq ⟨data, spare⟩ data.length = Result.ok toks) (hn : toks.length ≤ 128) :
    ∃ t0 ts, toks = t0 :: ts ∧ ∀ spare2 : GoString,
      ParseReq ⟨EncodeCommand t0 (ts.map bulkArg), spare2⟩
        (EncodeCommand t0 (ts.map bulkArg)).length = Result.ok toks := by
  obtain ⟨rest, rfl, h4, h3, -, htoks⟩ := ParseReq_ok_shape data spare toks h
  have hfree : ∀ t ∈ toks, hasCRLF t = false := by
    intro t ht
    rw [htoks] at ht
    exact noCRLF_of_mem_splitCRLF rest t (List.mem_of_mem_drop (mem_of_mem_pairTokens _ t ht))
  have hlen : 0 < toks.length := by
    rw [htoks, pairTokens_length, List.length_drop]
    omega
  match toks, hfree, hlen, hn with
  | t0 :: ts, hfree, _, hn =>
    refine ⟨t0, ts, rfl, fun spare2 => ?_⟩
    have := ParseReq_EncodeCommand t0 (ts.map bulkArg) spare2
      (by simpa using hn) (hfree t0 (by simp))
      (by
        intro a ha
        obtain ⟨t, ht, rfl⟩ := List.mem_map.1 ha
        exact hfree t (List.mem_cons_of_mem _ ht))
    rw [this, map_Bulk_bulkArg]

/-- Witness of C1 (amended) on the frame `*3\r\n$3\r\nSET\r\n$3\r\nfoo\r\n$3\r\nbar\r\n`. -/
theorem decode_encode_roundtrip_witness :
    ParseReq ⟨ascii "*3\r\n$3\r\nSET\r\n$3\r\nfoo\r\n$3\r\nbar\r\n", []⟩
        (ascii "*3\r\n$3\r\nSET\r\n$3\r\nfoo\r\n$3\r\nbar\r\n").length
        = Result.ok [ascii "SET", ascii "foo", ascii "bar"]
    ∧ ∃ t0 ts, [ascii "SET", ascii "foo", ascii "bar"] = t0 :: ts ∧ ∀ spare2 : GoString,
      ParseReq ⟨EncodeCommand t0 (ts.map bulkArg), spare2⟩
        (EncodeCommand t0 (ts.map bulkArg)).length
        = Result.ok [ascii "SET", ascii "foo", ascii "bar"] :=
  ⟨by decide,
   decode_encode_roundtrip (ascii "*3\r\n$3\r\nSET\r\n$3\r\nfoo\r\n$3\r\nbar\r\n") []
     [ascii "SET", ascii "foo", ascii "bar"] (by decide) (by decide)⟩

/-! ## The response encoder -/

theorem formatResponseAll_eq (arr : List Command) :
    formatResponseAll arr = (arr.map formatResponse).flatten := by
  induction arr with
  | nil => simp [formatResponseAll]
  | cons c cs ih => simp [formatResponseAll, ih]

/-- C10: `formatResponse` returns the payload followed by CRLF for a string;
`$<byte length>\r\n<payload>\r\n` for a bulk; `$-1\r\n` for nil; `*<n>\r\n`, the `n` items
joined with CRLF and a trailing CRLF for a list; and for an arr or a multi of `n`
elements `*<n>\r\n` followed by the concatenation, in order, of `formatResponse` of
each element. -/
theorem formatResponse_kinds (str bulk err : GoString) (items : List GoString)
    (arr : List Command) :
    formatResponse (Command.mk (ascii "string") str bulk items err arr) = str ++ CRLF
    ∧ formatResponse (Command.mk (ascii "bulk") str bulk items err arr)
        = ascii "$" ++ fmtNat bulk.length ++ CRLF ++ bulk ++ CRLF
    ∧ formatResponse (Command.mk (ascii "nil") str bulk items err arr) = ascii "$-1\r\n"
    ∧ formatResponse (Command.mk (ascii "list") str bulk items err arr)
        = ascii "*" ++ fmtNat items.length ++ CRLF ++ Join items CRLF ++ CRLF
    ∧ formatResponse (Command.mk (ascii "multi") str bulk items err arr)
        = ascii "*" ++ fmtNat arr.length ++ CRLF ++ (arr.map formatResponse).flatten
    ∧ formatResponse (Command.mk (ascii "arr") str bulk items err arr)
        = ascii "*" ++ fmtNat arr.length ++ CRLF ++ (arr.map formatResponse).flatten := by
  have e1 : ascii "bulk" ≠ ascii "string" := by decide
  have e2 : ascii "bulk" ≠ ascii "list" := by decide
  have e3 : ascii "bulk" ≠ ascii "nil" := by decide
  have e4 : ascii "bulk" ≠ ascii "err" := by decide
  have e5 : ascii "bulk" ≠ ascii "arr" := by decide
  have e6 : ascii "bulk" ≠ ascii "multi" := by decide
  have n1 : ascii "nil" ≠ ascii "string" := by decide
  have n2 : ascii "nil" ≠ ascii "list" := by decide
  have l1 : ascii "list" ≠ ascii "string" := by decide
  have m1 : ascii "multi" ≠ ascii "string" := by decide
  have m2 : ascii "multi" ≠ ascii "list" := by decide
  have m3 : ascii "multi" ≠ ascii "nil" := by decide
  have m4 : ascii "multi" ≠ ascii "err" := by decide
  have a1 : ascii "arr" ≠ ascii "string" := by decide
  have a2 : ascii "arr" ≠ ascii "list" := by decide
  have a3 : ascii "arr" ≠ ascii "nil" := by decide
  have a4 : ascii "arr" ≠ ascii "err" := by decide
  refine ⟨?_, ?_, ?_, ?_, ?_, ?_⟩
  · simp only [formatResponse, if_true]
  · simp only [formatResponse, e1, e2, e3, e4, e5, e6, or_self, if_false, if_true]
  · simp only [formatResponse, n1, n2, if_false, if_true]
  · simp only [formatResponse, l1, if_false, if_true]
  · simp only [formatResponse, m1, m2, m3, m4, if_false, or_true, if_true, formatResponseAll_eq]
  · simp only [formatResponse, a1, a2, a3, a4, if_false, true_or, if_true, formatResponseAll_eq]

/-- C6 (failing input): for SET with one argument the handler returns an error result
with the message `ERR wrong number of arguments for 'set' command` under the type tag
`error`, which `formatResponse` does not know: the reply is
`-ERR Unknown response type\r\n`, not `-ERR ` followed by the message; GET with no
argument and SET with a non-numeric `px` go the same way, while the results of REPLCONF,
tagged `err`, are encoded with their message. -/
theorem formatResponse_error_tag_mismatch :
    (Set 0 (newMaster []).vault [bulkArg (ascii "k")]).1.Err
        = ascii "ERR wrong number of arguments for 'set' command"
    ∧ formatResponse (Set 0 (newMaster []).vault [bulkArg (ascii "k")]).1
        = ascii "-ERR Unknown response type\r\n"
    ∧ (Get (newMaster []).vault []).map formatResponse
        = some (ascii "-ERR Unknown response type\r\n")
    ∧ formatResponse (Set 0 (newMaster []).vault
          [bulkArg (ascii "k"), bulkArg (ascii "v"), bulkArg (ascii "px"), bulkArg (ascii "x")]).1
        = ascii "-ERR Unknown response type\r\n"
    ∧ (ReplConf quietWorld (newMaster []) [] true).map (fun r => formatResponse r.1)
        = some (ascii "-ERR Not enough arguments for REPLCONF\r\n") := by
  decide

theorem sessionDecode_ne_invalid_length (input : GoString) :
    sessionDecode input ≠ Result.error (ascii "invalid length") := by
  have e1 : ascii "invalid protocol" ≠ ascii "invalid length" := by decide
  have e2 : ascii "invalid message format" ≠ ascii "invalid length" := by decide
  have e3 : ascii "invalid number of arguments" ≠ ascii "invalid length" := by decide
  have h4 : ¬ (kMaxMsg % 4294967296 < 4) := by decide
  simp only [sessionDecode, ParseReq, h4, if_false]
  split
  · simp
  · split_ifs
    · simp [e1]
    · simp
    · simp [e2]
    · split
      · simp [e3]
      · split_ifs
        · simp [e3]
        · simp

/-- C8 (failing input): the call of `ParseReq` in `handleConnection` passes `kMaxMsg` as
the length, so it fails with `invalid length` on no input at all: on the three bytes
`abc` it fails with `invalid protocol`; the call in `handleMasterConnection`, which
passes `len(data)`, fails with `invalid length` on `abc` and on `*1\r`. -/
theorem sessionDecode_short_input :
    (∀ input : GoString, sessionDecode input ≠ Result.error (ascii "invalid length"))
    ∧ sessionDecode (ascii "abc") = Result.error (ascii "invalid protocol")
    ∧ masterDecode ⟨ascii "abc", List.replicate 4093 0⟩ = Result.error (ascii "invalid length")
    ∧ masterDecode ⟨ascii "*1\r", List.replicate 4093 0⟩
        = Result.error (ascii "invalid length") :=
  ⟨sessionDecode_ne_invalid_length, by decide, by decide, by decide⟩

/-! ## The store under `handleCommand` -/

theorem ToUpper_SET (w : World) : ToUpper w (ascii "SET") = ascii "SET" := rfl

theorem ToUpper_GET (w : World) : ToUpper w (ascii "GET") = ascii "GET" := rfl

theorem dispatch_SET (w : World) (now : Int) (s : Server) (args : List Command) :
    dispatch w now s (ascii "SET") args
      = some (formatResponse (Set now s.vault args).1, { s with vault := (Set now s.vault args).2 }) :=
  rfl

theorem dispatch_GET (w : World) (now : Int) (s : Server) (args : List Command) :
    dispatch w now s (ascii "GET") args = (Get s.vault args).map (fun r => (formatResponse r, s)) := by
  have hH : Handlers (ascii "GET")
      = some (fun _ _ s args _ => (Get s.vault args).map (fun r => (r, s))) := rfl
  simp only [dispatch, hH]
  cases Get s.vault args <;> rfl

theorem propagate_of_not_write (s : Server) (c : GoString) (args : List Command)
    (h : isWriteCommand c = false) : propagate s c args = some s := by
  simp [propagate, h]

theorem propagate_spec (s : Server) (c : GoString) (args : List Command)
    (h : s.vault.IsMaster = true ∨ s.vault.MasterConn.isSome = true) :
    ∃ s3, propagate s c args = some s3 ∧ s3.vault.memory = s.vault.memory
      ∧ s3.vault.role = s.vault.role
      ∧ s3.vault.MasterConn.isSome = s.vault.MasterConn.isSome := by
  by_cases hw : isWriteCommand c = true
  · by_cases hm : s.vault.IsMaster = true
    · refine ⟨s.sendToReplicas c args, ?_, rfl, rfl, rfl⟩
      simp [propagate, hw, hm, Server.sendToReplicas]
    · have hsome : s.vault.MasterConn.isSome = true := h.resolve_left hm
      obtain ⟨conn, hconn⟩ := Option.isSome_iff_exists.1 hsome
      refine ⟨{ s with vault := { s.vault with
        MasterConn := some (conn.Write (EncodeCommand c args)) } }, ?_, rfl, ?_, ?_⟩
      · simp [propagate, hw, hm, Server.sendToMaster, hconn]
      · rfl
      · simp [hconn]
  · have hw2 : isWriteCommand c = false := by simpa using hw
    exact ⟨s, propagate_of_not_write s c args hw2, rfl, rfl, rfl⟩


theorem Set_role (now : Int) (v : Vault) (args : List Command) :
    (Set now v args).2.role = v.role := by
  unfold Set
  split <;> (try split_ifs) <;> (try split) <;> rfl

theorem Set_MasterConn (now : Int) (v : Vault) (args : List Command) :
    (Set now v args).2.MasterConn = v.MasterConn := by
  unfold Set
  split <;> (try split_ifs) <;> (try split) <;> rfl

theorem Save_AllStrings (ms : MemoryStorage) (key value : GoString) (lifetime : Option Int)
    (h : ms.AllStrings) : (ms.Save key (GoValue.string value) lifetime).AllStrings := by
  intro k item hk
  simp only [MemoryStorage.Save] at hk
  split_ifs at hk with hkey
  · cases lifetime <;> simp at hk <;> exact ⟨value, by rw [← hk]⟩
  · exact h k item hk

theorem Set_AllStrings (now : Int) (v : Vault) (args : List Command)
    (h : v.memory.AllStrings) : (Set now v args).2.memory.AllStrings := by
  unfold Set
  split <;> (try split_ifs) <;> (try split) <;>
    first
      | exact h
      | (simp only [Vault.SetMemory]; exact Save_AllStrings v.memory _ _ _ h)

theorem Get_total (v : Vault) (args : List Command) (h : v.memory.AllStrings) :
    ∃ r, Get v args = some r := by
  unfold Get
  split
  · exact ⟨_, rfl⟩
  · rename_i a0 rest
    cases hs : v.memory.storage a0.Bulk with
    | none => simp [Vault.GetMemory, MemoryStorage.Get, hs]
    | some item =>
      obtain ⟨val, hval⟩ := h _ item hs
      simp [Vault.GetMemory, MemoryStorage.Get, hs, hval]

theorem ReplicasConnection_vault (s : Server) (w : World) (address : GoString) :
    (s.ReplicasConnection w address).vault = { s.vault with ReplicaPresent := true } := by
  unfold Server.ReplicasConnection
  cases dialAttempts w address <;> rfl

theorem ReplConf_spec (w : World) (s : Server) (args : List Command) :
    ∃ r s1, ReplConf w s args true = some (r, s1) ∧ s1.vault.role = s.vault.role
      ∧ s1.vault.MasterConn = s.vault.MasterConn ∧ s1.vault.memory = s.vault.memory := by
  unfold ReplConf
  split
  · rename_i a0 a1 tl
    by_cases hL : ToUpper w a0.Bulk = ascii "LISTENING-PORT"
    · rw [if_pos hL]
      simp only [↓reduceIte]
      by_cases hm : (s.ReplicasConnection w a1.Bulk).vault.IsMaster = true
      · rw [if_pos hm]
        refine ⟨_, _, rfl, ?_, ?_, ?_⟩ <;> rw [ReplicasConnection_vault]
      · rw [if_neg hm]
        refine ⟨_, _, rfl, ?_, ?_, ?_⟩ <;> rw [ReplicasConnection_vault]
    · rw [if_neg hL]
      by_cases hC : ToUpper w a0.Bulk = ascii "CAPA"
      · rw [if_pos hC]
        exact ⟨_, _, rfl, rfl, rfl, rfl⟩
      · rw [if_neg hC]
        exact ⟨_, _, rfl, rfl, rfl, rfl⟩
  · exact ⟨_, _, rfl, rfl, rfl, rfl⟩

theorem dispatch_spec (w : World) (now : Int) (s : Server) (c : GoString) (args : List Command)
    (h : s.vault.memory.AllStrings) :
    ∃ reply s1, dispatch w now s c args = some (reply, s1) ∧ s1.vault.role = s.vault.role
      ∧ s1.vault.MasterConn = s.vault.MasterConn
      ∧ s1.vault.memory = (if c = ascii "SET" then (Set now s.vault args).2.memory
          else s.vault.memory) := by
  by_cases hset : c = ascii "SET"
  · subst hset
    rw [if_pos rfl, dispatch_SET]
    exact ⟨_, _, rfl, Set_role _ _ _, Set_MasterConn _ _ _, rfl⟩
  · rw [if_neg hset]
    unfold dispatch Handlers
    split_ifs with h1 h2 h4 h5 h6 h7
    · exact ⟨_, _, rfl, rfl, rfl, rfl⟩
    · exact ⟨_, _, rfl, rfl, rfl, rfl⟩
    · obtain ⟨r, hr⟩ := Get_total s.vault args h
      exact ⟨formatResponse r, s, by simp [hr], rfl, rfl, rfl⟩
    · exact ⟨_, _, rfl, rfl, rfl, rfl⟩
    · obtain ⟨r, s1, hr, hrole, hconn, hmem⟩ := ReplConf_spec w s args
      exact ⟨formatResponse r, s1, by simp [hr], hrole, hconn, hmem⟩
    · exact ⟨_, _, rfl, rfl, rfl, rfl⟩
    · exact ⟨_, _, rfl, rfl, rfl, rfl⟩

theorem Set_GetMemory (now : Int) (v : Vault) (rest : List GoString) (k : GoString) :
    (Set now v (rest.map bulkArg)).2.GetMemory k
      = match setValue k rest with
        | some value => some (GoValue.string value)
        | none => v.GetMemory k := by
  match rest with
  | [] => rfl
  | [_] => rfl
  | [key, value] =>
    by_cases hk : key = k
    · subst hk
      simp [Set, setValue, bulkArg, Command.Bulk, Vault.SetMemory, Vault.GetMemory,
        MemoryStorage.Save, MemoryStorage.Get]
    · have hk2 : ¬ k = key := fun h => hk h.symm
      simp [Set, setValue, bulkArg, Command.Bulk, Vault.SetMemory, Vault.GetMemory,
        MemoryStorage.Save, MemoryStorage.Get, hk, hk2]
  | [key, value, _] =>
    by_cases hk : key = k
    · subst hk
      simp [Set, setValue, bulkArg, Command.Bulk, Vault.SetMemory, Vault.GetMemory,
        MemoryStorage.Save, MemoryStorage.Get]
    · have hk2 : ¬ k = key := fun h => hk h.symm
      simp [Set, setValue, bulkArg, Command.Bulk, Vault.SetMemory, Vault.GetMemory,
        MemoryStorage.Save, MemoryStorage.Get, hk, hk2]
  | key :: value :: px :: ms :: _ =>
    by_cases hk : key = k
    · subst hk
      by_cases hpx : px = ascii "px"
      · cases ha : Atoi ms <;>
          simp [Set, setValue, bulkArg, Command.Bulk, Vault.SetMemory, Vault.GetMemory,
            MemoryStorage.Save, MemoryStorage.Get, hpx, ha]
      · simp [Set, setValue, bulkArg, Command.Bulk, Vault.SetMemory, Vault.GetMemory,
          MemoryStorage.Save, MemoryStorage.Get, hpx]
    · have hk2 : ¬ k = key := fun h => hk h.symm
      by_cases hpx : px = ascii "px"
      · cases ha : Atoi ms <;>
          simp [Set, setValue, bulkArg, Command.Bulk, Vault.SetMemory, Vault.GetMemory,
            MemoryStorage.Save, MemoryStorage.Get, hpx, ha, hk, hk2]
      · simp [Set, setValue, bulkArg, Command.Bulk, Vault.SetMemory, Vault.GetMemory,
          MemoryStorage.Save, MemoryStorage.Get, hpx, hk, hk2]


theorem formatResponse_string (s : GoString) :
    formatResponse (Command.mk (ascii "string") s [] [] [] []) = s ++ CRLF := by
  simp only [formatResponse, if_true]

theorem formatResponse_nil :
    formatResponse (Command.mk (ascii "nil") [] [] [] [] []) = ascii "$-1\r\n" := by
  decide

theorem formatResponse_error (e : GoString) :
    formatResponse (Command.mk (ascii "error") [] [] [] e [])
      = ascii "-ERR Unknown response type\r\n" := by
  have e1 : ascii "error" ≠ ascii "string" := by decide
  have e2 : ascii "error" ≠ ascii "list" := by decide
  have e3 : ascii "error" ≠ ascii "nil" := by decide
  have e4 : ascii "error" ≠ ascii "err" := by decide
  have e5 : ascii "error" ≠ ascii "arr" := by decide
  have e6 : ascii "error" ≠ ascii "multi" := by decide
  have e7 : ascii "error" ≠ ascii "bulk" := by decide
  simp only [formatResponse, e1, e2, e3, e4, e5, e6, e7, or_self, if_false]

theorem isWriteCommand_GET : isWriteCommand (ascii "GET") = false := by decide

theorem handleCommand_GET (w : World) (now : Int) (s : Server) (k : GoString) :
    handleCommand w now s [ascii "GET", k]
      = match s.vault.GetMemory k with
        | none => some (ascii "$-1\r\n", s)
        | some (GoValue.string v) => some (v ++ CRLF, s)
        | some _ => none := by
  simp only [handleCommand, ToUpper_GET, dispatch_GET, List.map_cons, List.map_nil, Get]
  have hb : (bulkArg k).Bulk = k := rfl
  rw [hb]
  cases hg : s.vault.GetMemory k with
  | none =>
    simp only [Option.map_some', formatResponse_nil,
      propagate_of_not_write s _ _ isWriteCommand_GET]
  | some val =>
    cases val with
    | string v =>
      simp only [Option.map_some', formatResponse_string,
        propagate_of_not_write s _ _ isWriteCommand_GET]
    | int n => simp
    | float64 b => simp
    | other => simp

theorem IsMaster_of_role (v1 v2 : Vault) (h : v1.role = v2.role) : v1.IsMaster = v2.IsMaster := by
  simp [Vault.IsMaster, h]

theorem handleCommand_spec (w : World) (now : Int) (s : Server) (message : List GoString)
    (h : s.WellFormed) :
    ∃ reply s1, handleCommand w now s message = some (reply, s1) ∧ s1.WellFormed
      ∧ ∀ k, s1.vault.GetMemory k = match acceptedSet w k message with
          | some v => some (GoValue.string v)
          | none => s.vault.GetMemory k := by
  cases message with
  | nil => exact ⟨_, s, rfl, h, fun k => rfl⟩
  | cons name rest =>
    obtain ⟨reply, s1, hd, hrole, hconn, hmem⟩ :=
      dispatch_spec w now s (ToUpper w name) (rest.map bulkArg) h.1
    have hm1 : s1.vault.IsMaster = s.vault.IsMaster := IsMaster_of_role _ _ hrole
    obtain ⟨s3, hp, hmem3, hrole3, hconn3⟩ :=
      propagate_spec s1 (ToUpper w name) (rest.map bulkArg) (by rw [hm1, hconn]; exact h.2)
    refine ⟨reply, s3, by simp only [handleCommand, hd, hp, Option.map_some'], ⟨?_, ?_⟩, ?_⟩
    · rw [hmem3, hmem]
      split_ifs
      · exact Set_AllStrings _ _ _ h.1
      · exact h.1
    · rw [IsMaster_of_role _ _ hrole3, hconn3, hm1, hconn]
      exact h.2
    · intro k
      simp only [Vault.GetMemory, hmem3, hmem, acceptedSet]
      by_cases hset : ToUpper w name = ascii "SET"
      · simp only [hset, if_true]
        exact Set_GetMemory now s.vault rest k
      · simp only [hset, if_false]

theorem runCommands_spec (w : World) (cmds : List (Int × List GoString)) :
    ∀ s : Server, s.WellFormed →
      ∃ s1, runCommands w s cmds = some s1 ∧ s1.WellFormed
        ∧ ∀ k, s1.vault.GetMemory k = match lastSet w k cmds with
            | some v => some (GoValue.string v)
            | none => s.vault.GetMemory k := by
  induction cmds with
  | nil => intro s h; exact ⟨s, rfl, h, fun k => rfl⟩
  | cons c rest ih =>
    intro s h
    obtain ⟨now, message⟩ := c
    obtain ⟨reply, s1, h1, hwf1, hget1⟩ := handleCommand_spec w now s message h
    obtain ⟨s2, h2, hwf2, hget2⟩ := ih s1 hwf1
    refine ⟨s2, by simp only [runCommands, h1, h2], hwf2, fun k => ?_⟩
    rw [hget2 k]
    simp only [lastSet]
    cases lastSet w k rest with
    | some v => rfl
    | none => exact hget1 k

theorem acceptedSet_SET (w : World) (k v : GoString) :
    acceptedSet w k [ascii "SET", k, v] = some v := by
  simp [acceptedSet, ToUpper_SET, setValue]

theorem acceptedSet_GET (w : World) (k k2 : GoString) :
    acceptedSet w k [ascii "GET", k2] = none := by
  have h : ascii "GET" ≠ ascii "SET" := by decide
  simp [acceptedSet, ToUpper_GET, h]

theorem lastSet_repeat (w : World) (k v : GoString) (t1 t2 : Int) (n : Nat) :
    lastSet w k (List.replicate (n + 1)
      [(t1, [ascii "SET", k, v]), (t2, [ascii "GET", k])]).flatten = some v := by
  induction n with
  | zero => simp [lastSet, acceptedSet_SET, acceptedSet_GET]
  | succ n ih =>
    have hstep : ∀ rest, lastSet w k rest = some v →
        lastSet w k ((t1, [ascii "SET", k, v]) :: (t2, [ascii "GET", k]) :: rest) = some v := by
      intro rest hr
      simp only [lastSet, hr]
    have hlist : (List.replicate (n + 1 + 1)
          [(t1, [ascii "SET", k, v]), (t2, [ascii "GET", k])]).flatten
        = (t1, [ascii "SET", k, v]) :: (t2, [ascii "GET", k])
          :: (List.replicate (n + 1) [(t1, [ascii "SET", k, v]), (t2, [ascii "GET", k])]).flatten := by
      rw [List.replicate_succ, List.flatten_cons]
      rfl
    rw [hlist]
    exact hstep _ ih

theorem isWriteCommand_SET : isWriteCommand (ascii "SET") = true := by decide

theorem handleCommand_SET (w : World) (now : Int) (s : Server) (rest : List GoString)
    (h : s.vault.IsMaster = true ∨ s.vault.MasterConn.isSome = true) :
    ∃ s1, handleCommand w now s (ascii "SET" :: rest)
        = some (formatResponse (Set now s.vault (rest.map bulkArg)).1, s1)
      ∧ s1.vault.memory = (Set now s.vault (rest.map bulkArg)).2.memory
      ∧ s1.vault.role = s.vault.role
      ∧ s1.vault.MasterConn.isSome = s.vault.MasterConn.isSome := by
  obtain ⟨s3, hp, hmem, hrole, hconn⟩ := propagate_spec
    { s with vault := (Set now s.vault (rest.map bulkArg)).2 } (ascii "SET") (rest.map bulkArg)
    (by
      have h1 := Set_role now s.vault (rest.map bulkArg)
      have h2 := Set_MasterConn now s.vault (rest.map bulkArg)
      simp only [Vault.IsMaster, h1, h2]
      exact h)
  refine ⟨s3, ?_, hmem, ?_, ?_⟩
  · simp only [handleCommand, ToUpper_SET, dispatch_SET, hp, Option.map_some']
  · rw [hrole]; exact Set_role _ _ _
  · rw [hconn]; simp only [Set_MasterConn]

theorem newMaster_WellFormed (replid : GoString) : (newMaster replid).WellFormed :=
  ⟨fun _ _ h => by simp [newMaster, NewMemoryStorage] at h, Or.inl rfl⟩

theorem dispatch_effect (w : World) (now : Int) (s s1 : Server) (c reply : GoString)
    (args : List Command) (hd : dispatch w now s c args = some (reply, s1)) :
    s1.vault.role = s.vault.role ∧ s1.vault.MasterConn = s.vault.MasterConn
      ∧ s1.vault.memory = (if c = ascii "SET" then (Set now s.vault args).2.memory
          else s.vault.memory) := by
  by_cases hset : c = ascii "SET"
  · subst hset
    rw [dispatch_SET] at hd
    simp only [Option.some.injEq, Prod.mk.injEq] at hd
    obtain ⟨-, rfl⟩ := hd
    exact ⟨Set_role _ _ _, Set_MasterConn _ _ _, by rw [if_pos rfl]⟩
  · rw [if_neg hset]
    unfold dispatch Handlers at hd
    split_ifs at hd with h1 h2 h4 h5 h6 h7
    · simp only [Option.map_some', Option.some.injEq, Prod.mk.injEq] at hd
      obtain ⟨-, rfl⟩ := hd
      exact ⟨rfl, rfl, rfl⟩
    · simp only [Option.map_some', Option.some.injEq, Prod.mk.injEq] at hd
      obtain ⟨-, rfl⟩ := hd
      exact ⟨rfl, rfl, rfl⟩
    · cases hG : Get s.vault args with
      | none => simp [hG] at hd
      | some r =>
        simp only [hG, Option.map_some', Option.some.injEq, Prod.mk.injEq] at hd
        obtain ⟨-, rfl⟩ := hd
        exact ⟨rfl, rfl, rfl⟩
    · simp only [Option.map_some', Option.some.injEq, Prod.mk.injEq] at hd
      obtain ⟨-, rfl⟩ := hd
      exact ⟨rfl, rfl, rfl⟩
    · obtain ⟨r, s2, hr, hrole, hconn, hmem⟩ := ReplConf_spec w s args
      simp only [hr, Option.map_some', Option.some.injEq, Prod.mk.injEq] at hd
      obtain ⟨-, rfl⟩ := hd
      exact ⟨hrole, hconn, hmem⟩
    · simp only [Option.map_some', Option.some.injEq, Prod.mk.injEq] at hd
      obtain ⟨-, rfl⟩ := hd
      exact ⟨rfl, rfl, rfl⟩
    · simp only [Option.some.injEq, Prod.mk.injEq] at hd
      obtain ⟨-, rfl⟩ := hd
      exact ⟨rfl, rfl, rfl⟩

theorem propagate_effect (s s3 : Server) (c : GoString) (args : List Command)
    (hp : propagate s c args = some s3) :
    s3.vault.memory = s.vault.memory ∧ s3.vault.role = s.vault.role
      ∧ s3.vault.MasterConn.isSome = s.vault.MasterConn.isSome := by
  cases hconn : s.vault.MasterConn with
  | some conn =>
    obtain ⟨s4, h4, hm, hr, hc⟩ := propagate_spec s c args (Or.inr (by simp [hconn]))
    rw [hp] at h4
    simp only [Option.some.injEq] at h4
    subst h4
    exact ⟨hm, hr, by rw [hc, hconn]⟩
  | none =>
    by_cases hm : s.vault.IsMaster = true
    · obtain ⟨s4, h4, hm4, hr, hc⟩ := propagate_spec s c args (Or.inl hm)
      rw [hp] at h4
      simp only [Option.some.injEq] at h4
      subst h4
      exact ⟨hm4, hr, by rw [hc, hconn]⟩
    · by_cases hw : isWriteCommand c = true
      · simp [propagate, hw, hm, Server.sendToMaster, hconn] at hp
      · have hw2 : isWriteCommand c = false := by simpa using hw
        rw [propagate_of_not_write s c args hw2] at hp
        simp only [Option.some.injEq] at hp
        subst hp
        exact ⟨rfl, rfl, by rw [hconn]⟩

theorem handleCommand_effect (w : World) (now : Int) (s s1 : Server) (message : List GoString)
    (reply : GoString) (h : handleCommand w now s message = some (reply, s1)) :
    s1.vault.IsMaster = s.vault.IsMaster
      ∧ s1.vault.MasterConn.isSome = s.vault.MasterConn.isSome
      ∧ ∀ k, s1.vault.GetMemory k = match acceptedSet w k message with
          | some v => some (GoValue.string v)
          | none => s.vault.GetMemory k := by
  cases message with
  | nil =>
    simp only [handleCommand, Option.some.injEq, Prod.mk.injEq] at h
    obtain ⟨-, rfl⟩ := h
    exact ⟨rfl, rfl, fun k => rfl⟩
  | cons name rest =>
    simp only [handleCommand] at h
    cases hd : dispatch w now s (ToUpper w name) (rest.map bulkArg) with
    | none => simp [hd] at h
    | some r =>
      obtain ⟨reply1, s2⟩ := r
      simp only [hd] at h
      cases hp : propagate s2 (ToUpper w name) (rest.map bulkArg) with
      | none => simp [hp] at h
      | some s3 =>
        simp only [hp, Option.map_some', Option.some.injEq, Prod.mk.injEq] at h
        obtain ⟨-, rfl⟩ := h
        obtain ⟨hrole, hconn, hmem⟩ := dispatch_effect w now s s2 _ reply1 _ hd
        obtain ⟨hmem3, hrole3, hconn3⟩ := propagate_effect s2 s3 _ _ hp
        refine ⟨?_, by rw [hconn3, hconn], fun k => ?_⟩
        · rw [IsMaster_of_role _ _ hrole3, IsMaster_of_role _ _ hrole]
        · simp only [Vault.GetMemory, hmem3, hmem, acceptedSet]
          by_cases hset : ToUpper w name = ascii "SET"
          · simp only [hset, if_true]
            exact Set_GetMemory now s.vault rest k
          · simp only [hset, if_false]

theorem runCommands_effect (w : World) (cmds : List (Int × List GoString)) :
    ∀ s s1 : Server, runCommands w s cmds = some s1 →
      s1.vault.IsMaster = s.vault.IsMaster
        ∧ s1.vault.MasterConn.isSome = s.vault.MasterConn.isSome
        ∧ ∀ k, s1.vault.GetMemory k = match lastSet w k cmds with
            | some v => some (GoValue.string v)
            | none => s.vault.GetMemory k := by
  induction cmds with
  | nil =>
    intro s s1 h
    simp only [runCommands, Option.some.injEq] at h
    subst h
    exact ⟨rfl, rfl, fun k => rfl⟩
  | cons c rest ih =>
    intro s s1 h
    obtain ⟨now, message⟩ := c
    simp only [runCommands] at h
    cases hc : handleCommand w now s message with
    | none => simp [hc] at h
    | some r =>
      obtain ⟨reply, s2⟩ := r
      simp only [hc] at h
      obtain ⟨hm2, hconn2, hget2⟩ := handleCommand_effect w now s s2 message reply hc
      obtain ⟨hm1, hconn1, hget1⟩ := ih s2 s1 h
      refine ⟨by rw [hm1, hm2], by rw [hconn1, hconn2], fun k => ?_⟩
      rw [hget1 k]
      simp only [lastSet]
      cases lastSet w k rest with
      | some v => rfl
      | none => exact hget2 k

theorem runCommands_append (w : World) (a b : List (Int × List GoString)) :
    ∀ s : Server, runCommands w s (a ++ b)
      = (runCommands w s a).bind (fun s1 => runCommands w s1 b) := by
  induction a with
  | nil => intro s; rfl
  | cons c rest ih =>
    intro s
    obtain ⟨now, message⟩ := c
    simp only [List.cons_append, runCommands]
    cases handleCommand w now s message with
    | none => rfl
    | some r => exact ih r.2

theorem run_SET_GET (w : World) (s : Server) (k v : GoString) (t1 t2 : Int)
    (h : s.vault.IsMaster = true ∨ s.vault.MasterConn.isSome = true) :
    ∃ s2, runCommands w s [(t1, [ascii "SET", k, v]), (t2, [ascii "GET", k])] = some s2
      ∧ (s2.vault.IsMaster = true ∨ s2.vault.MasterConn.isSome = true)
      ∧ s2.vault.GetMemory k = some (GoValue.string v) := by
  obtain ⟨s1, h1, hmem, hrole, hconn⟩ := handleCommand_SET w t1 s [k, v] h
  have hget : s1.vault.GetMemory k = some (GoValue.string v) := by
    have := Set_GetMemory t1 s.vault [k, v] k
    simp only [setValue, if_true] at this
    simp only [Vault.GetMemory] at this ⊢
    rw [hmem]
    exact this
  refine ⟨s1, ?_, ?_, hget⟩
  · simp only [runCommands, h1, handleCommand_GET, hget]
  · rw [IsMaster_of_role _ _ hrole, hconn]
    exact h

theorem run_repeat_SET_GET (w : World) (k v : GoString) (t1 t2 : Int) (n : Nat) :
    ∀ s : Server, (s.vault.IsMaster = true ∨ s.vault.MasterConn.isSome = true) →
      ∃ s3, runCommands w s (List.replicate (n + 1)
          [(t1, [ascii "SET", k, v]), (t2, [ascii "GET", k])]).flatten = some s3
        ∧ s3.vault.GetMemory k = some (GoValue.string v) := by
  induction n with
  | zero =>
    intro s h
    obtain ⟨s2, h2, -, hget⟩ := run_SET_GET w s k v t1 t2 h
    exact ⟨s2, by simpa using h2, hget⟩
  | succ n ih =>
    intro s h
    obtain ⟨s2, h2, hconn2, -⟩ := run_SET_GET w s k v t1 t2 h
    obtain ⟨s3, h3, hget3⟩ := ih s2 hconn2
    refine ⟨s3, ?_, hget3⟩
    rw [List.replicate_succ, List.flatten_cons, runCommands_append, h2]
    exact h3

/-- C2: take any store and any run of requests through `handleCommand` (on a node that,
if it is a replica, has its master connection). The run is handled unless the initial
store held a value that is not a string; when it is handled, ending in state `s1`, then
for every key `k` the request GET `k` is answered with the value of the most recent
successfully handled SET on `k` followed by CRLF, or, when no SET on `k` was handled,
with what the initial store held under `k`: `$-1\r\n` when it held nothing. The GET
returns the state as it was, and after repeating SET `k` `v`, GET `k` any number of
times the answer to GET `k` is `v`. -/
theorem GET_returns_last_SET (w : World) (s : Server) (cmds : List (Int × List GoString))
    (hconn : s.vault.IsMaster = true ∨ s.vault.MasterConn.isSome = true) :
    match runCommands w s cmds with
    | none => ¬ s.vault.memory.AllStrings
    | some s1 =>
      (∀ (k : GoString) (now : Int), handleCommand w now s1 [ascii "GET", k]
          = match lastSet w k cmds with
            | some v => some (v ++ CRLF, s1)
            | none =>
              match s.vault.GetMemory k with
              | none => some (ascii "$-1\r\n", s1)
              | some (GoValue.string v0) => some (v0 ++ CRLF, s1)
              | some _ => none)
      ∧ (∀ (k v : GoString) (n : Nat) (t1 t2 t3 : Int),
          ∃ s3, runCommands w s1 (List.replicate (n + 1)
              [(t1, [ascii "SET", k, v]), (t2, [ascii "GET", k])]).flatten = some s3
            ∧ handleCommand w t3 s3 [ascii "GET", k] = some (v ++ CRLF, s3)) := by
  cases hrun : runCommands w s cmds with
  | none =>
    intro hall
    obtain ⟨s1, h1, -, -⟩ := runCommands_spec w cmds s ⟨hall, hconn⟩
    rw [hrun] at h1
    exact absurd h1 (by simp)
  | some s1 =>
    obtain ⟨hm, hc, hget⟩ := runCommands_effect w cmds s s1 hrun
    refine ⟨fun k now => ?_, fun k v n t1 t2 t3 => ?_⟩
    · rw [handleCommand_GET, hget k]
      cases lastSet w k cmds with
      | some v => rfl
      | none =>
        cases s.vault.GetMemory k with
        | none => rfl
        | some val => cases val <;> rfl
    · obtain ⟨s3, hrun3, hget3⟩ := run_repeat_SET_GET w k v t1 t2 n s1 (by rw [hm, hc]; exact hconn)
      exact ⟨s3, hrun3, by rw [handleCommand_GET, hget3]⟩

/-- Witness of C2: on a fresh master the run SET foo 1, set foo bar, PING is handled, and
then the answer to GET foo is `bar\r\n` and the answer to GET baz is `$-1\r\n`. -/
theorem GET_returns_last_SET_witness :
    ((newMaster []).vault.IsMaster = true ∨ (newMaster []).vault.MasterConn.isSome = true)
    ∧ ∃ s1, runCommands quietWorld (newMaster [])
          [(0, [ascii "SET", ascii "foo", ascii "1"]), (1, [ascii "set", ascii "foo", ascii "bar"]),
           (2, [ascii "PING"])] = some s1
        ∧ handleCommand quietWorld 3 s1 [ascii "GET", ascii "foo"] = some (ascii "bar\r\n", s1)
        ∧ handleCommand quietWorld 3 s1 [ascii "GET", ascii "baz"] = some (ascii "$-1\r\n", s1) := by
  refine ⟨Or.inl (by decide), ?_⟩
  have h := GET_returns_last_SET quietWorld (newMaster [])
    [(0, [ascii "SET", ascii "foo", ascii "1"]), (1, [ascii "set", ascii "foo", ascii "bar"]),
     (2, [ascii "PING"])] (Or.inl (by decide))
  exact ⟨_, rfl, h.1 (ascii "foo") 3, h.1 (ascii "baz") 3⟩

/-- C3 (failing input): SET k v px 50 is handled at time 0 and records the lifetime
50 ms (times are in nanoseconds); at 100 ms that lifetime has expired and `GetType`
reports the key as absent, yet GET k is answered with `v\r\n`, not with nil:
`MemoryStorage.Get` never looks at the lifetime. -/
theorem GET_ignores_expiry :
    ((handleCommand quietWorld 0 (newMaster [])
        [ascii "SET", ascii "k", ascii "v", ascii "px", ascii "50"]).bind
      (fun r => r.2.vault.memory.storage (ascii "k"))).map (fun item => item.Lifetime)
        = some 50000000
    ∧ MemoryStorage.Expired 100000000 50000000 = true
    ∧ ((handleCommand quietWorld 0 (newMaster [])
        [ascii "SET", ascii "k", ascii "v", ascii "px", ascii "50"]).map
      (fun r => r.2.vault.memory.GetType 100000000 (ascii "k"))) = some (ascii "none")
    ∧ ((handleCommand quietWorld 0 (newMaster [])
        [ascii "SET", ascii "k", ascii "v", ascii "px", ascii "50"]).bind
      (fun r => handleCommand quietWorld 100000000 r.2 [ascii "GET", ascii "k"])).map
        (fun r => r.1) = some (ascii "v\r\n") := by
  decide

/-- Counterexample to C4 as stated: after SET foo bar the reply to GET foo is
`bar\r\n`, which is not the bulk encoding `$3\r\nbar\r\n`. -/
theorem GET_reply_not_bulk :
    ((handleCommand quietWorld 0 (newMaster []) [ascii "SET", ascii "foo", ascii "bar"]).bind
      (fun r => handleCommand quietWorld 1 r.2 [ascii "GET", ascii "foo"])).map (fun r => r.1)
        = some (ascii "bar\r\n")
    ∧ ((handleCommand quietWorld 0 (newMaster []) [ascii "SET", ascii "foo", ascii "bar"]).bind
      (fun r => handleCommand quietWorld 1 r.2 [ascii "GET", ascii "foo"])).map (fun r => r.1)
        ≠ some (ascii "$3\r\nbar\r\n")
    ∧ bulkFrame (ascii "bar") = ascii "$3\r\nbar\r\n" := by
  decide

/-- C4 (amended): for every key `k` and value `v`, after `handleCommand` has handled
SET `k` `v` (answered `+OK\r\n`), the reply it produces for GET `k`, at any time, is
`v` followed by CRLF: the encoding of a string result, without the `$<length>` line of
a bulk. -/
theorem GET_after_SET_reply (w : World) (t0 : Int) (s : Server) (k v : GoString)
    (h : s.vault.IsMaster = true ∨ s.vault.MasterConn.isSome = true) :
    ∃ s1, handleCommand w t0 s [ascii "SET", k, v] = some (ascii "+OK\r\n", s1)
      ∧ ∀ t : Int, handleCommand w t s1 [ascii "GET", k] = some (v ++ CRLF, s1) := by
  obtain ⟨s1, h1, hmem, -, -⟩ := handleCommand_SET w t0 s [k, v] h
  refine ⟨s1, h1, fun t => ?_⟩
  have hget : s1.vault.GetMemory k = some (GoValue.string v) := by
    have := Set_GetMemory t0 s.vault [k, v] k
    simp only [setValue, if_true] at this
    simp only [Vault.GetMemory] at this ⊢
    rw [hmem]
    exact this
  rw [handleCommand_GET, hget]

/-- Witness of C4 (amended) on a fresh master with SET foo bar. -/
theorem GET_after_SET_reply_witness :
    ((newMaster []).vault.IsMaster = true ∨ (newMaster []).vault.MasterConn.isSome = true)
    ∧ ∃ s1, handleCommand quietWorld 0 (newMaster []) [ascii "SET", ascii "foo", ascii "bar"]
          = some (ascii "+OK\r\n", s1)
        ∧ ∀ t : Int, handleCommand quietWorld t s1 [ascii "GET", ascii "foo"]
          = some (ascii "bar" ++ CRLF, s1) :=
  ⟨Or.inl (by decide),
   GET_after_SET_reply quietWorld 0 (newMaster []) (ascii "foo") (ascii "bar") (Or.inl (by decide))⟩

theorem Atoi_none_of_not_decimal (x : GoString) (h : isDecimalInteger x = false) :
    Atoi x = none := by
  cases x with
  | nil => decide
  | cons b r =>
    simp only [isDecimalInteger] at h
    by_cases h45 : b = 45
    · subst h45
      simp only [true_or, if_true, Bool.and_eq_false_iff, decide_eq_false_iff_not,
        not_not] at h
      have hs : splitSign (45 :: r) = (true, r) := by simp [splitSign]
      simp only [Atoi, hs]
      rcases h with h | h
      · simp [h]
      · simp [h]
    · by_cases h43 : b = 43
      · subst h43
        simp only [or_true, if_true, Bool.and_eq_false_iff, decide_eq_false_iff_not,
          not_not] at h
        have hs : splitSign (43 :: r) = (false, r) := by simp [splitSign]
        simp only [Atoi, hs]
        rcases h with h | h
        · simp [h]
        · simp [h]
      · simp only [h45, h43, or_self, if_false] at h
        have hs : splitSign (b :: r) = (false, b :: r) := by simp [splitSign, h45, h43]
        simp only [Atoi, hs]
        simp [h]

/-- C5: in every state (that, on a replica, has its master connection) each rejected
command leaves the store exactly as it was and is answered with an error reply, bytes
that begin with `-ERR`: SET with fewer than 2 arguments, SET `k` `v` px `x` with `x` not
a decimal integer, and GET with no argument. -/
theorem rejected_commands_keep_store (w : World) (now : Int) (s : Server)
    (args : List GoString) (k v x : GoString) (rest : List GoString)
    (h : s.vault.IsMaster = true ∨ s.vault.MasterConn.isSome = true)
    (hargs : args.length < 2) (hx : isDecimalInteger x = false) :
    (∃ reply s1, handleCommand w now s (ascii "SET" :: args) = some (reply, s1)
        ∧ s1.vault.memory = s.vault.memory ∧ ascii "-ERR" <+: reply)
    ∧ (∃ reply s1, handleCommand w now s (ascii "SET" :: k :: v :: ascii "px" :: x :: rest)
          = some (reply, s1)
        ∧ s1.vault.memory = s.vault.memory ∧ ascii "-ERR" <+: reply)
    ∧ (∃ reply, handleCommand w now s [ascii "GET"] = some (reply, s)
        ∧ ascii "-ERR" <+: reply) := by
  have hpre : ascii "-ERR" <+: ascii "-ERR Unknown response type\r\n" := by decide
  refine ⟨?_, ?_, ?_⟩
  · obtain ⟨s1, h1, hmem, -, -⟩ := handleCommand_SET w now s args h
    have hset : Set now s.vault (args.map bulkArg)
        = (Command.mk (ascii "error") [] [] []
            (ascii "ERR wrong number of arguments for 'set' command") [], s.vault) := by
      match args, hargs with
      | [], _ => rfl
      | [_], _ => rfl
    rw [hset] at h1 hmem
    rw [formatResponse_error] at h1
    exact ⟨_, s1, h1, hmem, hpre⟩
  · obtain ⟨s1, h1, hmem, -, -⟩ :=
      handleCommand_SET w now s (k :: v :: ascii "px" :: x :: rest) h
    have hset : Set now s.vault ((k :: v :: ascii "px" :: x :: rest).map bulkArg)
        = (Command.mk (ascii "error") [] [] [] (ascii "ERR invalid expiration time") [],
            s.vault) := by
      simp [Set, bulkArg, Command.Bulk, Atoi_none_of_not_decimal x hx]
    rw [hset] at h1 hmem
    rw [formatResponse_error] at h1
    exact ⟨_, s1, h1, hmem, hpre⟩
  · refine ⟨ascii "-ERR Unknown response type\r\n", ?_, hpre⟩
    simp only [handleCommand, ToUpper_GET, dispatch_GET, List.map_nil, Get, Option.map_some',
      formatResponse_error, propagate_of_not_write s _ _ isWriteCommand_GET]

/-- Witness of C5 on a fresh master: SET k, SET k v px soon, and GET. -/
theorem rejected_commands_keep_store_witness :
    ((newMaster []).vault.IsMaster = true ∨ (newMaster []).vault.MasterConn.isSome = true)
    ∧ [ascii "k"].length < 2 ∧ isDecimalInteger (ascii "soon") = false
    ∧ (∃ reply s1, handleCommand quietWorld 0 (newMaster []) (ascii "SET" :: [ascii "k"])
          = some (reply, s1)
        ∧ s1.vault.memory = (newMaster []).vault.memory ∧ ascii "-ERR" <+: reply)
    ∧ (∃ reply s1, handleCommand quietWorld 0 (newMaster [])
          (ascii "SET" :: ascii "k" :: ascii "v" :: ascii "px" :: ascii "soon" :: [])
          = some (reply, s1)
        ∧ s1.vault.memory = (newMaster []).vault.memory ∧ ascii "-ERR" <+: reply)
    ∧ (∃ reply, handleCommand quietWorld 0 (newMaster []) [ascii "GET"]
          = some (reply, newMaster [])
        ∧ ascii "-ERR" <+: reply) :=
  ⟨Or.inl (by decide), by decide, by decide,
   rejected_commands_keep_store quietWorld 0 (newMaster []) [ascii "k"] (ascii "k") (ascii "v")
     (ascii "soon") [] (Or.inl (by decide)) (by decide) (by decide)⟩

/-! ## Letter casing of names -/

theorem toNat_ofNat_small (n : Nat) (h : n < 256) : (UInt8.ofNat n).toNat = n := by
  simp [UInt8.toNat, UInt8.ofNat, Fin.ofNat]
  omega

theorem sameLetter_spec (a b : UInt8) (h : sameLetter a b = true) (hb : b.toNat < 128) :
    a.toNat < 128
      ∧ (if 97 ≤ a.toNat ∧ a.toNat ≤ 122 then UInt8.ofNat (a.toNat - 32) else a)
        = (if 97 ≤ b.toNat ∧ b.toNat ≤ 122 then UInt8.ofNat (b.toNat - 32) else b) := by
  simp only [sameLetter, Bool.or_eq_true, Bool.and_eq_true, decide_eq_true_eq] at h
  rcases h with (h | ⟨⟨h1, h2⟩, h3⟩) | ⟨⟨h1, h2⟩, h3⟩
  · subst h
    exact ⟨hb, rfl⟩
  · refine ⟨by omega, ?_⟩
    have ha : ¬ (97 ≤ a.toNat ∧ a.toNat ≤ 122) := by omega
    have hb2 : 97 ≤ b.toNat ∧ b.toNat ≤ 122 := by omega
    rw [if_neg ha, if_pos hb2]
    apply UInt8.toNat.inj
    rw [toNat_ofNat_small _ (by omega)]
    omega
  · refine ⟨by omega, ?_⟩
    have ha : 97 ≤ a.toNat ∧ a.toNat ≤ 122 := ⟨h1, h2⟩
    have hb2 : ¬ (97 ≤ b.toNat ∧ b.toNat ≤ 122) := by omega
    rw [if_pos ha, if_neg hb2]
    apply UInt8.toNat.inj
    rw [toNat_ofNat_small _ (by omega)]
    omega

theorem caseVariant_spec (a : GoString) : ∀ b : GoString, caseVariant a b = true →
    b.all (fun c => decide (c.toNat < 128)) = true →
    a.all (fun c => decide (c.toNat < 128)) = true
      ∧ a.map (fun c => if 97 ≤ c.toNat ∧ c.toNat ≤ 122 then UInt8.ofNat (c.toNat - 32) else c)
        = b.map (fun c => if 97 ≤ c.toNat ∧ c.toNat ≤ 122 then UInt8.ofNat (c.toNat - 32) else c) := by
  induction a with
  | nil =>
    intro b h _
    cases b with
    | nil => exact ⟨rfl, rfl⟩
    | cons y ys => simp [caseVariant] at h
  | cons x xs ih =>
    intro b h hb
    cases b with
    | nil => simp [caseVariant] at h
    | cons y ys =>
      simp only [caseVariant, Bool.and_eq_true] at h
      simp only [List.all_cons, Bool.and_eq_true, decide_eq_true_eq] at hb
      obtain ⟨h1, h2⟩ := sameLetter_spec x y h.1 hb.1
      obtain ⟨h3, h4⟩ := ih ys h.2 hb.2
      refine ⟨?_, ?_⟩
      · simp only [List.all_cons, Bool.and_eq_true, decide_eq_true_eq]
        exact ⟨h1, h3⟩
      · simp only [List.map_cons, h2, h4]

theorem ToUpper_caseVariant (w : World) (a b : GoString) (h : caseVariant a b = true)
    (hb : b.all (fun c => decide (c.toNat < 128)) = true) : ToUpper w a = ToUpper w b := by
  obtain ⟨h1, h2⟩ := caseVariant_spec a b h hb
  simp only [ToUpper, h1, hb, if_true, h2]

theorem handleCommand_caseVariant (w : World) (now : Int) (s : Server) (a b : GoString)
    (rest : List GoString) (h : caseVariant a b = true)
    (hb : b.all (fun c => decide (c.toNat < 128)) = true) :
    handleCommand w now s (a :: rest) = handleCommand w now s (b :: rest) := by
  simp only [handleCommand, ToUpper_caseVariant w a b h hb]

/-- C11 (failing input): on the replica ingestion path `handleMasterCommands` looks the
name up as it is, so the tokens set k v (the key), which `handleCommand` on the client
path dispatches to SET like the tokens SET k v, find no handler there: the store of the
replica keeps no value for k, while with the name SET it maps k to v. -/
theorem handleMasterCommands_case_sensitive :
    (handleMasterCommands quietWorld 0 newReplica [ascii "set", ascii "k", ascii "v"]).bind
        (fun s => s.vault.GetMemory (ascii "k")) = none
    ∧ (handleMasterCommands quietWorld 0 newReplica [ascii "set", ascii "k", ascii "v"]).isSome
        = true
    ∧ (handleMasterCommands quietWorld 0 newReplica [ascii "SET", ascii "k", ascii "v"]).bind
        (fun s => s.vault.GetMemory (ascii "k")) = some (GoValue.string (ascii "v"))
    ∧ (handleMasterConnection quietWorld 0 newReplica
          ⟨ascii "*3\r\n$3\r\nset\r\n$1\r\nk\r\n$1\r\nv\r\n", []⟩).bind
        (fun s => s.vault.GetMemory (ascii "k")) = none
    ∧ (handleCommand quietWorld 0 newReplica [ascii "set", ascii "k", ascii "v"]).bind
        (fun r => r.2.vault.GetMemory (ascii "k")) = some (GoValue.string (ascii "v"))
    ∧ (handleCommand quietWorld 0 newReplica [ascii "SET", ascii "k", ascii "v"]).bind
        (fun r => r.2.vault.GetMemory (ascii "k")) = some (GoValue.string (ascii "v")) := by
  decide

/-! ## INFO and REPLCONF -/

/-- Counterexample to C12 as stated: on a replica the INFO handler returns
`role:replica\nmain_replid:\nmain_repl_offset:0\n`, which does not begin with
`role:slave`. -/
theorem Info_replica_not_slave :
    (Info newReplica.vault).Typ = ascii "string"
    ∧ (Info newReplica.vault).Str = ascii "role:replica\nmain_replid:\nmain_repl_offset:0\n"
    ∧ ¬ (ascii "role:slave\n" <+: (Info newReplica.vault).Str)
    ∧ newReplica.vault.IsMaster = false := by
  decide

/-- C12 (amended): for every node state, the INFO handler returns the string result
`role:master\n` when the node is a MASTER, and `role:replica\n` followed by
`main_replid:<replicationID>\n` and `main_repl_offset:<replicationOffset>\n` when the
node is a REPLICA. -/
theorem Info_by_role (v : Vault) :
    Info { v with role := MASTER } = Command.mk (ascii "string") (ascii "role:master\n") [] [] [] []
    ∧ Info { v with role := REPLICA }
        = Command.mk (ascii "string")
            (ascii "role:replica\n" ++ (ascii "main_replid:" ++ v.MainReplicaID ++ ascii "\n")
              ++ (ascii "main_repl_offset:" ++ fmtInt v.MainReplicaOffset ++ ascii "\n"))
            [] [] [] [] := by
  constructor
  · rfl
  · have hne : REPLICA ≠ MASTER := by decide
    have h : ({ v with role := REPLICA } : Vault).IsMaster = false := by
      simp [Vault.IsMaster, hne]
    simp only [Info, Vault.GetInfo, h]
    simp [REPLICA, ascii]

theorem formatResponse_list (items : List GoString) :
    formatResponse (Command.mk (ascii "list") [] [] items [] [])
      = ascii "*" ++ fmtNat items.length ++ CRLF ++ Join items CRLF ++ CRLF := by
  have l1 : ascii "list" ≠ ascii "string" := by decide
  simp only [formatResponse, l1, if_false, if_true]

theorem isWriteCommand_REPLCONF : isWriteCommand (ascii "REPLCONF") = false := by decide

theorem ToUpper_REPLCONF (w : World) : ToUpper w (ascii "REPLCONF") = ascii "REPLCONF" := rfl

theorem dispatch_REPLCONF (w : World) (now : Int) (s : Server) (args : List Command) :
    dispatch w now s (ascii "REPLCONF") args
      = (ReplConf w s args true).map (fun r => (formatResponse r.1, r.2)) := by
  have hH : Handlers (ascii "REPLCONF")
      = some (fun w _ s args actions => ReplConf w s args actions) := rfl
  simp only [dispatch, hH]

/-- C13: for every address `a` and every letter-casing `opt` of the option name
LISTENING-PORT, the request REPLCONF `opt` `a` on the client session path calls
`ReplicasConnection` once, with `a` (the state afterwards is the state that one call
leaves), and is answered `+OK\r\n` on a MASTER and, on a REPLICA, with the list of the
three items REPLCONF, ACK and the replication offset in decimal,
`*3\r\nREPLCONF\r\nACK\r\n<offset>\r\n`. -/
theorem REPLCONF_listening_port (w : World) (now : Int) (s : Server) (opt a : GoString)
    (hopt : caseVariant opt (ascii "LISTENING-PORT") = true) :
    handleCommand w now s [ascii "REPLCONF", opt, a]
      = some ((if s.vault.IsMaster then ascii "+OK\r\n"
          else ascii "*3\r\nREPLCONF\r\nACK\r\n" ++ fmtInt s.vault.MainReplicaOffset ++ CRLF),
        s.ReplicasConnection w a) := by
  have hup : ToUpper w opt = ascii "LISTENING-PORT" := by
    rw [ToUpper_caseVariant w opt (ascii "LISTENING-PORT") hopt (by decide)]
    rfl
  have hvault := ReplicasConnection_vault s w a
  have hm : (s.ReplicasConnection w a).vault.IsMaster = s.vault.IsMaster := by
    rw [hvault]; rfl
  have hoff : (s.ReplicasConnection w a).vault.MainReplicaOffset = s.vault.MainReplicaOffset := by
    rw [hvault]
  have hb1 : (bulkArg opt).Bulk = opt := rfl
  have hb2 : (bulkArg a).Bulk = a := rfl
  simp only [handleCommand, ToUpper_REPLCONF, dispatch_REPLCONF, List.map_cons, List.map_nil,
    ReplConf, hb1, hb2, hup, if_true, hm, hoff]
  by_cases hmm : s.vault.IsMaster = true
  · simp only [hmm, if_true, Option.map_some',
      propagate_of_not_write _ _ _ isWriteCommand_REPLCONF, formatResponse_string]
    rfl
  · have hmf : s.vault.IsMaster = false := by simpa using hmm
    simp only [hmf, Bool.false_eq_true, if_false, Option.map_some',
      propagate_of_not_write _ _ _ isWriteCommand_REPLCONF, formatResponse_list]
    simp [Join, RELPCONF, ACK, ascii, CRLF, fmtNat, digitsAux]

/-- Witness of C13: on a fresh master, with a peer that can be dialled, REPLCONF
listening-port localhost:3313 is answered `+OK\r\n` and registers that one replica. -/
theorem REPLCONF_listening_port_witness :
    caseVariant (ascii "listening-port") (ascii "LISTENING-PORT") = true
    ∧ handleCommand openWorld 0 (newMaster [])
        [ascii "REPLCONF", ascii "listening-port", ascii "localhost:3313"]
      = some (ascii "+OK\r\n", (newMaster []).ReplicasConnection openWorld (ascii "localhost:3313"))
    ∧ ((newMaster []).ReplicasConnection openWorld (ascii "localhost:3313")).Replicas
      = [⟨ascii "localhost:3313", false, []⟩] :=
  ⟨by decide,
   REPLCONF_listening_port openWorld 0 (newMaster []) (ascii "listening-port")
     (ascii "localhost:3313") (by decide),
   by decide⟩


/-! ## Propagation to the replicas -/

theorem isWriteCommand_iff (c : GoString) :
    isWriteCommand c = true ↔ c = ascii "SET" ∨ c = ascii "DEL" := by
  simp only [isWriteCommand, List.any_cons, List.any_nil, Bool.or_false, Bool.or_eq_true,
    decide_eq_true_eq]
  constructor
  · rintro (h | h)
    · exact Or.inl h.symm
    · exact Or.inr h.symm
  · rintro (h | h)
    · exact Or.inl h.symm
    · exact Or.inr h.symm

theorem ReplicasConnection_Replicas (s : Server) (w : World) (address : GoString) :
    ∃ added, (s.ReplicasConnection w address).Replicas = s.Replicas ++ added := by
  unfold Server.ReplicasConnection
  cases dialAttempts w address with
  | none => exact ⟨[], by simp⟩
  | some conn => exact ⟨[conn], rfl⟩

theorem ReplConf_Replicas (w : World) (s s1 : Server) (args : List Command) (r : Command)
    (h : ReplConf w s args true = some (r, s1)) :
    ∃ added, s1.Replicas = s.Replicas ++ added := by
  unfold ReplConf at h
  split at h
  · rename_i a0 a1 tl
    by_cases hL : ToUpper w a0.Bulk = ascii "LISTENING-PORT"
    · rw [if_pos hL] at h
      simp only [↓reduceIte] at h
      by_cases hm : (s.ReplicasConnection w a1.Bulk).vault.IsMaster = true
      · rw [if_pos hm] at h
        simp only [Option.some.injEq, Prod.mk.injEq] at h
        obtain ⟨-, rfl⟩ := h
        exact ReplicasConnection_Replicas s w a1.Bulk
      · rw [if_neg hm] at h
        simp only [Option.some.injEq, Prod.mk.injEq] at h
        obtain ⟨-, rfl⟩ := h
        exact ReplicasConnection_Replicas s w a1.Bulk
    · rw [if_neg hL] at h
      by_cases hC : ToUpper w a0.Bulk = ascii "CAPA"
      · rw [if_pos hC] at h
        simp only [Option.some.injEq, Prod.mk.injEq] at h
        obtain ⟨-, rfl⟩ := h
        exact ⟨[], by simp⟩
      · rw [if_neg hC] at h
        simp only [Option.some.injEq, Prod.mk.injEq] at h
        obtain ⟨-, rfl⟩ := h
        exact ⟨[], by simp⟩
  · simp only [Option.some.injEq, Prod.mk.injEq] at h
    obtain ⟨-, rfl⟩ := h
    exact ⟨[], by simp⟩

theorem dispatch_Replicas (w : World) (now : Int) (s s1 : Server) (c reply : GoString)
    (args : List Command) (hd : dispatch w now s c args = some (reply, s1)) :
    ∃ added, s1.Replicas = s.Replicas ++ added ∧ (c ≠ ascii "REPLCONF" → added = []) := by
  unfold dispatch Handlers at hd
  split_ifs at hd with h1 h2 h3 h4 h5 h6 h7
  · simp only [Option.map_some', Option.some.injEq, Prod.mk.injEq] at hd
    obtain ⟨-, rfl⟩ := hd
    exact ⟨[], by simp, fun _ => rfl⟩
  · simp only [Option.map_some', Option.some.injEq, Prod.mk.injEq] at hd
    obtain ⟨-, rfl⟩ := hd
    exact ⟨[], by simp, fun _ => rfl⟩
  · simp only [Option.map_some', Option.some.injEq, Prod.mk.injEq] at hd
    obtain ⟨-, rfl⟩ := hd
    exact ⟨[], by simp, fun _ => rfl⟩
  · cases hG : Get s.vault args with
    | none => simp [hG] at hd
    | some r =>
      simp only [hG, Option.map_some', Option.some.injEq, Prod.mk.injEq] at hd
      obtain ⟨-, rfl⟩ := hd
      exact ⟨[], by simp, fun _ => rfl⟩
  · simp only [Option.map_some', Option.some.injEq, Prod.mk.injEq] at hd
    obtain ⟨-, rfl⟩ := hd
    exact ⟨[], by simp, fun _ => rfl⟩
  · cases hR : ReplConf w s args true with
    | none => simp [hR] at hd
    | some r =>
      obtain ⟨r1, s2⟩ := r
      simp only [hR, Option.map_some', Option.some.injEq, Prod.mk.injEq] at hd
      obtain ⟨-, rfl⟩ := hd
      obtain ⟨added, hadd⟩ := ReplConf_Replicas w s s2 args r1 hR
      exact ⟨added, hadd, fun hne => absurd h6 hne⟩
  · simp only [Option.map_some', Option.some.injEq, Prod.mk.injEq] at hd
    obtain ⟨-, rfl⟩ := hd
    exact ⟨[], by simp, fun _ => rfl⟩
  · simp only [Option.some.injEq, Prod.mk.injEq] at hd
    obtain ⟨-, rfl⟩ := hd
    exact ⟨[], by simp, fun _ => rfl⟩

theorem propagate_master (s : Server) (c : GoString) (args : List Command)
    (hm : s.vault.IsMaster = true) :
    propagate s c args = some (if isWriteCommand c then s.sendToReplicas c args else s) := by
  by_cases hw : isWriteCommand c = true
  · simp [propagate, hw, hm, Server.sendToReplicas]
  · have hw2 : isWriteCommand c = false := by simpa using hw
    simp [propagate, hw2]

/-- Counterexample to C14 as stated: on a master with one registered replica, SET with
one argument is rejected (`-ERR Unknown response type\r\n`) and DEL has no handler
(`-ERR Unknown command\r\n`), and both are written to the replica all the same. -/
theorem rejected_writes_are_propagated :
    (handleCommand quietWorld 0 masterWithReplica [ascii "SET", ascii "k"]).map
        (fun r => (r.1, r.2.Replicas.map Conn.sent))
      = some (ascii "-ERR Unknown response type\r\n", [[ascii "*2\r\n$3\r\nSET\r\n$1\r\nk\r\n"]])
    ∧ (handleCommand quietWorld 0 masterWithReplica [ascii "DEL", ascii "k"]).map
        (fun r => (r.1, r.2.Replicas.map Conn.sent))
      = some (ascii "-ERR Unknown command\r\n", [[ascii "*2\r\n$3\r\nDEL\r\n$1\r\nk\r\n"]])
    ∧ (handleCommand quietWorld 0 masterWithReplica
          [ascii "SET", ascii "k", ascii "v", ascii "px", ascii "x"]).map
        (fun r => (r.1, r.2.Replicas.map Conn.sent))
      = some (ascii "-ERR Unknown response type\r\n",
          [[ascii "*5\r\n$3\r\nSET\r\n$1\r\nk\r\n$1\r\nv\r\n$2\r\npx\r\n$1\r\nx\r\n"]])
    ∧ masterWithReplica.vault.IsMaster = true := by
  decide

/-- C14 (amended): on a MASTER, when `handleCommand` has handled a request, the registry
of replicas is as follows. If the upper-cased name is a write command, that is SET or
DEL, the frame `EncodeCommand(name, args)` has been written on every registered replica,
whether or not a handler exists and whether or not it accepted the arguments. If the
name is no write command, nothing has been written: the registered connections are as
they were (a REPLCONF may have appended a new one). -/
theorem propagation_by_name (w : World) (now : Int) (s s1 : Server) (name reply : GoString)
    (rest : List GoString) (hm : s.vault.IsMaster = true)
    (h : handleCommand w now s (name :: rest) = some (reply, s1)) :
    (isWriteCommand (ToUpper w name) = true
      ↔ ToUpper w name = ascii "SET" ∨ ToUpper w name = ascii "DEL")
    ∧ (if isWriteCommand (ToUpper w name) then
        s1.Replicas = s.Replicas.map
          (fun c => c.Write (EncodeCommand (ToUpper w name) (rest.map bulkArg)))
      else ∃ added, s1.Replicas = s.Replicas ++ added) := by
  refine ⟨isWriteCommand_iff _, ?_⟩
  simp only [handleCommand] at h
  cases hd : dispatch w now s (ToUpper w name) (rest.map bulkArg) with
  | none => simp [hd] at h
  | some r =>
    obtain ⟨reply1, s2⟩ := r
    obtain ⟨hrole, -, -⟩ := dispatch_effect w now s s2 _ reply1 _ hd
    obtain ⟨added, hadd, hnil⟩ := dispatch_Replicas w now s s2 _ reply1 _ hd
    have hm2 : s2.vault.IsMaster = true := by rw [IsMaster_of_role _ _ hrole]; exact hm
    simp only [hd, propagate_master s2 _ _ hm2, Option.map_some', Option.some.injEq,
      Prod.mk.injEq] at h
    obtain ⟨-, rfl⟩ := h
    by_cases hw : isWriteCommand (ToUpper w name) = true
    · have hne : ToUpper w name ≠ ascii "REPLCONF" := by
        intro he
        rw [he] at hw
        exact absurd hw (by decide)
      have hs2 : s2.Replicas = s.Replicas := by rw [hadd, hnil hne, List.append_nil]
      simp only [hw, if_true, Server.sendToReplicas, hs2]
    · have hw2 : isWriteCommand (ToUpper w name) = false := by simpa using hw
      simp only [hw2, Bool.false_eq_true, if_false]
      exact ⟨added, hadd⟩

/-- Witness of C14 (amended): on the master with one registered replica, SET k v is
written to the replica and GET k is not. -/
theorem propagation_by_name_witness :
    masterWithReplica.vault.IsMaster = true
    ∧ (∃ s1, handleCommand quietWorld 0 masterWithReplica [ascii "SET", ascii "k", ascii "v"]
          = some (ascii "+OK\r\n", s1)
        ∧ s1.Replicas = [⟨ascii "localhost:3313", false,
            [ascii "*3\r\n$3\r\nSET\r\n$1\r\nk\r\n$1\r\nv\r\n"]⟩])
    ∧ (∃ s1, handleCommand quietWorld 0 masterWithReplica [ascii "GET", ascii "k"]
          = some (ascii "$-1\r\n", s1)
        ∧ ∃ added, s1.Replicas = masterWithReplica.Replicas ++ added) :=
  ⟨by decide,
   ⟨_, rfl, (propagation_by_name quietWorld 0 masterWithReplica _ (ascii "SET") (ascii "+OK\r\n")
      [ascii "k", ascii "v"] (by decide) rfl).2⟩,
   ⟨_, rfl, (propagation_by_name quietWorld 0 masterWithReplica _ (ascii "GET") (ascii "$-1\r\n")
      [ascii "k"] (by decide) rfl).2⟩⟩

theorem sendToReplicasLoop_spec (encoded : GoString) (replicas : List Conn) :
    (sendToReplicasLoop encoded replicas).1 = replicas.map (fun c => c.Write encoded)
    ∧ (sendToReplicasLoop encoded replicas).2
        = replicas.map (fun c => (⟨c.addr, encoded, c.broken⟩ : WriteAttempt)) := by
  induction replicas with
  | nil => exact ⟨rfl, rfl⟩
  | cons c rest ih => simp only [sendToReplicasLoop, List.map_cons, ih.1, ih.2, and_self]

theorem Write_addr (c : Conn) (data : GoString) : (c.Write data).addr = c.addr := by
  unfold Conn.Write
  split_ifs <;> rfl

theorem Write_broken (c : Conn) (data : GoString) : (c.Write data).broken = c.broken := by
  unfold Conn.Write
  split_ifs <;> rfl

/-- C16: whatever writes fail, `sendToReplicas` calls `Write` with the same encoded frame
once for every registered replica, in registry order (the trace of the loop has one
record per replica, in order, with that frame), and the registry afterwards has the same
connections in the same order: same length, addresses and health, each successful
connection having received the frame once and each failing one nothing. -/
theorem sendToReplicas_attempts (s : Server) (cmd : GoString) (args : List Command) :
    (s.sendToReplicas cmd args).Replicas
        = (sendToReplicasLoop (EncodeCommand cmd args) s.Replicas).1
    ∧ (sendToReplicasLoop (EncodeCommand cmd args) s.Replicas).2
        = s.Replicas.map (fun c => (⟨c.addr, EncodeCommand cmd args, c.broken⟩ : WriteAttempt))
    ∧ (s.sendToReplicas cmd args).Replicas.length = s.Replicas.length
    ∧ (s.sendToReplicas cmd args).Replicas.map Conn.addr = s.Replicas.map Conn.addr
    ∧ (s.sendToReplicas cmd args).Replicas.map Conn.broken = s.Replicas.map Conn.broken
    ∧ (s.sendToReplicas cmd args).Replicas.map Conn.sent
        = s.Replicas.map
            (fun c => if c.broken then c.sent else c.sent ++ [EncodeCommand cmd args])
    ∧ (s.sendToReplicas cmd args).vault = s.vault := by
  obtain ⟨h1, h2⟩ := sendToReplicasLoop_spec (EncodeCommand cmd args) s.Replicas
  refine ⟨by rw [h1]; rfl, h2, by simp [Server.sendToReplicas], ?_, ?_, ?_, rfl⟩
  · simp only [Server.sendToReplicas, List.map_map]
    apply List.map_congr_left
    intro c _
    exact Write_addr c _
  · simp only [Server.sendToReplicas, List.map_map]
    apply List.map_congr_left
    intro c _
    exact Write_broken c _
  · simp only [Server.sendToReplicas, List.map_map]
    apply List.map_congr_left
    intro c _
    simp only [Function.comp, Conn.Write]
    split_ifs <;> rfl


/-! ## Decoding a frame that sits in a larger buffer -/

theorem ParseReq_padded (rest spare : GoString) (m : Nat) (hm : m ≤ spare.length)
    (h4 : 4 ≤ rest.length + 1 + m) :
    ParseReq ⟨42 :: rest, spare⟩ (rest.length + 1 + m) =
      if (splitCRLF (rest ++ spare.take m)).length < 3 then
        Result.error (ascii "invalid message format")
      else match Atoi ((splitCRLF (rest ++ spare.take m)).headD []) with
        | none => Result.error (ascii "invalid number of arguments")
        | some numArgs =>
          if numArgs < 1 ∨ numArgs > (kMaxArgs : Int) then
            Result.error (ascii "invalid number of arguments")
          else Result.ok (pairTokens ((splitCRLF (rest ++ spare.take m)).drop 1)) := by
  have h1 : ¬ (rest.length + 1 + m < 4) := by omega
  have h2 : ((42 :: rest ++ spare).take (rest.length + 1 + m)).drop 1 = rest ++ spare.take m := by
    have e : rest.length + 1 + m = (rest.length + m) + 1 := by omega
    rw [e, List.cons_append, List.take_succ_cons, List.drop_succ_cons, List.drop_zero,
      List.take_append]
  have h3 : ¬ ((42 :: rest).length + spare.length < rest.length + 1 + m) := by
    simp only [List.length_cons]
    omega
  simp only [ParseReq, h1, if_false, ne_eq, not_true_eq_false, h3, h2]

theorem noCRLF_zeros (m : Nat) : hasCRLF (List.replicate m (0 : UInt8)) = false := by
  induction m with
  | zero => rfl
  | succ m ih =>
    rw [List.replicate_succ]
    exact noCRLF_cons_of_ne 0 _ (by decide) ih

theorem splitCRLF_frames_append (toks : List GoString) (x : GoString)
    (h : ∀ t ∈ toks, hasCRLF t = false) (hx : hasCRLF x = false) :
    splitCRLF ((toks.map bulkFrame).flatten ++ x)
      = (toks.map (fun t => [36 :: fmtNat t.length, t])).flatten ++ [x] := by
  induction toks with
  | nil => simpa using splitCRLF_of_noCRLF x hx
  | cons t ts ih =>
    have ht : hasCRLF t = false := h t (by simp)
    have hts := ih (fun s hs => h s (List.mem_cons_of_mem _ hs))
    simp only [List.map_cons, List.flatten_cons, bulkFrame_eq, List.append_assoc,
      List.cons_append, List.nil_append]
    have h1 := splitCRLF_append_sep (36 :: fmtNat t.length)
      (t ++ 13 :: 10 :: ((ts.map bulkFrame).flatten ++ x)) (noCRLF_lenField t.length)
    have h2 := splitCRLF_append_sep t ((ts.map bulkFrame).flatten ++ x) ht
    simp only [List.cons_append] at h1
    rw [h1, h2, hts]

theorem ParseReq_EncodeCommand_padded (cmd : GoString) (args : List Command)
    (spare : GoString) (m : Nat) (hm : m ≤ spare.length)
    (hz : hasCRLF (spare.take m) = false)
    (hn : args.length + 1 ≤ 128) (hc : hasCRLF cmd = false)
    (ha : ∀ a ∈ args, hasCRLF a.Bulk = false) :
    ParseReq ⟨EncodeCommand cmd args, spare⟩ ((EncodeCommand cmd args).length + m)
      = Result.ok (cmd :: args.map Command.Bulk) := by
  have hfree : ∀ t ∈ cmd :: args.map Command.Bulk, hasCRLF t = false := by
    intro t ht
    rcases List.mem_cons.1 ht with rfl | ht
    · exact hc
    · obtain ⟨a, ha1, rfl⟩ := List.mem_map.1 ht
      exact ha a ha1
  have hsplit := splitCRLF_append_sep (fmtNat (args.length + 1))
    (((cmd :: args.map Command.Bulk).map bulkFrame).flatten ++ spare.take m) (noCRLF_fmtNat _)
  rw [splitCRLF_frames_append _ _ hfree hz] at hsplit
  have hne := (fmtNat_spec (args.length + 1)).1
  have hlen : 4 ≤ (fmtNat (args.length + 1) ++ 13 :: 10 ::
      ((cmd :: args.map Command.Bulk).map bulkFrame).flatten).length + 1 + m := by
    have : 0 < (fmtNat (args.length + 1)).length := List.length_pos.2 hne
    simp only [List.length_append, List.length_cons]
    omega
  have happ : (fmtNat (args.length + 1) ++ 13 :: 10 ::
        ((cmd :: args.map Command.Bulk).map bulkFrame).flatten) ++ spare.take m
      = fmtNat (args.length + 1) ++ 13 :: 10 ::
        (((cmd :: args.map Command.Bulk).map bulkFrame).flatten ++ spare.take m) := by
    simp
  rw [EncodeCommand_eq, List.length_cons, ParseReq_padded _ spare m hm hlen, happ, hsplit]
  have hatoi := Atoi_fmtNat (args.length + 1) (by omega)
  simp only [List.headD_cons, hatoi, List.drop_succ_cons, List.drop_zero, pairTokens_frames]
  have h3 : ¬ ((fmtNat (args.length + 1) ::
      (((cmd :: args.map Command.Bulk).map
        (fun t : GoString => [36 :: fmtNat t.length, t])).flatten ++ [spare.take m])).length
          < 3) := by
    simp
  have hr : ¬ (((args.length + 1 : Nat) : Int) < 1
      ∨ ((args.length + 1 : Nat) : Int) > (kMaxArgs : Int)) := by
    simp only [kMaxArgs]
    omega
  rw [if_neg h3]
  simp only [hr, if_false]

theorem sessionDecode_EncodeCommand (cmd : GoString) (args : List Command)
    (hlen : (EncodeCommand cmd args).length ≤ kMaxMsg)
    (hn : args.length + 1 ≤ 128) (hc : hasCRLF cmd = false)
    (ha : ∀ a ∈ args, hasCRLF a.Bulk = false) :
    sessionDecode (EncodeCommand cmd args) = Result.ok (cmd :: args.map Command.Bulk) := by
  have h := ParseReq_EncodeCommand_padded cmd args
    (List.replicate (kMaxMsg - (EncodeCommand cmd args).length) 0)
    (kMaxMsg - (EncodeCommand cmd args).length) (by simp)
    (by rw [List.take_of_length_le (by simp)]; exact noCRLF_zeros _) hn hc ha
  have e1 : (EncodeCommand cmd args).length + (kMaxMsg - (EncodeCommand cmd args).length)
      = kMaxMsg := by omega
  have e2 : kMaxMsg % 4294967296 = kMaxMsg := by decide
  rw [e1] at h
  simp only [sessionDecode, readBuffer, e2]
  exact h

theorem masterDecode_EncodeCommand (cmd : GoString) (args : List Command) (spare : GoString)
    (hlen : (EncodeCommand cmd args).length < 4294967296)
    (hn : args.length + 1 ≤ 128) (hc : hasCRLF cmd = false)
    (ha : ∀ a ∈ args, hasCRLF a.Bulk = false) :
    masterDecode ⟨EncodeCommand cmd args, spare⟩ = Result.ok (cmd :: args.map Command.Bulk) := by
  simp only [masterDecode, Nat.mod_eq_of_lt hlen]
  exact ParseReq_EncodeCommand cmd args spare hn hc ha

theorem EncodeCommand_canonical (t0 : GoString) (ts : List GoString) :
    EncodeCommand t0 (ts.map bulkArg) = canonicalFrame (t0 :: ts) := by
  have h : (ts.map bulkArg).map (fun c => bulkFrame c.Bulk)
      = ts.map (fun t => ascii "$" ++ fmtNat t.length ++ CRLF ++ t ++ CRLF) := by
    rw [List.map_map]
    rfl
  rw [EncodeCommand, h]
  simp only [canonicalFrame, List.length_map, List.length_cons, List.map_cons,
    List.flatten_cons, bulkFrame, List.append_assoc]

theorem ToUpper_PING (w : World) : ToUpper w (ascii "PING") = ascii "PING" := rfl

theorem isWriteCommand_PING : isWriteCommand (ascii "PING") = false := by decide

theorem handleCommand_PING (w : World) (now : Int) (s : Server) :
    handleCommand w now s [ascii "PING"] = some (ascii "+PONG\r\n", s) := by
  have hd : dispatch w now s (ascii "PING") []
      = some (formatResponse (Ping []), s) := rfl
  simp only [handleCommand, ToUpper_PING, List.map_nil, hd,
    propagate_of_not_write s _ _ isWriteCommand_PING, Option.map_some']
  rfl

/-- C17 (failing input): in every server state the reply that `handleConnection` writes
to the request frame `*1\r\n$4\r\nPING\r\n` is `+PONG\r\n`, seven bytes: `formatResponse`
appends CRLF to the string result `+PONG`. It is not the five bytes `+PONG` that
`TestPingIntegration` compares the whole reply with. -/
theorem PING_reply_has_CRLF (w : World) (now : Int) (s : Server) :
    handleConnectionStep w now s (ascii "*1\r\n$4\r\nPING\r\n")
        = SessionOutcome.replied (ascii "+PONG\r\n") s
    ∧ ascii "+PONG\r\n" ≠ ascii "+PONG"
    ∧ (ascii "+PONG\r\n").length = 7 := by
  have hf : ascii "*1\r\n$4\r\nPING\r\n" = EncodeCommand (ascii "PING") [] := by decide
  have hdec : sessionDecode (ascii "*1\r\n$4\r\nPING\r\n") = Result.ok [ascii "PING"] := by
    rw [hf]
    exact sessionDecode_EncodeCommand (ascii "PING") [] (by decide) (by decide) (by decide)
      (fun a ha => by simp at ha)
  refine ⟨?_, by decide, by decide⟩
  simp only [handleConnectionStep, hdec, handleCommand_PING]

theorem handleCommand_SET_master (w : World) (now : Int) (s : Server) (rest : List GoString)
    (hm : s.vault.IsMaster = true) :
    handleCommand w now s (ascii "SET" :: rest)
      = some (formatResponse (Set now s.vault (rest.map bulkArg)).1,
          ({ s with vault := (Set now s.vault (rest.map bulkArg)).2 } : Server).sendToReplicas
            (ascii "SET") (rest.map bulkArg)) := by
  have hm2 : ({ s with vault := (Set now s.vault (rest.map bulkArg)).2 } : Server).vault.IsMaster
      = true := by
    rw [← hm]
    exact IsMaster_of_role _ _ (Set_role _ _ _)
  simp only [handleCommand, ToUpper_SET, dispatch_SET, propagate_master _ _ _ hm2,
    isWriteCommand_SET, if_true, Option.map_some']

theorem noCRLF_replicate (b : UInt8) (hb : b ≠ 13) (m : Nat) :
    hasCRLF (List.replicate m b) = false := by
  induction m with
  | zero => rfl
  | succ m ih =>
    rw [List.replicate_succ]
    exact noCRLF_cons_of_ne b _ hb ih

theorem sessionDecode_bad_start (b : UInt8) (rest : GoString) (hb : b ≠ 42) :
    sessionDecode (b :: rest) = Result.error (ascii "invalid protocol") := by
  have e2 : kMaxMsg % 4294967296 = 4096 := by decide
  have h4 : ¬ (4096 < 4) := by decide
  simp only [sessionDecode, readBuffer, ParseReq, e2, h4, if_false, ne_eq, hb, not_false_eq_true,
    if_true]

theorem sessionDecode_take (input : GoString) (h : kMaxMsg ≤ input.length) :
    sessionDecode input = sessionDecode (input.take kMaxMsg) := by
  have e2 : kMaxMsg % 4294967296 = kMaxMsg := by decide
  have hk : kMaxMsg = 4095 + 1 := by decide
  have hl : (input.take kMaxMsg).length = kMaxMsg := by
    rw [List.length_take]
    omega
  have z1 : kMaxMsg - input.length = 0 := by omega
  cases input with
  | nil =>
    rw [hk] at h
    simp at h
  | cons b0 tl =>
    have ht : (b0 :: tl).take kMaxMsg = b0 :: tl.take 4095 := by
      rw [hk, List.take_succ_cons]
    have ht2 : ((b0 :: tl).take kMaxMsg).take kMaxMsg = (b0 :: tl).take kMaxMsg := by
      rw [List.take_take, Nat.min_self]
    have c1 : ¬ ((b0 :: tl).length + 0 < kMaxMsg) := by omega
    have c2 : ¬ (((b0 :: tl).take kMaxMsg).length + 0 < kMaxMsg) := by omega
    simp only [sessionDecode, readBuffer, e2, z1, hl, Nat.sub_self, List.replicate_zero]
    rw [ParseReq, ParseReq]
    simp only [List.append_nil, List.length_nil, c1, c2, if_false, ht2]
    rw [ht]

theorem handleConnectionStep_take (w : World) (now : Int) (s : Server) (input : GoString)
    (h : kMaxMsg ≤ input.length) :
    handleConnectionStep w now s input = handleConnectionStep w now s (input.take kMaxMsg) := by
  simp only [handleConnectionStep, sessionDecode_take input h]

theorem take_replicate_block (p tail : GoString) (b : UInt8) (n m : Nat) (h : m ≤ n) :
    (p ++ (List.replicate n b ++ tail)).take (p.length + m) = p ++ List.replicate m b := by
  rw [List.take_append, List.take_append_of_le_length (by simp [h]), List.take_replicate,
    Nat.min_eq_left h]

theorem drop_replicate_block (p tail : GoString) (b : UInt8) (n m : Nat) (h : m ≤ n) :
    (p ++ (List.replicate n b ++ tail)).drop (p.length + m)
      = List.replicate (n - m) b ++ tail := by
  rw [List.drop_append, List.drop_append_of_le_length (by simp [h]), List.drop_replicate]

theorem canonicalFrame_SET_k (x : GoString) :
    canonicalFrame [ascii "SET", ascii "k", x]
      = ascii "*3\r\n$3\r\nSET\r\n$1\r\nk\r\n$" ++ (fmtNat x.length ++ CRLF ++ (x ++ CRLF)) := by
  have e : ascii "*3\r\n$3\r\nSET\r\n$1\r\nk\r\n$"
      = ascii "*" ++ (fmtNat 3 ++ (CRLF ++ (ascii "$" ++ (fmtNat (ascii "SET").length ++ (CRLF
          ++ (ascii "SET" ++ (CRLF ++ (ascii "$" ++ (fmtNat (ascii "k").length ++ (CRLF
          ++ (ascii "k" ++ (CRLF ++ ascii "$")))))))))))) := by
    decide
  simp only [canonicalFrame, e, List.length_cons, List.length_nil, List.map_cons, List.map_nil,
    List.flatten_cons, List.flatten_nil, List.append_assoc, List.append_nil]

theorem canonicalFrame_SET_k_length (x : GoString) :
    (canonicalFrame [ascii "SET", ascii "k", x]).length = (fmtNat x.length).length + x.length + 25 := by
  have e : (ascii "*3\r\n$3\r\nSET\r\n$1\r\nk\r\n$").length = 21 := by decide
  rw [canonicalFrame_SET_k]
  simp only [List.length_append, e, CRLF, List.length_cons, List.length_nil]
  omega

theorem sessionDecode_cut_SET (d x : GoString) (hd : hasCRLF d = false)
    (hx : hasCRLF x = false) (hlen : d.length + x.length + 23 = kMaxMsg) :
    sessionDecode (ascii "*3\r\n$3\r\nSET\r\n$1\r\nk\r\n$" ++ (d ++ CRLF) ++ x)
      = Result.ok [ascii "SET", ascii "k", x] := by
  have e : ascii "*3\r\n$3\r\nSET\r\n$1\r\nk\r\n$"
      = 42 :: (ascii "3" ++ CRLF ++ (ascii "$3" ++ CRLF ++ (ascii "SET" ++ CRLF
          ++ (ascii "$1" ++ CRLF ++ (ascii "k" ++ CRLF ++ [36]))))) := by
    decide
  have hin : ascii "*3\r\n$3\r\nSET\r\n$1\r\nk\r\n$" ++ (d ++ CRLF) ++ x
      = 42 :: Join [ascii "3", ascii "$3", ascii "SET", ascii "$1", ascii "k", 36 :: d, x] CRLF := by
    simp only [e, Join, List.cons_append, List.append_assoc, List.nil_append,
      List.singleton_append]
  have hfree : ∀ t ∈ [ascii "3", ascii "$3", ascii "SET", ascii "$1", ascii "k", 36 :: d, x],
      hasCRLF t = false := by
    intro t ht
    simp only [List.mem_cons, List.mem_singleton, List.not_mem_nil, or_false] at ht
    rcases ht with rfl | rfl | rfl | rfl | rfl | rfl | rfl
    · decide
    · decide
    · decide
    · decide
    · decide
    · exact noCRLF_cons_of_ne 36 _ (by decide) hd
    · exact hx
  have hsplit := splitCRLF_Join _ (by simp) hfree
  have hl : (Join [ascii "3", ascii "$3", ascii "SET", ascii "$1", ascii "k", 36 :: d, x]
      CRLF).length + 1 = kMaxMsg := by
    have a1 : (ascii "3").length = 1 := rfl
    have a2 : (ascii "$3").length = 2 := rfl
    have a3 : (ascii "SET").length = 3 := rfl
    have a4 : (ascii "$1").length = 2 := rfl
    have a5 : (ascii "k").length = 1 := rfl
    simp only [Join, List.length_append, CRLF, List.length_cons, List.length_nil, a1, a2, a3,
      a4, a5]
    omega
  have e2 : kMaxMsg % 4294967296 = kMaxMsg := by decide
  have h4 : 4 ≤ (Join [ascii "3", ascii "$3", ascii "SET", ascii "$1", ascii "k", 36 :: d, x]
      CRLF).length + 1 := by
    rw [hl]
    decide
  rw [hin]
  simp only [sessionDecode, readBuffer, e2]
  rw [← hl, ParseReq_whole _ _ h4, hsplit]
  have hatoi : Atoi (ascii "3") = some 3 := by decide
  have hr : ¬ ((3 : Int) < 1 ∨ (3 : Int) > (kMaxArgs : Int)) := by decide
  simp only [List.length_cons, List.length_nil, List.headD_cons, hatoi, List.drop_succ_cons,
    List.drop_zero, pairTokens]
  simp only [hr, if_false]
  rfl

theorem handleConnectionStep_cut_SET (w : World) (now : Int) (s : Server) (d x : GoString)
    (hm : s.vault.IsMaster = true) (hd : hasCRLF d = false) (hx : hasCRLF x = false)
    (hlen : d.length + x.length + 23 = kMaxMsg) :
    handleConnectionStep w now s (ascii "*3\r\n$3\r\nSET\r\n$1\r\nk\r\n$" ++ (d ++ CRLF) ++ x)
      = SessionOutcome.replied (ascii "+OK\r\n")
          (({ s with vault := s.vault.SetMemory (ascii "k") x none } : Server).sendToReplicas
            (ascii "SET") [bulkArg (ascii "k"), bulkArg x]) := by
  have hset : Set now s.vault [bulkArg (ascii "k"), bulkArg x]
      = (Command.mk (ascii "string") (ascii "+OK") [] [] [] [],
          s.vault.SetMemory (ascii "k") x none) := rfl
  have hfmt : formatResponse (Command.mk (ascii "string") (ascii "+OK") [] [] [] [])
      = ascii "+OK\r\n" := by decide
  have hc := handleCommand_SET_master w now s [ascii "k", x] hm
  simp only [List.map_cons, List.map_nil, hset, hfmt] at hc
  simp only [handleConnectionStep, sessionDecode_cut_SET d x hd hx hlen, hc]

/-- C15 (counterexample): the canonical frame of SET k v with v of 4100 bytes a has 4129
bytes, three tokens and no CRLF in a token. The largest read of `handleConnection`
returns its first `kMaxMsg` bytes; the MASTER answers `+OK`, stores a value of 4069
bytes and writes to its replica the canonical frame of that shorter SET, 4098 bytes,
not the frame it was sent; the rest of the frame, read next, closes the session with
`invalid protocol` and writes nothing more. The same holds in the model when the whole
frame is given as one read. -/
theorem long_canonical_SET_is_cut :
    masterWithReplica.vault.IsMaster = true
    ∧ (∀ t ∈ [ascii "k", List.replicate 4100 97], hasCRLF t = false)
    ∧ (canonicalFrame [ascii "SET", ascii "k", List.replicate 4100 97]).length = 4129
    ∧ (canonicalFrame [ascii "SET", ascii "k", List.replicate 4069 97]).length = 4098
    ∧ canonicalFrame [ascii "SET", ascii "k", List.replicate 4069 97]
        ≠ canonicalFrame [ascii "SET", ascii "k", List.replicate 4100 97]
    ∧ ∃ s1 : Server,
        handleConnectionStep quietWorld 0 masterWithReplica
            ((canonicalFrame [ascii "SET", ascii "k", List.replicate 4100 97]).take kMaxMsg)
          = SessionOutcome.replied (ascii "+OK\r\n") s1
        ∧ handleConnectionStep quietWorld 0 masterWithReplica
            (canonicalFrame [ascii "SET", ascii "k", List.replicate 4100 97])
          = SessionOutcome.replied (ascii "+OK\r\n") s1
        ∧ s1.Replicas = masterWithReplica.Replicas.map
            (fun c => c.Write (canonicalFrame [ascii "SET", ascii "k", List.replicate 4069 97]))
        ∧ s1.Replicas.map Conn.sent
            = [[canonicalFrame [ascii "SET", ascii "k", List.replicate 4069 97]]]
        ∧ s1.vault.GetMemory (ascii "k") = some (GoValue.string (List.replicate 4069 97))
        ∧ handleConnectionStep quietWorld 0 s1
            ((canonicalFrame [ascii "SET", ascii "k", List.replicate 4100 97]).drop kMaxMsg)
          = SessionOutcome.closed (ascii "invalid protocol") s1 := by
  have hd : fmtNat 4100 = ascii "4100" := by decide
  have hd2 : fmtNat 4069 = ascii "4069" := by decide
  have ha : hasCRLF (List.replicate 4100 (97 : UInt8)) = false :=
    noCRLF_replicate 97 (by decide) 4100
  have ha2 : hasCRLF (List.replicate 4069 (97 : UInt8)) = false :=
    noCRLF_replicate 97 (by decide) 4069
  have hl1 : (canonicalFrame [ascii "SET", ascii "k", List.replicate 4100 97]).length = 4129 := by
    rw [canonicalFrame_SET_k_length, List.length_replicate, hd]
    rfl
  have hl2 : (canonicalFrame [ascii "SET", ascii "k", List.replicate 4069 97]).length = 4098 := by
    rw [canonicalFrame_SET_k_length, List.length_replicate, hd2]
    rfl
  have hne : canonicalFrame [ascii "SET", ascii "k", List.replicate 4069 97]
      ≠ canonicalFrame [ascii "SET", ascii "k", List.replicate 4100 97] := by
    intro h
    have := congrArg List.length h
    rw [hl1, hl2] at this
    exact absurd this (by decide)
  have hf : canonicalFrame [ascii "SET", ascii "k", List.replicate 4100 97]
      = (ascii "*3\r\n$3\r\nSET\r\n$1\r\nk\r\n$" ++ (ascii "4100" ++ CRLF))
          ++ (List.replicate 4100 97 ++ CRLF) := by
    rw [canonicalFrame_SET_k, List.length_replicate, hd]
    simp only [List.append_assoc]
  have hp : (ascii "*3\r\n$3\r\nSET\r\n$1\r\nk\r\n$" ++ (ascii "4100" ++ CRLF)).length = 27 := by
    decide
  have hk : kMaxMsg
      = (ascii "*3\r\n$3\r\nSET\r\n$1\r\nk\r\n$" ++ (ascii "4100" ++ CRLF)).length + 4069 := by
    rw [hp]
    rfl
  have htake : (canonicalFrame [ascii "SET", ascii "k", List.replicate 4100 97]).take kMaxMsg
      = ascii "*3\r\n$3\r\nSET\r\n$1\r\nk\r\n$" ++ (ascii "4100" ++ CRLF)
          ++ List.replicate 4069 97 := by
    rw [hf, hk]
    exact take_replicate_block _ _ 97 4100 4069 (by decide)
  have hdrop : (canonicalFrame [ascii "SET", ascii "k", List.replicate 4100 97]).drop kMaxMsg
      = 97 :: (List.replicate 30 97 ++ CRLF) := by
    rw [hf, hk, drop_replicate_block _ _ 97 4100 4069 (by decide)]
    rfl
  have hstep := handleConnectionStep_cut_SET quietWorld 0 masterWithReplica (ascii "4100")
    (List.replicate 4069 97) (by decide) (by decide) ha2
    (by rw [List.length_replicate]; rfl)
  have henc : EncodeCommand (ascii "SET") [bulkArg (ascii "k"), bulkArg (List.replicate 4069 97)]
      = canonicalFrame [ascii "SET", ascii "k", List.replicate 4069 97] :=
    EncodeCommand_canonical (ascii "SET") [ascii "k", List.replicate 4069 97]
  refine ⟨by decide, ?_, hl1, hl2, hne,
    ({ masterWithReplica with
        vault := masterWithReplica.vault.SetMemory (ascii "k") (List.replicate 4069 97) none }
      : Server).sendToReplicas (ascii "SET")
        [bulkArg (ascii "k"), bulkArg (List.replicate 4069 97)], ?_, ?_, ?_, ?_, ?_, ?_⟩
  · intro t ht
    simp only [List.mem_cons, List.mem_singleton, List.not_mem_nil, or_false] at ht
    rcases ht with rfl | rfl
    · decide
    · exact ha
  · rw [htake]
    exact hstep
  · rw [handleConnectionStep_take _ _ _ _ (by rw [hl1]; decide), htake]
    exact hstep
  · simp only [Server.sendToReplicas, henc]
  · simp only [Server.sendToReplicas, henc]
    rfl
  · rfl
  · rw [hdrop]
    simp only [handleConnectionStep, sessionDecode_bad_start 97 _ (by decide)]

/-- C15 (amended): let `f` be the canonical frame of the name SET and of argument tokens
`toks` free of CRLF, at most 128 tokens in all. Then `ParseReq(f, len(f))` returns SET
and `toks`, `EncodeCommand` of them is `f` again, and when a MASTER runs `handleCommand`
on the decoded tokens the registry afterwards is the old one with `f` written on every
replica. When `f` fits in one read (`kMaxMsg` bytes), the same holds of the session
handler given the read `f`. -/
theorem canonical_SET_propagated (w : World) (now : Int) (s : Server) (toks : List GoString)
    (hm : s.vault.IsMaster = true) (hn : toks.length + 1 ≤ 128)
    (hfree : ∀ t ∈ toks, hasCRLF t = false) :
    (∀ spare : GoString,
        ParseReq ⟨canonicalFrame (ascii "SET" :: toks), spare⟩
          (canonicalFrame (ascii "SET" :: toks)).length = Result.ok (ascii "SET" :: toks))
    ∧ EncodeCommand (ascii "SET") (toks.map bulkArg) = canonicalFrame (ascii "SET" :: toks)
    ∧ (∃ reply s1,
        handleCommand w now s (ascii "SET" :: toks) = some (reply, s1)
        ∧ s1.Replicas
          = s.Replicas.map (fun c => c.Write (canonicalFrame (ascii "SET" :: toks))))
    ∧ ((canonicalFrame (ascii "SET" :: toks)).length ≤ kMaxMsg →
        ∃ reply s1,
          handleConnectionStep w now s (canonicalFrame (ascii "SET" :: toks))
            = SessionOutcome.replied reply s1
          ∧ s1.Replicas
            = s.Replicas.map (fun c => c.Write (canonicalFrame (ascii "SET" :: toks)))) := by
  have hcanon := EncodeCommand_canonical (ascii "SET") toks
  have hargs : ∀ a ∈ toks.map bulkArg, hasCRLF a.Bulk = false := by
    intro a ha
    obtain ⟨t, ht, rfl⟩ := List.mem_map.1 ha
    exact hfree t ht
  have hn2 : (toks.map bulkArg).length + 1 ≤ 128 := by simpa using hn
  have hset : hasCRLF (ascii "SET") = false := by decide
  have hcmd := handleCommand_SET_master w now s toks hm
  refine ⟨fun spare => ?_, hcanon, ⟨_, _, hcmd, by simp only [Server.sendToReplicas, hcanon]⟩,
    fun hlen => ?_⟩
  · rw [← hcanon, ParseReq_EncodeCommand _ _ spare hn2 hset hargs, map_Bulk_bulkArg]
  · have hdec : sessionDecode (canonicalFrame (ascii "SET" :: toks))
        = Result.ok (ascii "SET" :: toks) := by
      rw [← hcanon, sessionDecode_EncodeCommand _ _ (by rw [hcanon]; exact hlen) hn2 hset hargs,
        map_Bulk_bulkArg]
    have hstep : handleConnectionStep w now s (canonicalFrame (ascii "SET" :: toks))
        = SessionOutcome.replied (formatResponse (Set now s.vault (toks.map bulkArg)).1)
            (({ s with vault := (Set now s.vault (toks.map bulkArg)).2 } : Server).sendToReplicas
              (ascii "SET") (toks.map bulkArg)) := by
      simp only [handleConnectionStep, hdec, hcmd]
    exact ⟨_, _, hstep, by simp only [Server.sendToReplicas, hcanon]⟩

/-- Witness of C15: the frame of SET foo bar on the master with one registered replica. -/
theorem canonical_SET_propagated_witness :
    masterWithReplica.vault.IsMaster = true
    ∧ canonicalFrame [ascii "SET", ascii "foo", ascii "bar"]
        = ascii "*3\r\n$3\r\nSET\r\n$3\r\nfoo\r\n$3\r\nbar\r\n"
    ∧ ∃ reply s1,
        handleConnectionStep quietWorld 0 masterWithReplica
            (canonicalFrame (ascii "SET" :: [ascii "foo", ascii "bar"]))
          = SessionOutcome.replied reply s1
        ∧ s1.Replicas = masterWithReplica.Replicas.map
            (fun c => c.Write (canonicalFrame (ascii "SET" :: [ascii "foo", ascii "bar"]))) :=
  ⟨by decide, by decide,
   (canonical_SET_propagated quietWorld 0 masterWithReplica [ascii "foo", ascii "bar"]
      (by decide) (by decide) (by decide)).2.2.2 (by decide)⟩

/-! ## The replica ingestion loop -/

theorem ParseReq_spare (data spare : GoString) :
    ParseReq ⟨data, spare⟩ data.length = ParseReq ⟨data, []⟩ data.length := by
  by_cases h4 : data.length < 4
  · rw [ParseReq_short _ _ h4, ParseReq_short _ _ h4]
  · cases data with
    | nil => simp at h4
    | cons b0 rest =>
      by_cases hb : b0 = 42
      · subst hb
        have hlen : 4 ≤ rest.length + 1 := by simpa using h4
        rw [List.length_cons, ParseReq_whole rest spare hlen, ParseReq_whole rest [] hlen]
      · simp only [ParseReq, ne_eq, hb, not_false_eq_true, if_true]

theorem handleMasterConnection_spare (w : World) (now : Int) (s : Server)
    (data spare : GoString) (h : data.length < 4294967296) :
    handleMasterConnection w now s ⟨data, spare⟩ = handleMasterConnection w now s ⟨data, []⟩ := by
  simp only [handleMasterConnection, masterDecode, Nat.mod_eq_of_lt h, ParseReq_spare data spare]

theorem acceptMasterLoop_buffer (w : World) (reads : List (Int × GoString)) :
    ∀ (s : Server) (buffer : GoString), (∀ r ∈ reads, r.2.length < 4294967296) →
      acceptMasterLoop w s buffer reads = acceptMasterLoop w s [] reads := by
  induction reads with
  | nil => intro s buffer _; rfl
  | cons r rest ih =>
    intro s buffer h
    obtain ⟨now, input⟩ := r
    have hr : input.length < 4294967296 := h (now, input) (by simp)
    have hrest : ∀ r ∈ rest, r.2.length < 4294967296 :=
      fun r hr => h r (List.mem_cons_of_mem _ hr)
    simp only [acceptMasterLoop, handleMasterConnection_spare w now s input _ hr]
    cases handleMasterConnection w now s ⟨input, []⟩ with
    | none => rfl
    | some s1 => exact (ih s1 _ hrest).trans (ih s1 _ hrest).symm

/-- Counterexample to C19 as stated: on a replica the read `abc` fails to decode
(`invalid length`), and the SET k v in the next read is applied to the store all the
same: the loop of `acceptMasterLoop` goes on after `handleMasterConnection` returns. -/
theorem ingestion_continues_after_bad_read :
    masterDecode ⟨ascii "abc", (List.replicate kMaxMsg 0).drop 3⟩
        = Result.error (ascii "invalid length")
    ∧ (acceptMasterLoop quietWorld newReplica (List.replicate kMaxMsg 0)
          [(0, ascii "abc"), (1, ascii "*3\r\n$3\r\nSET\r\n$1\r\nk\r\n$1\r\nv\r\n")]).bind
        (fun s => s.vault.GetMemory (ascii "k")) = some (GoValue.string (ascii "v"))
    ∧ newReplica.vault.GetMemory (ascii "k") = none := by
  refine ⟨by decide, ?_, by decide⟩
  rw [acceptMasterLoop_buffer quietWorld _ newReplica _ (by decide)]
  decide

/-- C19 (amended): with the replica ingestion loop modelled as a fold over the sequence
of reads from the master connection, a read that fails to decode changes nothing and
does not end the loop: the loop goes on with the later reads from the same state, so
the commands they contain are applied to the store of the replica. -/
theorem acceptMasterLoop_skips_bad_read (w : World) (s : Server) (buffer : GoString)
    (now : Int) (input msg : GoString) (rest : List (Int × GoString))
    (h : masterDecode ⟨input, buffer.drop input.length⟩ = Result.error msg) :
    handleMasterConnection w now s ⟨input, buffer.drop input.length⟩ = some s
    ∧ acceptMasterLoop w s buffer ((now, input) :: rest)
        = acceptMasterLoop w s (input ++ buffer.drop input.length) rest := by
  have h1 : handleMasterConnection w now s ⟨input, buffer.drop input.length⟩ = some s := by
    simp only [handleMasterConnection, h]
  exact ⟨h1, by simp only [acceptMasterLoop, h1]⟩

/-- Witness of C19 (amended): the read `abc` on a replica. -/
theorem acceptMasterLoop_skips_bad_read_witness :
    masterDecode ⟨ascii "abc", ([] : GoString).drop (ascii "abc").length⟩
        = Result.error (ascii "invalid length")
    ∧ acceptMasterLoop quietWorld newReplica []
          ((0, ascii "abc") :: [(1, ascii "*3\r\n$3\r\nSET\r\n$1\r\nk\r\n$1\r\nv\r\n")])
        = acceptMasterLoop quietWorld newReplica (ascii "abc" ++ ([] : GoString).drop (ascii "abc").length)
          [(1, ascii "*3\r\n$3\r\nSET\r\n$1\r\nk\r\n$1\r\nv\r\n")] :=
  ⟨by decide,
   (acceptMasterLoop_skips_bad_read quietWorld newReplica [] 0 (ascii "abc")
      (ascii "invalid length") [(1, ascii "*3\r\n$3\r\nSET\r\n$1\r\nk\r\n$1\r\nv\r\n")]
      (by decide)).2⟩

/-! ## A propagated SET on the replica -/

theorem Atoi_digits (x : GoString) (n : Int) (h : Atoi x = some n) :
    (splitSign x).2.all isDigit = true := by
  by_cases hc : (splitSign x).2 = [] ∨ (splitSign x).2.all isDigit = false
  · simp only [Atoi] at h
    rw [if_pos hc] at h
    exact absurd h (by simp)
  · rw [not_or] at hc
    simpa using hc.2

theorem Atoi_noCRLF (x : GoString) (n : Int) (h : Atoi x = some n) : hasCRLF x = false := by
  have hd := Atoi_digits x n h
  cases x with
  | nil => rfl
  | cons b r =>
    by_cases h45 : b = 45
    · subst h45
      have hs : splitSign (45 :: r) = (true, r) := by simp [splitSign]
      rw [hs] at hd
      exact noCRLF_cons_of_ne 45 r (by decide) (noCRLF_of_digits r hd)
    · by_cases h43 : b = 43
      · subst h43
        have hs : splitSign (43 :: r) = (false, r) := by simp [splitSign]
        rw [hs] at hd
        exact noCRLF_cons_of_ne 43 r (by decide) (noCRLF_of_digits r hd)
      · have hs : splitSign (b :: r) = (false, b :: r) := by simp [splitSign, h45, h43]
        rw [hs] at hd
        exact noCRLF_of_digits (b :: r) hd

theorem setTokens_noCRLF (k v : GoString) (expiry : Option GoString)
    (hk : hasCRLF k = false) (hv : hasCRLF v = false)
    (hacc : expiry.all (fun ms => (Atoi ms).isSome) = true) :
    ∀ t ∈ setTokens k v expiry, hasCRLF t = false := by
  cases expiry with
  | none =>
    intro t ht
    simp only [setTokens, List.mem_cons, List.mem_singleton, List.not_mem_nil, or_false] at ht
    rcases ht with rfl | rfl
    · exact hk
    · exact hv
  | some ms =>
    intro t ht
    simp only [Option.all_some] at hacc
    obtain ⟨n, hn⟩ := Option.isSome_iff_exists.1 hacc
    simp only [setTokens, List.mem_cons, List.mem_singleton, List.not_mem_nil, or_false] at ht
    rcases ht with rfl | rfl | rfl | rfl
    · exact hk
    · exact hv
    · decide
    · exact Atoi_noCRLF _ n hn

theorem Set_setTokens (now : Int) (vault : Vault) (k v : GoString) (expiry : Option GoString)
    (hacc : expiry.all (fun ms => (Atoi ms).isSome) = true) :
    (Set now vault ((setTokens k v expiry).map bulkArg)).1
        = Command.mk (ascii "string") (ascii "+OK") [] [] [] []
    ∧ (Set now vault ((setTokens k v expiry).map bulkArg)).2.GetMemory k
        = some (GoValue.string v)
    ∧ ∀ k2, k2 ≠ k →
        (Set now vault ((setTokens k v expiry).map bulkArg)).2.memory.storage k2
          = vault.memory.storage k2 := by
  cases expiry with
  | none =>
    refine ⟨rfl, ?_, ?_⟩
    · simp [setTokens, Set, bulkArg, Command.Bulk, Vault.SetMemory, Vault.GetMemory,
        MemoryStorage.Save, MemoryStorage.Get]
    · intro k2 hk2
      simp [setTokens, Set, bulkArg, Command.Bulk, Vault.SetMemory, MemoryStorage.Save, hk2]
  | some ms =>
    simp only [Option.all_some] at hacc
    obtain ⟨n, hn⟩ := Option.isSome_iff_exists.1 hacc
    refine ⟨?_, ?_, ?_⟩
    · simp [setTokens, Set, bulkArg, Command.Bulk, hn]
    · simp [setTokens, Set, bulkArg, Command.Bulk, hn, Vault.SetMemory, Vault.GetMemory,
        MemoryStorage.Save, MemoryStorage.Get]
    · intro k2 hk2
      simp [setTokens, Set, bulkArg, Command.Bulk, hn, Vault.SetMemory, MemoryStorage.Save, hk2]

theorem handleMasterCommands_SET (w : World) (now : Int) (s : Server) (rest : List GoString) :
    handleMasterCommands w now s (ascii "SET" :: rest)
      = some { s with vault := (Set now s.vault (rest.map bulkArg)).2 } :=
  rfl

/-- C20: for every key `k` and value `v` free of CRLF and every SET `k` `v`, optionally
with `px ms`, that a MASTER accepts from a client (it answers `+OK\r\n`), the master
writes the frame `EncodeCommand(SET, args)` on its replicas, and feeding that frame into
the ingestion step `handleMasterConnection` of a replica, in any state of the replica and
with any capacity of the slice, leaves the store of the replica mapping `k` to `v`, the
value the store of the master holds for `k`, and changes no other key of it. -/
theorem propagated_SET_reaches_replica (w : World) (tm tr : Int) (m r : Server)
    (k v : GoString) (expiry : Option GoString) (spare : GoString)
    (hm : m.vault.IsMaster = true) (hk : hasCRLF k = false) (hv : hasCRLF v = false)
    (hacc : expiry.all (fun ms => (Atoi ms).isSome) = true)
    (hlen : (EncodeCommand (ascii "SET") ((setTokens k v expiry).map bulkArg)).length
      < 4294967296) :
    ∃ m1 r1, handleCommand w tm m (ascii "SET" :: setTokens k v expiry)
        = some (ascii "+OK\r\n", m1)
      ∧ m1.Replicas = m.Replicas.map
          (fun c => c.Write (EncodeCommand (ascii "SET") ((setTokens k v expiry).map bulkArg)))
      ∧ handleMasterConnection w tr r
          ⟨EncodeCommand (ascii "SET") ((setTokens k v expiry).map bulkArg), spare⟩ = some r1
      ∧ r1.vault.GetMemory k = some (GoValue.string v)
      ∧ m1.vault.GetMemory k = some (GoValue.string v)
      ∧ ∀ k2, k2 ≠ k → r1.vault.memory.storage k2 = r.vault.memory.storage k2 := by
  have hfree := setTokens_noCRLF k v expiry hk hv hacc
  have hargs : ∀ a ∈ (setTokens k v expiry).map bulkArg, hasCRLF a.Bulk = false := by
    intro a ha
    obtain ⟨t, ht, rfl⟩ := List.mem_map.1 ha
    exact hfree t ht
  have hn : ((setTokens k v expiry).map bulkArg).length + 1 ≤ 128 := by
    cases expiry <;> simp [setTokens]
  have hdec := masterDecode_EncodeCommand (ascii "SET") ((setTokens k v expiry).map bulkArg)
    spare hlen hn (by decide) hargs
  rw [map_Bulk_bulkArg] at hdec
  obtain ⟨hok, hget, hother⟩ := Set_setTokens tm m.vault k v expiry hacc
  obtain ⟨-, hget2, hother2⟩ := Set_setTokens tr r.vault k v expiry hacc
  refine ⟨({ m with vault := (Set tm m.vault ((setTokens k v expiry).map bulkArg)).2 }
      : Server).sendToReplicas (ascii "SET") ((setTokens k v expiry).map bulkArg),
    { r with vault := (Set tr r.vault ((setTokens k v expiry).map bulkArg)).2 },
    ?_, rfl, ?_, hget2, hget, hother2⟩
  · rw [handleCommand_SET_master w tm m _ hm, hok, formatResponse_string]
    rfl
  · simp only [handleMasterConnection, hdec, handleMasterCommands_SET]

/-- Witness of C20: SET k v px 50 on the master with one registered replica, the frame
fed to a fresh replica. -/
theorem propagated_SET_reaches_replica_witness :
    masterWithReplica.vault.IsMaster = true
    ∧ EncodeCommand (ascii "SET") ((setTokens (ascii "k") (ascii "v") (some (ascii "50"))).map bulkArg)
        = ascii "*5\r\n$3\r\nSET\r\n$1\r\nk\r\n$1\r\nv\r\n$2\r\npx\r\n$2\r\n50\r\n"
    ∧ ∃ m1 r1, handleCommand quietWorld 0 masterWithReplica
          (ascii "SET" :: setTokens (ascii "k") (ascii "v") (some (ascii "50")))
        = some (ascii "+OK\r\n", m1)
      ∧ m1.Replicas = masterWithReplica.Replicas.map
          (fun c => c.Write (EncodeCommand (ascii "SET")
            ((setTokens (ascii "k") (ascii "v") (some (ascii "50"))).map bulkArg)))
      ∧ handleMasterConnection quietWorld 7 newReplica
          ⟨EncodeCommand (ascii "SET")
            ((setTokens (ascii "k") (ascii "v") (some (ascii "50"))).map bulkArg), []⟩ = some r1
      ∧ r1.vault.GetMemory (ascii "k") = some (GoValue.string (ascii "v"))
      ∧ m1.vault.GetMemory (ascii "k") = some (GoValue.string (ascii "v"))
      ∧ ∀ k2, k2 ≠ ascii "k" → r1.vault.memory.storage k2 = newReplica.vault.memory.storage k2 :=
  ⟨by decide, by decide,
   propagated_SET_reaches_replica quietWorld 0 7 masterWithReplica newReplica (ascii "k")
     (ascii "v") (some (ascii "50")) [] (by decide) (by decide) (by decide) (by decide)
     (by decide)⟩

/-! ## The handshake frames on a master -/

theorem Join_append_singleton (segs : List GoString) (x sep : GoString) (hne : segs ≠ []) :
    Join (segs ++ [x]) sep = Join segs sep ++ sep ++ x := by
  induction segs with
  | nil => exact absurd rfl hne
  | cons a rest ih =>
    cases rest with
    | nil => simp [Join]
    | cons b r =>
      have h := ih (by simp)
      have e : Join ((a :: b :: r) ++ [x]) sep = a ++ sep ++ Join ((b :: r) ++ [x]) sep := rfl
      rw [e, h]
      simp only [Join, List.append_assoc]

theorem noCRLF_append (a : GoString) (b : UInt8) (l : GoString) (ha : hasCRLF a = false)
    (hl : hasCRLF (b :: l) = false) (hb : b ≠ 10) : hasCRLF (a ++ b :: l) = false := by
  induction a using hasCRLF.induct with
  | case1 => simpa using hl
  | case2 x =>
    exact (hasCRLF_cons_cons x b l).2 ⟨fun h => hb h.2, hl⟩
  | case3 x y r ih =>
    obtain ⟨h1, h2⟩ := (hasCRLF_cons_cons x y r).1 ha
    exact (hasCRLF_cons_cons x y (r ++ b :: l)).2 ⟨h1, ih h2⟩

theorem noCRLF_fmtInt (i : Int) : hasCRLF (fmtInt i) = false := by
  cases i with
  | ofNat n => exact noCRLF_fmtNat n
  | negSucc n => exact noCRLF_cons_of_ne 45 _ (by decide) (noCRLF_fmtNat _)

theorem noCRLF_handshakeAddress (c : Config) (h : hasCRLF c.Host = false) :
    hasCRLF (handshakeAddress c) = false := by
  have e : handshakeAddress c = c.Host ++ 58 :: fmtInt c.Port := by
    simp [handshakeAddress, ascii]
  rw [e]
  exact noCRLF_append c.Host 58 _ h (noCRLF_cons_of_ne 58 _ (by decide) (noCRLF_fmtInt _))
    (by decide)

theorem handshakeListeningPort_eq (c : Config) :
    handshakeListeningPort c
      = 42 :: (Join [ascii "4", ascii "$8", ascii "REPLCONF", ascii "$7", ascii "LISTENING-PORT",
          36 :: fmtNat (handshakeAddress c).length, handshakeAddress c] CRLF ++ CRLF) := by
  have e : ascii "*4\r\n$8\r\nREPLCONF\r\n$7\r\nLISTENING-PORT\r\n$"
      = 42 :: (ascii "4" ++ CRLF ++ (ascii "$8" ++ CRLF ++ (ascii "REPLCONF" ++ CRLF
          ++ (ascii "$7" ++ CRLF ++ (ascii "LISTENING-PORT" ++ CRLF ++ [36]))))) := by
    decide
  simp only [handshakeListeningPort, e, Join, List.cons_append, List.append_assoc,
    List.nil_append, List.singleton_append]

theorem ParseReq_handshakeListeningPort (c : Config) (spare : GoString) (m : Nat)
    (hm : m ≤ spare.length) (hz : hasCRLF (spare.take m) = false)
    (hhost : hasCRLF c.Host = false) :
    ParseReq ⟨handshakeListeningPort c, spare⟩ ((handshakeListeningPort c).length + m)
      = Result.ok [ascii "REPLCONF", ascii "LISTENING-PORT", handshakeAddress c] := by
  have haddr := noCRLF_handshakeAddress c hhost
  have hfree : ∀ t ∈ [ascii "4", ascii "$8", ascii "REPLCONF", ascii "$7",
      ascii "LISTENING-PORT", 36 :: fmtNat (handshakeAddress c).length, handshakeAddress c]
        ++ [spare.take m], hasCRLF t = false := by
    intro t ht
    simp only [List.cons_append, List.nil_append, List.mem_cons, List.mem_singleton,
      List.not_mem_nil, or_false] at ht
    rcases ht with rfl | rfl | rfl | rfl | rfl | rfl | rfl | rfl
    · decide
    · decide
    · decide
    · decide
    · decide
    · exact noCRLF_lenField _
    · exact haddr
    · exact hz
  have hsplit := splitCRLF_Join _ (by simp) hfree
  rw [Join_append_singleton _ _ _ (by simp)] at hsplit
  have hlen : 4 ≤ (Join [ascii "4", ascii "$8", ascii "REPLCONF", ascii "$7",
      ascii "LISTENING-PORT", 36 :: fmtNat (handshakeAddress c).length, handshakeAddress c]
        CRLF ++ CRLF).length + 1 + m := by
    simp only [Join, List.length_append, CRLF, List.length_cons, List.length_nil]
    omega
  rw [handshakeListeningPort_eq, List.length_cons, ParseReq_padded _ spare m hm hlen, hsplit]
  have hatoi : Atoi (ascii "4") = some 4 := by decide
  have hr : ¬ ((4 : Int) < 1 ∨ (4 : Int) > (kMaxArgs : Int)) := by decide
  simp only [List.cons_append, List.nil_append, List.length_cons, List.length_nil,
    List.headD_cons, hatoi, List.drop_succ_cons, List.drop_zero, pairTokens]
  simp only [hr, if_false]
  rfl

theorem handleCommand_ping (w : World) (now : Int) (s : Server) :
    handleCommand w now s [ascii "ping"] = some (ascii "+PONG\r\n", s) := by
  have hup : ToUpper w (ascii "ping") = ascii "PING" := rfl
  have hd : dispatch w now s (ascii "PING") [] = some (formatResponse (Ping []), s) := rfl
  simp only [handleCommand, hup, List.map_nil, hd,
    propagate_of_not_write s _ _ isWriteCommand_PING, Option.map_some']
  rfl

theorem handleCommand_REPLCONF_port_master (w : World) (now : Int) (s : Server) (a : GoString)
    (hm : s.vault.IsMaster = true) :
    handleCommand w now s [ascii "REPLCONF", ascii "LISTENING-PORT", a]
      = some (ascii "+OK\r\n", s.ReplicasConnection w a) := by
  have hup : ToUpper w (ascii "LISTENING-PORT") = ascii "LISTENING-PORT" := rfl
  have hm2 : (s.ReplicasConnection w a).vault.IsMaster = true := by
    rw [ReplicasConnection_vault]
    exact hm
  have hb1 : (bulkArg (ascii "LISTENING-PORT")).Bulk = ascii "LISTENING-PORT" := rfl
  have hb2 : (bulkArg a).Bulk = a := rfl
  simp only [handleCommand, ToUpper_REPLCONF, dispatch_REPLCONF, List.map_cons, List.map_nil,
    ReplConf, hb1, hb2, hup, if_true, hm2, Option.map_some',
    propagate_of_not_write _ _ _ isWriteCommand_REPLCONF, formatResponse_string]
  rfl

theorem handleCommand_REPLCONF_capa (w : World) (now : Int) (s : Server) (x : GoString) :
    handleCommand w now s [ascii "REPLCONF", ascii "capa", x] = some (ascii "+OK\r\n", s) := by
  have hup : ToUpper w (ascii "capa") = ascii "CAPA" := rfl
  have hne : ascii "CAPA" ≠ ascii "LISTENING-PORT" := by decide
  have hb1 : (bulkArg (ascii "capa")).Bulk = ascii "capa" := rfl
  simp only [handleCommand, ToUpper_REPLCONF, dispatch_REPLCONF, List.map_cons, List.map_nil,
    ReplConf, hb1, hup, hne, if_false, if_true, Option.map_some',
    propagate_of_not_write _ _ _ isWriteCommand_REPLCONF, formatResponse_string]
  rfl

theorem isWriteCommand_PSYNC : isWriteCommand (ascii "PSYNC") = false := by decide

theorem handleCommand_PSYNC (w : World) (now : Int) (s : Server) (rest : List GoString) :
    handleCommand w now s (ascii "PSYNC" :: rest) = some (formatResponse (PSync s.vault), s) := by
  have hup : ToUpper w (ascii "PSYNC") = ascii "PSYNC" := rfl
  have hd : dispatch w now s (ascii "PSYNC") (rest.map bulkArg)
      = some (formatResponse (PSync s.vault), s) := rfl
  simp only [handleCommand, hup, hd, propagate_of_not_write s _ _ isWriteCommand_PSYNC,
    Option.map_some']

theorem formatResponse_PSync (v : Vault) :
    formatResponse (PSync v)
      = ascii "*2\r\n+FULLRESYNC " ++ (v.MainReplicaID ++ ascii " " ++ fmtInt v.MainReplicaOffset
          ++ CRLF ++ CRLF
          ++ (ascii "$" ++ fmtNat v.RDBParsed.length ++ CRLF ++ v.RDBParsed ++ CRLF)) := by
  have m1 : ascii "multi" ≠ ascii "string" := by decide
  have m2 : ascii "multi" ≠ ascii "list" := by decide
  have m3 : ascii "multi" ≠ ascii "nil" := by decide
  have m4 : ascii "multi" ≠ ascii "err" := by decide
  have b1 : ascii "bulk" ≠ ascii "string" := by decide
  have b2 : ascii "bulk" ≠ ascii "list" := by decide
  have b3 : ascii "bulk" ≠ ascii "nil" := by decide
  have b4 : ascii "bulk" ≠ ascii "err" := by decide
  have b5 : ascii "bulk" ≠ ascii "arr" := by decide
  have b6 : ascii "bulk" ≠ ascii "multi" := by decide
  have e : ascii "*" ++ fmtNat 2 ++ CRLF = ascii "*2\r\n" := by decide
  have e2 : ascii "*2\r\n+FULLRESYNC " = ascii "*2\r\n" ++ ascii "+FULLRESYNC " := by decide
  simp only [PSync, formatResponse, formatResponseAll, m1, m2, m3, m4, b1, b2, b3, b4, b5, b6,
    if_false, or_true, or_self, if_true, List.length_cons, List.length_nil, List.append_nil]
  rw [show (0 + 1 + 1 : Nat) = 2 from rfl, e, e2]
  simp only [List.append_assoc]

/-- C21: for every replica host free of CRLF and every port, each of the four frames
that `DoHandshake` writes is accepted by `ParseReq`, with whatever capacity, and yields
the tokens ping; REPLCONF, LISTENING-PORT, `host:port`; REPLCONF, capa, psync2; and
PSYNC, ?, -1. Read by the session handler of a MASTER (the second frame when it fits in
one read), they are dispatched to PING, to REPLCONF LISTENING-PORT, which calls
`ReplicasConnection` with exactly `host:port`, to REPLCONF CAPA and to PSYNC, and are
answered `+PONG\r\n`, `+OK\r\n`, `+OK\r\n` and the encoding of the multi of two elements
whose first is the FULLRESYNC line: none of the four replies is an error reply. The
results of the four handlers, before `formatResponse`, are the strings `+PONG`, `+OK`,
`+OK` and the multi `PSync`. -/
theorem handshake_frames_on_master (w : World) (now : Int) (s : Server) (c : Config)
    (hm : s.vault.IsMaster = true) (hhost : hasCRLF c.Host = false) :
    (∀ v : Vault, ∀ conn : Conn, v.config = c → conn.broken = false →
        (v.DoHandshake conn).sent
          = conn.sent ++ [handshakePing, handshakeListeningPort c, handshakeCapa, handshakePsync])
    ∧ (∀ spare : GoString,
        ParseReq ⟨handshakePing, spare⟩ handshakePing.length = Result.ok [ascii "ping"]
        ∧ ParseReq ⟨handshakeListeningPort c, spare⟩ (handshakeListeningPort c).length
            = Result.ok [ascii "REPLCONF", ascii "LISTENING-PORT", handshakeAddress c]
        ∧ ParseReq ⟨handshakeCapa, spare⟩ handshakeCapa.length
            = Result.ok [ascii "REPLCONF", ascii "capa", ascii "psync2"]
        ∧ ParseReq ⟨handshakePsync, spare⟩ handshakePsync.length
            = Result.ok [ascii "PSYNC", ascii "?", ascii "-1"])
    ∧ handleConnectionStep w now s handshakePing = SessionOutcome.replied (ascii "+PONG\r\n") s
    ∧ handleCommand w now s [ascii "REPLCONF", ascii "LISTENING-PORT", handshakeAddress c]
        = some (ascii "+OK\r\n", s.ReplicasConnection w (handshakeAddress c))
    ∧ ((handshakeListeningPort c).length ≤ kMaxMsg →
        handleConnectionStep w now s (handshakeListeningPort c)
          = SessionOutcome.replied (ascii "+OK\r\n") (s.ReplicasConnection w (handshakeAddress c)))
    ∧ handleConnectionStep w now s handshakeCapa = SessionOutcome.replied (ascii "+OK\r\n") s
    ∧ handleConnectionStep w now s handshakePsync
        = SessionOutcome.replied (formatResponse (PSync s.vault)) s
    ∧ (PSync s.vault).Typ = ascii "multi" ∧ (PSync s.vault).Arr.length = 2
    ∧ ascii "*2\r\n+FULLRESYNC " <+: formatResponse (PSync s.vault)
    ∧ ¬ (ascii "-ERR" <+: formatResponse (PSync s.vault))
    ∧ (∃ h, Handlers (ToUpper w (ascii "ping")) = some h
        ∧ h w now s [] true = some (Command.mk (ascii "string") (ascii "+PONG") [] [] [] [], s))
    ∧ (∃ h, Handlers (ToUpper w (ascii "REPLCONF")) = some h
        ∧ h w now s [bulkArg (ascii "LISTENING-PORT"), bulkArg (handshakeAddress c)] true
            = some (Command.mk (ascii "string") (ascii "+OK") [] [] [] [],
                s.ReplicasConnection w (handshakeAddress c)))
    ∧ (∃ h, Handlers (ToUpper w (ascii "REPLCONF")) = some h
        ∧ h w now s [bulkArg (ascii "capa"), bulkArg (ascii "psync2")] true
            = some (Command.mk (ascii "string") (ascii "+OK") [] [] [] [], s))
    ∧ (∃ h, Handlers (ToUpper w (ascii "PSYNC")) = some h
        ∧ h w now s [bulkArg (ascii "?"), bulkArg (ascii "-1")] true = some (PSync s.vault, s)) := by
  have h1 : handshakePing = EncodeCommand (ascii "ping") [] := by decide
  have h3 : handshakeCapa
      = EncodeCommand (ascii "REPLCONF") [bulkArg (ascii "capa"), bulkArg (ascii "psync2")] := by
    decide
  have h4 : handshakePsync
      = EncodeCommand (ascii "PSYNC") [bulkArg (ascii "?"), bulkArg (ascii "-1")] := by
    decide
  have a3 : ∀ a ∈ [bulkArg (ascii "capa"), bulkArg (ascii "psync2")], hasCRLF a.Bulk = false := by
    decide
  have a4 : ∀ a ∈ [bulkArg (ascii "?"), bulkArg (ascii "-1")], hasCRLF a.Bulk = false := by
    decide
  have d1 : sessionDecode handshakePing = Result.ok [ascii "ping"] := by
    rw [h1]
    exact sessionDecode_EncodeCommand _ _ (by decide) (by decide) (by decide)
      (fun a ha => by simp at ha)
  have d3 : sessionDecode handshakeCapa
      = Result.ok [ascii "REPLCONF", ascii "capa", ascii "psync2"] := by
    rw [h3]
    exact sessionDecode_EncodeCommand _ _ (by decide) (by decide) (by decide) a3
  have d4 : sessionDecode handshakePsync = Result.ok [ascii "PSYNC", ascii "?", ascii "-1"] := by
    rw [h4]
    exact sessionDecode_EncodeCommand _ _ (by decide) (by decide) (by decide) a4
  have hpre : ascii "*2\r\n+FULLRESYNC " <+: formatResponse (PSync s.vault) := by
    rw [formatResponse_PSync]
    exact List.prefix_append _ _
  have hm2 : (s.ReplicasConnection w (handshakeAddress c)).vault.IsMaster = true := by
    rw [ReplicasConnection_vault]
    exact hm
  have hport : ReplConf w s [bulkArg (ascii "LISTENING-PORT"), bulkArg (handshakeAddress c)] true
      = some (Command.mk (ascii "string") (ascii "+OK") [] [] [] [],
          s.ReplicasConnection w (handshakeAddress c)) := by
    have hup : ToUpper w (ascii "LISTENING-PORT") = ascii "LISTENING-PORT" := rfl
    have hb1 : (bulkArg (ascii "LISTENING-PORT")).Bulk = ascii "LISTENING-PORT" := rfl
    have hb2 : (bulkArg (handshakeAddress c)).Bulk = handshakeAddress c := rfl
    simp only [ReplConf, hb1, hb2, hup, if_true, hm2]
  refine ⟨?_, fun spare => ⟨?_, ?_, ?_, ?_⟩, ?_, ?_, ?_, ?_, ?_, rfl, rfl, hpre, ?_,
    ⟨_, rfl, rfl⟩, ⟨_, rfl, hport⟩, ⟨_, rfl, rfl⟩, ⟨_, rfl, rfl⟩⟩
  · intro v conn hv hb
    simp only [Vault.DoHandshake, Conn.Write, hb, hv, Bool.false_eq_true, if_false,
      List.append_assoc, List.cons_append, List.nil_append]
  · rw [h1]
    exact ParseReq_EncodeCommand _ _ spare (by decide) (by decide) (fun a ha => by simp at ha)
  · have := ParseReq_handshakeListeningPort c spare 0 (Nat.zero_le _) (by simp [hasCRLF]) hhost
    simpa using this
  · rw [h3]
    exact ParseReq_EncodeCommand _ _ spare (by decide) (by decide) a3
  · rw [h4]
    exact ParseReq_EncodeCommand _ _ spare (by decide) (by decide) a4
  · simp only [handleConnectionStep, d1, handleCommand_ping]
  · exact handleCommand_REPLCONF_port_master w now s _ hm
  · intro hlen
    have hdec : sessionDecode (handshakeListeningPort c)
        = Result.ok [ascii "REPLCONF", ascii "LISTENING-PORT", handshakeAddress c] := by
      have h := ParseReq_handshakeListeningPort c
        (List.replicate (kMaxMsg - (handshakeListeningPort c).length) 0)
        (kMaxMsg - (handshakeListeningPort c).length) (by simp)
        (by rw [List.take_of_length_le (by simp)]; exact noCRLF_zeros _) hhost
      have e1 : (handshakeListeningPort c).length + (kMaxMsg - (handshakeListeningPort c).length)
          = kMaxMsg := by omega
      have e2 : kMaxMsg % 4294967296 = kMaxMsg := by decide
      rw [e1] at h
      simp only [sessionDecode, readBuffer, e2]
      exact h
    simp only [handleConnectionStep, hdec, handleCommand_REPLCONF_port_master w now s _ hm]
  · simp only [handleConnectionStep, d3, handleCommand_REPLCONF_capa]
  · simp only [handleConnectionStep, d4, handleCommand_PSYNC]
  · intro hbad
    obtain ⟨t1, ht1⟩ := hpre
    obtain ⟨t2, ht2⟩ := hbad
    rw [← ht2] at ht1
    have := congrArg List.head? ht1
    simp [ascii] at this

/-- Witness of C21: a replica at localhost:3313 and a fresh master that can dial it. -/
theorem handshake_frames_on_master_witness :
    (newMaster []).vault.IsMaster = true
    ∧ hasCRLF newReplica.vault.config.Host = false
    ∧ handshakeListeningPort newReplica.vault.config
        = ascii "*4\r\n$8\r\nREPLCONF\r\n$7\r\nLISTENING-PORT\r\n$14\r\nlocalhost:3313\r\n"
    ∧ handleConnectionStep openWorld 0 (newMaster []) (handshakeListeningPort newReplica.vault.config)
        = SessionOutcome.replied (ascii "+OK\r\n")
            ((newMaster []).ReplicasConnection openWorld (ascii "localhost:3313"))
    ∧ ((newMaster []).ReplicasConnection openWorld (ascii "localhost:3313")).Replicas
        = [⟨ascii "localhost:3313", false, []⟩]
    ∧ handleConnectionStep openWorld 0 (newMaster []) handshakePsync
        = SessionOutcome.replied (formatResponse (PSync (newMaster []).vault)) (newMaster []) :=
  ⟨by decide, by decide, by decide,
   (handshake_frames_on_master openWorld 0 (newMaster []) newReplica.vault.config (by decide)
      (by decide)).2.2.2.2.1 (by decide),
   by decide,
   (handshake_frames_on_master openWorld 0 (newMaster []) newReplica.vault.config (by decide)
      (by decide)).2.2.2.2.2.2.1⟩

/-! ## Index safety of the decoder and of the dispatchers -/

theorem ParseReq_ok_parts (data : ByteSlice) (length : Nat) (toks : List GoString)
    (h : ParseReq data length = Result.ok toks) :
    data.elems ≠ [] ∧ length ≤ data.elems.length + data.spare.length
      ∧ 3 ≤ (splitCRLF (((data.elems ++ data.spare).take length).drop 1)).length
      ∧ toks = pairTokens ((splitCRLF (((data.elems ++ data.spare).take length).drop 1)).drop 1) := by
  unfold ParseReq at h
  by_cases h4 : length < 4
  · rw [if_pos h4] at h
    exact absurd h (by simp)
  · rw [if_neg h4] at h
    cases he : data.elems with
    | nil =>
      rw [he] at h
      exact absurd h (by simp)
    | cons b0 tl =>
      rw [he] at h
      dsimp only at h
      by_cases hb : b0 ≠ 42
      · rw [if_pos hb] at h
        exact absurd h (by simp)
      · rw [if_neg hb] at h
        by_cases hcap : (b0 :: tl).length + data.spare.length < length
        · rw [if_pos hcap] at h
          exact absurd h (by simp)
        · rw [if_neg hcap] at h
          by_cases h3 : (splitCRLF (((b0 :: tl ++ data.spare).take length).drop 1)).length < 3
          · rw [if_pos h3] at h
            exact absurd h (by simp)
          · rw [if_neg h3] at h
            cases ha : Atoi ((splitCRLF (((b0 :: tl ++ data.spare).take length).drop 1)).headD [])
              with
            | none =>
              rw [ha] at h
              exact absurd h (by simp)
            | some n =>
              rw [ha] at h
              dsimp only at h
              by_cases hr : n < 1 ∨ n > (kMaxArgs : Int)
              · rw [if_pos hr] at h
                exact absurd h (by simp)
              · rw [if_neg hr, Result.ok.injEq] at h
                exact ⟨by simp, by omega, by omega, h.symm⟩

theorem tokenLoop_spec (parts : List GoString) (fuel : Nat) :
    ∀ (i : Nat) (out : List GoString), parts.length ≤ i + 2 * fuel + 1 →
      tokenLoop parts fuel i out = some (out ++ pairTokens (parts.drop i)) := by
  induction fuel with
  | zero =>
    intro i out h
    have hd : (parts.drop i).length ≤ 1 := by
      rw [List.length_drop]
      omega
    have hp : pairTokens (parts.drop i) = [] := by
      match hq : parts.drop i, hd with
      | [], _ => rfl
      | [_], _ => rfl
      | _ :: _ :: _, hd => simp at hd
    simp only [tokenLoop, hp, List.append_nil]
  | succ fuel ih =>
    intro i out h
    by_cases hi : i < parts.length - 1
    · have h1 : i + 1 < parts.length := by omega
      have h0 : i < parts.length := by omega
      have hdrop : parts.drop i = parts[i] :: parts[i + 1] :: parts.drop (i + 2) := by
        rw [List.drop_eq_getElem_cons h0, List.drop_eq_getElem_cons h1]
      simp only [tokenLoop, hi, if_true, List.getElem?_eq_getElem h1]
      rw [ih (i + 2) (out ++ [parts[i + 1]]) (by omega), hdrop]
      simp only [pairTokens, List.append_assoc, List.singleton_append]
    · have hd : (parts.drop i).length ≤ 1 := by
        rw [List.length_drop]
        omega
      have hp : pairTokens (parts.drop i) = [] := by
        match hq : parts.drop i, hd with
        | [], _ => rfl
        | [_], _ => rfl
        | _ :: _ :: _, hd => simp at hd
      simp only [tokenLoop, hi, if_false, hp, List.append_nil]

/-- C22: whenever `ParseReq` succeeds, at either of its call sites and with any slice and
length, its output has at least one token; the accesses `data[0]` and `data[1:length]`
and the segment accesses `parts[0]` and, in the loop run with checked indexing,
`parts[i+1]` are all within bounds (the checked loop returns the very output); hence on decoded input `handleCommand` takes the branch past
`message[0]`, not the `-ERR Empty command` branch, and `handleMasterCommands` takes the
branch past `command[0]`. -/
theorem decoded_request_has_name (data : ByteSlice) (length : Nat) (toks : List GoString)
    (h : ParseReq data length = Result.ok toks) :
    data.elems ≠ [] ∧ length ≤ data.elems.length + data.spare.length
    ∧ (splitCRLF (((data.elems ++ data.spare).take length).drop 1))[0]?.isSome = true
    ∧ tokenLoop (splitCRLF (((data.elems ++ data.spare).take length).drop 1))
        (splitCRLF (((data.elems ++ data.spare).take length).drop 1)).length 1 [] = some toks
    ∧ ∃ name rest, toks = name :: rest
      ∧ (∀ (w : World) (now : Int) (s : Server),
          handleCommand w now s toks
            = match dispatch w now s (ToUpper w name) (rest.map bulkArg) with
              | none => none
              | some r =>
                (propagate r.2 (ToUpper w name) (rest.map bulkArg)).map (fun s3 => (r.1, s3)))
      ∧ (∀ (w : World) (now : Int) (s : Server),
          handleMasterCommands w now s toks
            = match Handlers name with
              | some handler => (handler w now s (rest.map bulkArg) false).map (fun r => r.2)
              | none => some s) := by
  obtain ⟨hne, hcap, h3, htoks⟩ := ParseReq_ok_parts data length toks h
  have hloop := tokenLoop_spec (splitCRLF (((data.elems ++ data.spare).take length).drop 1))
    (splitCRLF (((data.elems ++ data.spare).take length).drop 1)).length 1 [] (by omega)
  rw [List.nil_append, ← htoks] at hloop
  have hlen : 0 < toks.length := by
    rw [htoks, pairTokens_length, List.length_drop]
    omega
  refine ⟨hne, hcap, ?_, hloop, ?_⟩
  · rw [List.getElem?_eq_getElem (by omega)]
    rfl
  · match toks, hlen with
    | name :: rest, _ => exact ⟨name, rest, rfl, fun _ _ _ => rfl, fun _ _ _ => rfl⟩

/-- Witness of C22 on the frame `*1\r\n$4\r\nPING\r\n` decoded as a whole. -/
theorem decoded_request_has_name_witness :
    ParseReq ⟨ascii "*1\r\n$4\r\nPING\r\n", []⟩ 14 = Result.ok [ascii "PING"]
    ∧ tokenLoop (splitCRLF (((ascii "*1\r\n$4\r\nPING\r\n" ++ []).take 14).drop 1))
        (splitCRLF (((ascii "*1\r\n$4\r\nPING\r\n" ++ []).take 14).drop 1)).length 1 []
        = some [ascii "PING"] :=
  ⟨by decide,
   (decoded_request_has_name ⟨ascii "*1\r\n$4\r\nPING\r\n", []⟩ 14 [ascii "PING"] (by decide)).2.2.2.1⟩

/-! ## Reachable stores hold strings -/

theorem ReplConf_memory (w : World) (s s1 : Server) (args : List Command) (actions : Bool)
    (r : Command) (hr : ReplConf w s args actions = some (r, s1)) :
    s1.vault.memory = s.vault.memory := by
  cases actions with
  | true =>
    obtain ⟨r2, s2, hr2, -, -, hmem⟩ := ReplConf_spec w s args
    rw [hr2, Option.some.injEq, Prod.mk.injEq] at hr
    obtain ⟨-, rfl⟩ := hr
    exact hmem
  | false =>
    unfold ReplConf at hr
    split at hr
    · rename_i a0 a1 tl
      by_cases hL : ToUpper w a0.Bulk = ascii "LISTENING-PORT"
      · rw [if_pos hL] at hr
        simp at hr
      · rw [if_neg hL] at hr
        split_ifs at hr
        all_goals simp only [Option.some.injEq, Prod.mk.injEq] at hr
        all_goals obtain ⟨-, rfl⟩ := hr
        all_goals rfl
    · simp only [Option.some.injEq, Prod.mk.injEq] at hr
      obtain ⟨-, rfl⟩ := hr
      rfl

theorem Handlers_memory (w : World) (now : Int) (s s1 : Server) (name : GoString)
    (handler : Handler) (args : List Command) (actions : Bool) (r : Command)
    (hH : Handlers name = some handler) (hr : handler w now s args actions = some (r, s1))
    (hall : s.vault.memory.AllStrings) : s1.vault.memory.AllStrings := by
  unfold Handlers at hH
  split_ifs at hH with h1 h2 h3 h4 h5 h6 h7
  all_goals simp only [Option.some.injEq] at hH
  all_goals subst hH
  · simp only [Option.some.injEq, Prod.mk.injEq] at hr
    obtain ⟨-, rfl⟩ := hr
    exact hall
  · simp only [Option.some.injEq, Prod.mk.injEq] at hr
    obtain ⟨-, rfl⟩ := hr
    exact hall
  · simp only [Option.some.injEq, Prod.mk.injEq] at hr
    obtain ⟨-, rfl⟩ := hr
    exact Set_AllStrings now s.vault args hall
  · cases hG : Get s.vault args with
    | none => simp [hG] at hr
    | some c =>
      simp only [hG, Option.map_some', Option.some.injEq, Prod.mk.injEq] at hr
      obtain ⟨-, rfl⟩ := hr
      exact hall
  · simp only [Option.some.injEq, Prod.mk.injEq] at hr
    obtain ⟨-, rfl⟩ := hr
    exact hall
  · rw [ReplConf_memory w s s1 args actions r hr]
    exact hall
  · simp only [Option.some.injEq, Prod.mk.injEq] at hr
    obtain ⟨-, rfl⟩ := hr
    exact hall

theorem Reachable_AllStrings (s : Server) (h : Reachable s) : s.vault.memory.AllStrings := by
  induction h with
  | start s hempty =>
    intro k item hk
    rw [hempty k] at hk
    exact absurd hk (by simp)
  | step s s1 w now name handler args actions r _ hH hr ih =>
    exact Handlers_memory w now s s1 name handler args actions r hH hr ih

/-- C23: in every state reachable from an empty store by dispatching commands through the
table `Handlers`, every stored value is a string; hence on a reachable state the GET
handler returns for every argument list: its type assertion `value.(string)` never
fails. -/
theorem reachable_store_holds_strings (s : Server) (h : Reachable s) :
    s.vault.memory.AllStrings
    ∧ (∀ args : List Command, (Get s.vault args).isSome = true)
    ∧ (∀ k : GoString, s.vault.GetMemory k = none ∨ ∃ v, s.vault.GetMemory k = some (GoValue.string v)) := by
  have hall := Reachable_AllStrings s h
  refine ⟨hall, fun args => ?_, fun k => ?_⟩
  · obtain ⟨r, hr⟩ := Get_total s.vault args hall
    rw [hr]
    rfl
  · cases hs : s.vault.memory.storage k with
    | none => exact Or.inl (by simp [Vault.GetMemory, MemoryStorage.Get, hs])
    | some item =>
      obtain ⟨v, hv⟩ := hall k item hs
      exact Or.inr ⟨v, by simp [Vault.GetMemory, MemoryStorage.Get, hs, hv]⟩

/-- Witness of C23: the state of a fresh master after the handler of SET has stored bar
under foo is reachable, and GET foo returns the string bar there. -/
theorem reachable_store_holds_strings_witness :
    Reachable { newMaster [] with
        vault := (Set 0 (newMaster []).vault [bulkArg (ascii "foo"), bulkArg (ascii "bar")]).2 }
    ∧ (Get (Set 0 (newMaster []).vault [bulkArg (ascii "foo"), bulkArg (ascii "bar")]).2
          [bulkArg (ascii "foo")]).map Command.Str = some (ascii "bar")
    ∧ ∀ args : List Command,
        (Get (Set 0 (newMaster []).vault [bulkArg (ascii "foo"), bulkArg (ascii "bar")]).2
          args).isSome = true :=
  ⟨Reachable.step (newMaster []) _ quietWorld 0 (ascii "SET") _
      [bulkArg (ascii "foo"), bulkArg (ascii "bar")] true _
      (Reachable.start _ (fun _ => rfl)) rfl rfl,
   by decide,
   (reachable_store_holds_strings _
      (Reachable.step (newMaster []) _ quietWorld 0 (ascii "SET") _
        [bulkArg (ascii "foo"), bulkArg (ascii "bar")] true _
        (Reachable.start _ (fun _ => rfl)) rfl rfl)).2.1⟩

end Rednav
